import Mathlib

/-!
# RegistryKey.c : typed value marshalling

A shallow embedding of the marshalling layer of `src/jni/registry/RegistryKey.c`
(the JNI bridge between managed registry objects and the Windows registry API).

Conventions of the embedding

* A native buffer is a function from byte offsets to byte values (`Mem`); a
  freshly allocated block has arbitrary contents, passed in as a parameter.
* A managed string (`jstring`) is the list of its UTF-16 code units.
* `DWORD` arithmetic is taken modulo `2 ^ 32`; the casts `(int)` of a `DWORD`
  are the two's complement reinterpretation.
* JNI and Win32 entry points are not part of the repository.  The JNI string
  accessors are modelled after the JNI specification (modified UTF-8); the
  results of registry calls are parameters.
-/

namespace RegistryKey

/-! ## Machine integers and memory -/

/-- The modulus of 32-bit `DWORD` arithmetic. -/
def DWORD_MOD : Nat := 2 ^ 32

/-- The conversion of a `jint` / `int` to a `DWORD` (reduction modulo `2 ^ 32`). -/
def toDWORD (v : Int) : Nat := (v % 4294967296).toNat

/-- The cast `(int)` applied to a `DWORD`: two's complement reinterpretation. -/
def toInt32 (v : Nat) : Int :=
  if v % 4294967296 < 2147483648 then ((v % 4294967296 : Nat) : Int)
  else ((v % 4294967296 : Nat) : Int) - 4294967296

/-- The conversion of a signed integer to `size_t` on a platform whose
`size_t` has `bits` bits. -/
def toSizeT (bits : Nat) (v : Int) : Nat := (v % (2 : Int) ^ bits).toNat

/-- Whether `malloc` can return a block of `size` bytes while other blocks of
at least `live` bytes in total are held: the block is disjoint from them and
from the null address, inside an address space of `2 ^ bits` bytes. -/
def grantable (bits live size : Nat) : Bool := decide (live + size < 2 ^ bits)

/-- Native memory seen from a base pointer: the byte stored at each offset. -/
abbrev Mem := Nat → Nat

/-- The assignment `p[off] = v`. -/
def store (mem : Mem) (off v : Nat) : Mem := fun q => if q = off then v else mem q

/-! ## Managed strings and the JNI accessors -/

/-- A managed string: its UTF-16 code units, in order. -/
abbrev JString := List Nat

/-- JNI `GetStringLength`: the number of UTF-16 code units. -/
def GetStringLength (jStr : JString) : Nat := jStr.length

/-- The modified UTF-8 encoding of one UTF-16 code unit (JNI specification):
one byte for `1 .. 0x7F`, two bytes for `0` and `0x80 .. 0x7FF`, three bytes above. -/
def utfUnit (c : Nat) : List Nat :=
  if 1 ≤ c ∧ c ≤ 127 then [c]
  else if c ≤ 2047 then [192 + c / 64, 128 + c % 64]
  else [224 + (c / 4096) % 16, 128 + (c / 64) % 64, 128 + c % 64]

/-- JNI `GetStringUTFChars`: the modified UTF-8 bytes of the string. -/
def GetStringUTFChars (jStr : JString) : List Nat := jStr.flatMap utfUnit

/-- JNI `GetStringUTFLength`: the number of modified UTF-8 bytes. -/
def GetStringUTFLength (jStr : JString) : Nat := (GetStringUTFChars jStr).length

/-- The cast `(jchar)buf[i]` of a `char` (signed, as compiled by MSVC) to the
16-bit managed character. -/
def widen (b : Nat) : Nat := if b % 256 < 128 then b % 256 else b % 256 + 65280

/-! ## Ascii transcoder -/

/-- The copy loop of `jStringToNewAscii`:
`for (i = 0; i < utfLen; ++i) asciiBuf[i] = utfBuf[i];` -/
def newAsciiLoop (utfBuf : List Nat) (utfLen : Nat) : Nat → Nat → Mem → Nat × Mem
  | 0, i, mem => (i, mem)
  | fuel + 1, i, mem =>
    if i < utfLen then
      newAsciiLoop utfBuf utfLen fuel (i + 1) (store mem i (utfBuf.getD i 0))
    else (i, mem)

/-- Function `jStringToNewAscii`, on a successful `malloc(utfLen + 2)` whose
block initially holds `heap`: the block after the copy and the terminator. -/
def jStringToNewAscii (jStr : JString) (heap : Mem) : Mem :=
  let utfLen := GetStringUTFLength jStr
  let utfBuf := GetStringUTFChars jStr
  let r := newAsciiLoop utfBuf utfLen utfLen 0 heap
  store r.2 r.1 0

/-- The size requested from `malloc` by `jStringToNewAscii`. -/
def jStringToNewAsciiSize (jStr : JString) : Nat := GetStringUTFLength jStr + 2

/-- The copy loop of `jStringToAscii`:
`for (i = 0; i < utfLen && i < (asciiLen - 1); ++i) asciiBuf[i] = utfBuf[i];`
where `asciiBuf` is an offset into `mem`. -/
def asciiLoop (utfBuf : List Nat) (utfLen : Nat) (asciiBuf : Nat) (asciiLen : Int) :
    Nat → Nat → Mem → Nat × Mem
  | 0, i, mem => (i, mem)
  | fuel + 1, i, mem =>
    if i < utfLen ∧ (i : Int) < asciiLen - 1 then
      asciiLoop utfBuf utfLen asciiBuf asciiLen fuel (i + 1)
        (store mem (asciiBuf + i) (utfBuf.getD i 0))
    else (i, mem)

/-- Function `jStringToAscii(env, jStr, asciiBuf, asciiLen)`: copy at most
`asciiLen - 1` bytes and write the terminator after them. -/
def jStringToAscii (jStr : JString) (mem : Mem) (asciiBuf : Nat) (asciiLen : Int) : Mem :=
  let utfLen := GetStringUTFLength jStr
  let utfBuf := GetStringUTFChars jStr
  let r := asciiLoop utfBuf utfLen asciiBuf asciiLen utfLen 0 mem
  store r.2 (asciiBuf + r.1) 0

/-- Function `strbufToJString(env, buf, len)`: widen `len` bytes starting at
offset `buf` into a managed string. -/
def strbufToJString (mem : Mem) (buf : Nat) (len : Nat) : JString :=
  (List.range len).map (fun i => widen (mem (buf + i)))

/-- C `strlen` on the block `mem`, searching at most `fuel` bytes from offset
`i`; `none` when no terminator is found within them. -/
def strlenFrom (mem : Mem) : Nat → Nat → Option Nat
  | 0, _ => none
  | fuel + 1, i => if mem i = 0 then some i else strlenFrom mem fuel (i + 1)

/-! ## Value codec, write path : `REG_MULTI_SZ` -/

/-- First loop of the `REG_MULTI_SZ` case of `setKeyValue`:
`for (dataLen = 0, i = 0; i < numStr; ++i) dataLen += sLen + 1;` on a `DWORD`. -/
def multiSzLenLoop : List JString → Nat → Nat
  | [], dataLen => dataLen
  | jStr :: rest, dataLen =>
    multiSzLenLoop rest ((dataLen + (GetStringLength jStr + 1)) % DWORD_MOD)

/-- The `dataLen` of the `REG_MULTI_SZ` case: the loop, then `dataLen++`. -/
def multiSzDataLen (jStrArray : List JString) : Nat :=
  (multiSzLenLoop jStrArray 0 + 1) % DWORD_MOD

/-- Second loop of the `REG_MULTI_SZ` case: each element is transcoded at `ptr`
with capacity `sLen + 1`, then `ptr += sLen; *ptr++ = 0`.  The elements are
strings: the first loop has already called `GetStringLength` on each of them,
so the `jStr == NULL` branch of this loop is not reached. -/
def multiSzWriteLoop : List JString → Mem → Nat → Mem × Nat
  | [], mem, ptr => (mem, ptr)
  | jStr :: rest, mem, ptr =>
    let sLen := GetStringLength jStr
    let mem1 := jStringToAscii jStr mem ptr ((sLen : Int) + 1)
    multiSzWriteLoop rest (store mem1 (ptr + sLen) 0) (ptr + sLen + 1)

/-- What the `REG_MULTI_SZ` case of `setKeyValue` hands to `RegSetValueEx`. -/
structure MultiSzBuf where
  /-- the size requested from `malloc` -/
  allocSize : Nat
  /-- the block contents after both loops and the final terminator -/
  dataPtr : Mem
  /-- the offset of `ptr` after the last write -/
  endPtr : Nat
  /-- the length passed to the native call -/
  dataLen : Nat

/-- The `REG_MULTI_SZ` case of `setKeyValue`, on a successful `malloc` whose
block initially holds `heap`. -/
def encodeMultiSz (jStrArray : List JString) (heap : Mem) : MultiSzBuf :=
  let dataLen := multiSzDataLen jStrArray
  let r := multiSzWriteLoop jStrArray heap 0
  { allocSize := (dataLen + 32) % DWORD_MOD
    dataPtr := store r.1 r.2 0
    endPtr := r.2 + 1
    dataLen := dataLen }

/-! ## Value codec, read path : `REG_MULTI_SZ` -/

/-- Count scan of `getMultiStringValueData`:
`for (count = 0, i = 0; i < (int)dwBufSize; ++i)` counting terminators and
leaving at the first double terminator. `n` is `(int)dwBufSize`. -/
def countScan (strData : Mem) (n : Int) : Nat → Nat → Nat → Nat
  | 0, _, count => count
  | fuel + 1, i, count =>
    if (i : Int) < n then
      if strData i = 0 then
        if strData (i + 1) = 0 then count + 1
        else countScan strData n fuel (i + 1) (count + 1)
      else countScan strData n fuel (i + 1) count
    else count

/-- Materialise scan of `getMultiStringValueData`:
`for (cnt = 0, start = 0, i = 0; i < (int)dwBufSize && cnt < count; ++i)`,
storing one managed string per terminator with `SetObjectArrayElement`. -/
def fillScan (strData : Mem) (n : Int) (count : Nat) :
    Nat → Nat → Nat → Nat → List (Option JString) → List (Option JString)
  | 0, _, _, _, result => result
  | fuel + 1, i, start, cnt, result =>
    if (i : Int) < n ∧ cnt < count then
      if strData i = 0 then
        let sLen := i - start
        let jStr := strbufToJString strData start sLen
        let result1 := result.set cnt (some jStr)
        if strData (i + 1) = 0 then result1
        else fillScan strData n count fuel (i + 1) (i + 1) (cnt + 1) result1
      else fillScan strData n count fuel (i + 1) start cnt result
    else result

/-- The two scans of `getMultiStringValueData` on the buffer `strData` filled
by the second query, which reported `dwBufSize` bytes.  The result array is
created by `NewObjectArray` with `count` null slots. -/
def decodeMultiSz (strData : Mem) (dwBufSize : Nat) : List (Option JString) :=
  let n := toInt32 dwBufSize
  let count := countScan strData n n.toNat 0 0
  fillScan strData n count n.toNat 0 0 0 (List.replicate count none)

/-- One `SetObjectArrayElement(env, result, (jsize)cnt++, jStr)` of the
materialise scan: the index `cnt` written, and the offset and length of the
bytes `jStr` was made from. -/
structure SlotWrite where
  idx : Nat
  start : Nat
  len : Nat
  deriving DecidableEq, Repr

/-- The managed string stored by a `SetObjectArrayElement` of the materialise
scan, `strbufToJString(env, &strData[start], sLen)`. -/
def SlotWrite.jStr (strData : Mem) (w : SlotWrite) : JString :=
  strbufToJString strData w.start w.len

/-- The `SetObjectArrayElement` calls of the materialise scan of
`getMultiStringValueData`, in the order the loop issues them: the loop of
`fillScan`, recording each store. -/
def fillTrace (strData : Mem) (n : Int) (count : Nat) :
    Nat → Nat → Nat → Nat → List SlotWrite
  | 0, _, _, _ => []
  | fuel + 1, i, start, cnt =>
    if (i : Int) < n ∧ cnt < count then
      if strData i = 0 then
        let sLen := i - start
        if strData (i + 1) = 0 then [⟨cnt, start, sLen⟩]
        else ⟨cnt, start, sLen⟩ :: fillTrace strData n count fuel (i + 1) (i + 1) (cnt + 1)
      else fillTrace strData n count fuel (i + 1) start cnt
    else []

/-- The value of `count` after the count scan of `getMultiStringValueData`,
the length given to `NewObjectArray`. -/
def decodeCount (strData : Mem) (dwBufSize : Nat) : Nat :=
  countScan strData (toInt32 dwBufSize) (toInt32 dwBufSize).toNat 0 0

/-- The `SetObjectArrayElement` calls of `getMultiStringValueData` on the
buffer `strData` with reported size `dwBufSize`. -/
def decodeWrites (strData : Mem) (dwBufSize : Nat) : List SlotWrite :=
  fillTrace strData (toInt32 dwBufSize) (decodeCount strData dwBufSize)
    (toInt32 dwBufSize).toNat 0 0 0

/-- `SetObjectArrayElement` on the model of an object array. -/
def setSlot (strData : Mem) (result : List (Option JString)) (w : SlotWrite) :
    List (Option JString) :=
  result.set w.idx (some (w.jStr strData))

/-! ## Native constants (winnt.h, winerror.h) -/

def REG_NONE : Nat := 0
def REG_SZ : Nat := 1
def REG_EXPAND_SZ : Nat := 2
def REG_BINARY : Nat := 3
def REG_DWORD : Nat := 4
def REG_DWORD_BIG_ENDIAN : Nat := 5
def REG_LINK : Nat := 6
def REG_MULTI_SZ : Nat := 7
def REG_RESOURCE_LIST : Nat := 8
def REG_FULL_RESOURCE_DESCRIPTOR : Nat := 9
def REG_RESOURCE_REQUIREMENTS_LIST : Nat := 10

def ERROR_SUCCESS : Int := 0
def ERROR_FILE_NOT_FOUND : Int := 2
def ERROR_ACCESS_DENIED : Int := 5
def ERROR_INVALID_HANDLE : Int := 6
def ERROR_INVALID_PARAMETER : Int := 87
def ERROR_CALL_NOT_IMPLEMENTED : Int := 120
def ERROR_INSUFFICIENT_BUFFER : Int := 122
def ERROR_LOCK_FAILED : Int := 167
def ERROR_MORE_DATA : Int := 234
def ERROR_NO_MORE_ITEMS : Int := 259
def ERROR_BADDB : Int := 1009
def ERROR_BADKEY : Int := 1010
def ERROR_CANTOPEN : Int := 1011
def ERROR_CANTREAD : Int := 1012
def ERROR_CANTWRITE : Int := 1013
def ERROR_REGISTRY_RECOVERED : Int := 1014
def ERROR_REGISTRY_CORRUPT : Int := 1015
def ERROR_REGISTRY_IO_FAILED : Int := 1016
def ERROR_NOT_REGISTRY_FILE : Int := 1017
def ERROR_KEY_DELETED : Int := 1018

/-! ## Error classifier -/

/-- A C string (`char *`): its characters up to the terminator. -/
abbrev CStr := List Char

/-- The managed exceptions raised by the bridge.  `RegistryException` records
the status and the label given to `throwRegErrorException`, which formats the
exception text from them. -/
inductive Thrown where
  | RegistryException (regErr : Int) (message : CStr)
  | NoSuchKeyException (msgBuf : CStr)
  | NoSuchValueException (msgBuf : CStr)
  | OutOfMemoryError (message : CStr)
  | NoClassDefFoundError (message : CStr)
  | NoSuchMethodError (message : CStr)
  deriving DecidableEq, Repr

/-- The `sprintf` conversion `%.Ns`: the characters of the argument, at most
`prec` of them. -/
def fmtPrecS : Nat → CStr → CStr
  | 0, _ => []
  | _ + 1, [] => []
  | prec + 1, c :: cs => c :: fmtPrecS prec cs

/-- Function `throwRegErrorException(env, regErr, message)`, the exception
classes being present. -/
def throwRegErrorException (regErr : Int) (message : CStr) : Thrown :=
  Thrown.RegistryException regErr message

/-- The size of the stack buffers `char msgBuf[512]` of `throwSpecificRegError`
and `char strBuf[512]` of `throwRegErrorException`. -/
def MSG_BUF_SIZE : Nat := 512

/-- The `sprintf` conversion `%d`: the decimal digits of the argument, after a
minus sign when it is negative. -/
def fmtD (v : Int) : CStr :=
  if v < 0 then '-' :: (Nat.repr (-v).toNat).toList else (Nat.repr v.toNat).toList

/-- The `switch (regErr)` of `throwRegErrorException` choosing `regDescription`;
the initial value `""` stays when no case matches. -/
def regDescription (regErr : Int) : CStr :=
  if regErr = ERROR_FILE_NOT_FOUND then "not found".toList
  else if regErr = ERROR_ACCESS_DENIED then "access denied".toList
  else if regErr = ERROR_INVALID_HANDLE then "invalid handle".toList
  else if regErr = ERROR_INVALID_PARAMETER then "invalid parameter".toList
  else if regErr = ERROR_CALL_NOT_IMPLEMENTED then "call not implemented".toList
  else if regErr = ERROR_INSUFFICIENT_BUFFER then "insufficient buffer".toList
  else if regErr = ERROR_LOCK_FAILED then "lock failed".toList
  else if regErr = ERROR_MORE_DATA then "more data".toList
  else if regErr = ERROR_NO_MORE_ITEMS then "no more items".toList
  else if regErr = ERROR_BADDB then "bad DB".toList
  else if regErr = ERROR_BADKEY then "bad key".toList
  else if regErr = ERROR_CANTOPEN then "can not open".toList
  else if regErr = ERROR_CANTREAD then "can not read".toList
  else if regErr = ERROR_CANTWRITE then "can not write".toList
  else if regErr = ERROR_REGISTRY_RECOVERED then "registry recovered".toList
  else if regErr = ERROR_REGISTRY_CORRUPT then "registry corrupt".toList
  else if regErr = ERROR_REGISTRY_IO_FAILED then "registry IO failed".toList
  else if regErr = ERROR_NOT_REGISTRY_FILE then "not a registry file".toList
  else if regErr = ERROR_KEY_DELETED then "key has been deleted".toList
  else []

/-- The characters that `throwRegErrorException` writes to `strBuf` before the
terminator,
`sprintf(strBuf, "Registry API Error %d, '%.128s' - '%.256s'", regErr, regDescription, message)`. -/
def strBufText (regErr : Int) (message : CStr) : CStr :=
  "Registry API Error ".toList ++ fmtD regErr ++ ", \x27".toList
    ++ fmtPrecS 128 (regDescription regErr) ++ "\x27 - \x27".toList
    ++ fmtPrecS 256 message ++ "\x27".toList

/-- Function `throwSpecificRegError(env, regErr, message, keyName, valueName)`;
a `NULL` name is `none`. -/
def throwSpecificRegError (regErr : Int) (message : CStr)
    (keyName valueName : Option CStr) : Thrown :=
  if regErr ≠ ERROR_FILE_NOT_FOUND ∨ (keyName = none ∧ valueName = none) then
    throwRegErrorException regErr message
  else if keyName ≠ none then
    -- sprintf(msgBuf, "%.200s, key='%.200s'", message, keyName)
    Thrown.NoSuchKeyException
      (fmtPrecS 200 message ++ ", key=\x27".toList ++ fmtPrecS 200 (keyName.getD [])
        ++ "\x27".toList)
  else
    -- sprintf(msgBuf, "%.200s, value='%.200s'", message, valueName)
    Thrown.NoSuchValueException
      (fmtPrecS 200 message ++ ", value=\x27".toList ++ fmtPrecS 200 (valueName.getD [])
        ++ "\x27".toList)

/-! ## Value codec, write path : `setKeyValue` and `setValue` -/

/-- The object returned by `RegistryValue.getData()`. -/
inductive Payload where
  | str (s : JString)
  | strs (a : List JString)
  | int (v : Int)
  | bytes (b : List Nat)

/-- The arguments of one `RegSetValueEx(hKey, valueName, 0, dwType, dataPtr, dataLen)`. -/
structure SetCall where
  dwType : Nat
  dataPtr : Mem
  dataLen : Nat

/-- How a native method ends. `undefined` stands for a JNI call on an object of
the wrong class, for which the source has no defined behaviour. -/
inductive Outcome where
  | returned
  | threw (t : Thrown)
  | undefined

/-- The result of a write: how it ended and the native registry calls issued. -/
structure SetResult where
  outcome : Outcome
  calls : List SetCall

/-- Everything `setValue` obtains from its surroundings. -/
structure SetEnv where
  /-- whether `jStringToNewAscii(valueName)` in `setValue` gets its block -/
  nameAlloc : Bool
  /-- whether `GetObjectClass(valObject)` succeeds -/
  valClassFound : Bool
  /-- whether `GetMethodID(valClass, "getData")` succeeds -/
  getDataFound : Bool
  /-- the result of `getData()`, `none` for `NULL` -/
  dataValue : Option Payload
  /-- whether the data buffer is obtained (`malloc`, `GetByteArrayElements`) -/
  dataAlloc : Bool
  /-- the initial contents of an allocated block -/
  heap : Mem
  /-- the indeterminate value of the local `dataPtr` before the `switch` -/
  stackPtr : Mem
  /-- the indeterminate value of the local `dataLen` before the `switch` -/
  stackLen : Nat
  /-- the status returned by `RegSetValueEx` -/
  regErr : Int

/-- The `switch (dwType)` of `setKeyValue`: the `dataPtr` and `dataLen` it
leaves, or the way the function ends inside it.  The `switch` has no `default`
label: for any other type both locals keep their indeterminate values. -/
def setKeyValueSwitch (env : SetEnv) (dwType : Nat) (dataValue : Payload) :
    Except Outcome (Mem × Nat) :=
  if dwType = REG_SZ ∨ dwType = REG_EXPAND_SZ then
    match dataValue with
    | Payload.str s =>
      if env.dataAlloc then
        let dataPtr := jStringToNewAscii s env.heap
        match strlenFrom dataPtr (jStringToNewAsciiSize s) 0 with
        | some len => Except.ok (dataPtr, (len + 1) % DWORD_MOD)
        | none => Except.error Outcome.undefined
      else
        Except.error (Outcome.threw
          (Thrown.OutOfMemoryError "setKeyValue: jStringToNewAscii".toList))
    | _ => Except.error Outcome.undefined
  else if dwType = REG_MULTI_SZ then
    match dataValue with
    | Payload.strs a =>
      if env.dataAlloc then
        let r := encodeMultiSz a env.heap
        Except.ok (r.dataPtr, r.dataLen)
      else
        Except.error (Outcome.threw (Thrown.OutOfMemoryError "REG_MULTI_SZ 申请内存失败".toList))
    | _ => Except.error Outcome.undefined
  else if dwType = REG_DWORD ∨ dwType = REG_DWORD_BIG_ENDIAN then
    match dataValue with
    | Payload.int v =>
      let dwValue := toDWORD v
      Except.ok (fun q => if q < 4 then (dwValue / 256 ^ q) % 256 else env.stackPtr q, 4)
    | _ => Except.error Outcome.undefined
  else if dwType = REG_BINARY then
    match dataValue with
    | Payload.bytes b =>
      if env.dataAlloc then
        Except.ok (fun q => b.getD q (env.heap q), b.length % DWORD_MOD)
      else
        Except.error (Outcome.threw
          (Thrown.OutOfMemoryError "setKeyValue: GetByteArrayElements".toList))
    | _ => Except.error Outcome.undefined
  else
    Except.ok (env.stackPtr, env.stackLen)

/-- Function `setKeyValue(env, hKey, valueName, dwType, valObject)`. -/
def setKeyValue (env : SetEnv) (dwType : Nat) : SetResult :=
  if !env.valClassFound then
    ⟨Outcome.threw (Thrown.NoClassDefFoundError
      "setKeyValue: getting RegistryValue class".toList), []⟩
  else if !env.getDataFound then
    ⟨Outcome.threw (Thrown.NoSuchMethodError
      "com.github.joekerouac.common.tools.registry.RegistryValue.getData.()Ljava/lang/Object;".toList),
      []⟩
  else
    match env.dataValue with
    | none => ⟨Outcome.threw (Thrown.OutOfMemoryError "GetObjectField(data)".toList), []⟩
    | some dataValue =>
      match setKeyValueSwitch env dwType dataValue with
      | Except.error o => ⟨o, []⟩
      | Except.ok (dataPtr, dataLen) =>
        -- regErr = RegSetValueEx(hKey, valueName, 0, dwType, dataPtr, dataLen);
        let call : SetCall := ⟨dwType, dataPtr, dataLen⟩
        if env.regErr ≠ ERROR_SUCCESS then
          ⟨Outcome.threw (throwSpecificRegError env.regErr "RegSetValueEx()".toList none none),
            [call]⟩
        else ⟨Outcome.returned, [call]⟩

/-- The native method `setValue`, from the point where the key handle and the
`type` field `jType` of the value object have been read. -/
def setValue (env : SetEnv) (jType : Int) : SetResult :=
  let dwType := toDWORD jType
  if dwType < REG_NONE ∨ dwType > REG_RESOURCE_REQUIREMENTS_LIST then
    ⟨Outcome.threw (throwRegErrorException ERROR_INVALID_PARAMETER "RegistryValue.type".toList),
      []⟩
  else if env.nameAlloc then
    setKeyValue env dwType
  else
    ⟨Outcome.returned, []⟩

/-! ## Value codec, read path : `REG_SZ` -/

/-- What one `RegQueryValueEx` call reports: its status, the stored type, the
data size, and the contents of the data buffer after the call. -/
structure QueryReply where
  regErr : Int
  dwType : Nat
  dwBufSize : Nat
  data : Mem

/-- How a native helper ends: with a managed value, with `NULL` and nothing
raised, with a pending exception, or in a way the source leaves undefined
(a `NULL` or unterminated buffer handed on, an unassigned local, a copy past
the end of a block, a negative length handed to the managed runtime). -/
inductive Res (α : Type) where
  | value (v : α)
  | null
  | threw (t : Thrown)
  | undefined

/-- The `DWORD dwBufSize` after `--dwBufSize`. -/
def decrementedSize (dwBufSize : Nat) : Nat :=
  (dwBufSize % DWORD_MOD + (DWORD_MOD - 1)) % DWORD_MOD

/-- The bytes requested for `uniBuf`, `sizeof(jchar) * (dwBufSize + 2)`: the
`DWORD` sum `dwBufSize + 2`, taken before the decrement, times the 2 bytes of
a `jchar`, the product being a `size_t` of `bits` bits. -/
def uniBufBytes (bits dwBufSize : Nat) : Nat :=
  (2 * ((dwBufSize % DWORD_MOD + 2) % DWORD_MOD)) % 2 ^ bits

/-- The number of `jchar` slots in the block requested for `uniBuf`. -/
def uniBufSlots (bits dwBufSize : Nat) : Nat := uniBufBytes bits dwBufSize / 2

/-- Function `getStringValueData(env, hKey, valueName)` where `size_t` has
`bits` bits: `probe` is the reply to the size query, `fetch` the reply to the
data query; `strAlloc` and `uniAlloc` tell whether the two `malloc` calls
succeed.  The copy loop stores `decrementedSize` characters into `uniBuf` and
`NewString` receives that count cast to `jsize`: the result is undefined when
the count exceeds the slots of `uniBuf` or is negative as a `jsize`. -/
def getStringValueData (bits : Nat) (valueName : CStr) (probe fetch : QueryReply)
    (strAlloc uniAlloc : Bool) : Res JString :=
  if probe.regErr ≠ ERROR_SUCCESS then
    Res.threw (throwSpecificRegError probe.regErr "RegQueryValueEx()".toList none
      (some valueName))
  else if probe.dwType ≠ REG_SZ ∧ probe.dwType ≠ REG_EXPAND_SZ then
    Res.threw (throwRegErrorException ERROR_INVALID_PARAMETER
      ("type is not REG_SZ or REG_EXPAND_SZ, current type = ".toList
        ++ (toString (toInt32 probe.dwType)).toList))
  else if !strAlloc then
    Res.threw (Thrown.OutOfMemoryError "getStringValueData: strData".toList)
  else if fetch.regErr ≠ ERROR_SUCCESS then
    Res.threw (throwSpecificRegError fetch.regErr "RegQueryValueEx()".toList none
      (some valueName))
  else if !uniAlloc then
    Res.threw (Thrown.OutOfMemoryError "getStringValueData: uniBuf".toList)
  else
    -- --dwBufSize;  for (i = 0; i < dwBufSize; ++i) uniBuf[i] = (jchar)strData[i];
    -- result = NewString(env, uniBuf, (jsize)dwBufSize);
    if uniBufSlots bits fetch.dwBufSize < decrementedSize fetch.dwBufSize
        ∨ toInt32 (decrementedSize fetch.dwBufSize) < 0 then
      Res.undefined
    else
      Res.value ((List.range (decrementedSize fetch.dwBufSize)).map
        (fun i => widen (fetch.data i)))

/-! ## Specification-level descriptions used by the theorems -/

/-- The memory `mem` with the bytes `bytes` laid at offsets `p, p + 1, ...`. -/
def blit (mem : Mem) (p : Nat) (bytes : List Nat) : Mem :=
  fun q => if p ≤ q ∧ q < p + bytes.length then bytes.getD (q - p) 0 else mem q

/-- The first `len` bytes of a block, as a list. -/
def bytesOf (mem : Mem) (len : Nat) : List Nat := (List.range len).map mem

/-- The bytes the `REG_MULTI_SZ` write loop produces for the elements: for each
one the first `GetStringLength` bytes of its transcoding, then a terminator. -/
def multiSzSegments (jStrArray : List JString) : List Nat :=
  jStrArray.flatMap
    (fun jStr => (GetStringUTFChars jStr).take (GetStringLength jStr) ++ [0])

/-- A managed string all of whose characters are 7-bit and not NUL. -/
def Ascii7 (jStr : JString) : Prop := ∀ c ∈ jStr, 1 ≤ c ∧ c ≤ 127

instance (jStr : JString) : Decidable (Ascii7 jStr) := by
  unfold Ascii7; infer_instance

/-- The flat `REG_MULTI_SZ` image of a sequence of byte strings: each element
followed by a terminator, then one final terminator. -/
def flatImage (elems : List (List Nat)) : List Nat :=
  elems.flatMap (fun e => e ++ [0]) ++ [0]

/-- The sum over the elements of (length + 1), plus 1. -/
def flatLength (elems : List (List Nat)) : Nat :=
  (elems.map (fun e => e.length + 1)).sum + 1

/-- A managed string of `2 ^ 30` characters `A`. -/
def longString : JString := List.replicate 1073741824 65

/-- The block `strData` holds the bytes `bytes` at offsets `p, p + 1, ...`. -/
def HoldsAt (strData : Mem) (p : Nat) (bytes : List Nat) : Prop :=
  ∀ k, k < bytes.length → strData (p + k) = bytes.getD k 0

/-! ## Remote-registry length correction -/

/-- The predefined handle `HKEY_CLASSES_ROOT` (winreg.h), as a 32-bit value. -/
def HKEY_CLASSES_ROOT : Nat := 2147483648

/-- The predefined handle `HKEY_DYN_DATA` (winreg.h), as a 32-bit value. -/
def HKEY_DYN_DATA : Nat := 2147483654

/-- Function `RegIsHKeyRemote(hKey)`.  A handle is the unsigned 32-bit value of
the `key` field it was read from (`getRegistryKey` casts that `jint`), which
orders handles as the pointer comparison does; `~dw` is the complement of the
32-bit `DWORD`. -/
def RegIsHKeyRemote (hKey : Nat) : Bool :=
  let dw := hKey % DWORD_MOD
  if hKey ≥ HKEY_CLASSES_ROOT ∧ hKey ≤ HKEY_DYN_DATA then false
  else ((dw ^^^ 4294967295) &&& 1) == 0

/-- What `RegQueryInfoKey` reports for the one field asked for: its status and
the `DWORD` found in the out-parameter after the call. -/
structure InfoReply where
  regErr : Int
  value : Nat

/-- Function `maxSubKeyLength(hKey, pdwSubkeyLen)`: the status returned and the
value left in `*pdwSubkeyLen`. -/
def maxSubKeyLength (hKey : Nat) (native : InfoReply) : Int × Nat :=
  if native.regErr = ERROR_SUCCESS ∧ RegIsHKeyRemote hKey = true then
    (native.regErr, (native.value * 2 + 2) % DWORD_MOD)
  else (native.regErr, native.value)

/-- Function `maxValueNameLength(hKey, pdwNameLen)`: the status returned and the
value left in `*pdwNameLen`. -/
def maxValueNameLength (hKey : Nat) (native : InfoReply) : Int × Nat :=
  if native.regErr = ERROR_SUCCESS ∧ RegIsHKeyRemote hKey = true then
    (native.regErr, (native.value * 2 + 2) % DWORD_MOD)
  else (native.regErr, native.value)

/-- The native method `getMaxSubkeyLength`, from the point where the key handle
has been read: the pending exception, if any, and the `jint` returned. -/
def getMaxSubkeyLength (hKey : Nat) (native : InfoReply) : Option Thrown × Int :=
  let r := maxSubKeyLength hKey native
  if r.1 ≠ ERROR_SUCCESS then
    (some (throwRegErrorException r.1 "RegQueryInfoKey()".toList), 0)
  else (none, toInt32 r.2)

/-- The native method `getMaxValueNameLength`, from the point where the key
handle has been read.  It calls `RegQueryInfoKey` itself; the handle is not
inspected. -/
def getMaxValueNameLength (_hKey : Nat) (native : InfoReply) : Option Thrown × Int :=
  if native.regErr ≠ ERROR_SUCCESS then
    (some (throwRegErrorException native.regErr "RegQueryInfoKey()".toList), 0)
  else (none, toInt32 native.value)

/-! ## Counter mutators -/

/-- What `RegQueryValueEx(hKey, lpValueName, 0, &type, (LPBYTE)&dw, &size)`
leaves behind: its status and the locals `type`, `dw` and `size`. -/
structure DwordReply where
  regErr : Int
  dwType : Nat
  dw : Nat
  size : Nat

/-- The arguments of the `RegSetValueEx(hKey, lpValueName, 0, type, &dw, size)`
of a counter mutator. -/
structure CounterWrite where
  dwType : Nat
  dw : Nat
  size : Nat
  deriving DecidableEq, Repr

/-- The result of a counter mutator: the pending exception, the native writes
issued and the `jint` returned. -/
structure CounterRun where
  thrown : Option Thrown
  writes : List CounterWrite
  result : Int

/-- The native method `incrDoubleWord`, from the point where the key handle has
been read; `nameAlloc` tells whether `jStringToNewAscii(valueName)` gets its
block and `lpValueName` is the text it then holds. -/
def incrDoubleWord (nameAlloc : Bool) (lpValueName : CStr) (read : DwordReply)
    (writeErr : Int) : CounterRun :=
  if !nameAlloc then
    ⟨some (Thrown.OutOfMemoryError "allocating valueName ascii string".toList), [], 0⟩
  else if read.regErr ≠ ERROR_SUCCESS then
    ⟨some (throwSpecificRegError read.regErr "RegQueryValueEx()".toList none
      (some lpValueName)), [], 0⟩
  else
    -- if (type != REG_DWORD) dw = 0;  dw++;
    let dw0 := if read.dwType ≠ REG_DWORD then 0 else read.dw % DWORD_MOD
    let dw := (dw0 + 1) % DWORD_MOD
    let call : CounterWrite := ⟨REG_DWORD, dw, read.size⟩
    if writeErr ≠ ERROR_SUCCESS then
      ⟨some (throwSpecificRegError writeErr "RegSetValueEx()".toList none
        (some lpValueName)), [call], 0⟩
    else ⟨none, [call], toInt32 dw⟩

/-- The native method `decrDoubleWord`, as `incrDoubleWord` with `dw--`. -/
def decrDoubleWord (nameAlloc : Bool) (lpValueName : CStr) (read : DwordReply)
    (writeErr : Int) : CounterRun :=
  if !nameAlloc then
    ⟨some (Thrown.OutOfMemoryError "allocating valueName ascii string".toList), [], 0⟩
  else if read.regErr ≠ ERROR_SUCCESS then
    ⟨some (throwSpecificRegError read.regErr "RegQueryValueEx()".toList none
      (some lpValueName)), [], 0⟩
  else
    -- if (type != REG_DWORD) dw = 0;  dw--;
    let dw0 := if read.dwType ≠ REG_DWORD then 0 else read.dw % DWORD_MOD
    let dw := (dw0 + (DWORD_MOD - 1)) % DWORD_MOD
    let call : CounterWrite := ⟨REG_DWORD, dw, read.size⟩
    if writeErr ≠ ERROR_SUCCESS then
      ⟨some (throwSpecificRegError writeErr "RegSetValueEx()".toList none
        (some lpValueName)), [call], 0⟩
    else ⟨none, [call], toInt32 dw⟩

/-! ## Key name builder -/

/-- The C string stored as `bytes` followed by a terminator: its characters
are the bytes before the first NUL. -/
def cstr (bytes : List Nat) : List Nat := bytes.takeWhile (fun b => b ≠ 0)

/-- Consecutive byte writes `p[0] = b0; p[1] = b1; ...` starting at offset `p`,
as `sprintf` performs them. -/
def writeBytes : List Nat → Mem → Nat → Mem
  | [], mem, _ => mem
  | b :: rest, mem, p => writeBytes rest (store mem p b) (p + 1)

/-- What `buildFullKeyName` computes when both allocations succeed. -/
structure FullKeyName where
  /-- the `int dataLen` -/
  dataLen : Int
  /-- the number of bytes `malloc(dataLen)` is asked for, `dataLen` as a `size_t` -/
  request : Nat
  /-- the scratch block after `sprintf` -/
  newNamePtr : Mem
  /-- the number of bytes `sprintf` stored, terminator included -/
  written : Nat
  /-- the managed string returned, `none` for `NULL` -/
  result : Option JString

/-- Function `buildFullKeyName(env, rkObject, subKeyName)`, from the point where
the recorded name `jName` of the key object has been read; `size_t` has `bits`
bits.  `subKeyName` holds the bytes at the `char *` argument; `heap1` and
`heap2` are the initial contents of the two blocks.  `malloc(dataLen)`
receives the `int` converted to `size_t`; `newAlloc` tells whether the
allocator serves a request it can serve, the two names being held meanwhile.
The outcome is undefined when `sprintf` stores more bytes than were
requested. -/
def buildFullKeyName (bits : Nat) (jName : JString) (subKeyName : List Nat)
    (nameAlloc newAlloc uniAlloc : Bool) (heap1 heap2 : Mem) : Res FullKeyName :=
  if !nameAlloc then
    Res.threw (Thrown.OutOfMemoryError "jStringToNewAscii(name)".toList)
  else
    let namePtr := jStringToNewAscii jName heap1
    match strlenFrom namePtr (jStringToNewAsciiSize jName) 0 with
    | none => Res.undefined
    | some len1 =>
      let len2 := (cstr subKeyName).length
      -- dataLen = strlen(namePtr) + strlen(subKeyName) + 2;
      let dataLen := toInt32 (len1 + len2 + 2)
      -- newNamePtr = malloc(dataLen);
      let request := toSizeT bits dataLen
      if !(newAlloc && grantable bits (len1 + 1 + (len2 + 1)) request) then
        Res.threw (Thrown.OutOfMemoryError "malloc(newNamePtr)".toList)
      else
        -- sprintf(newNamePtr, "%s\\%s", namePtr, subKeyName);
        let text := bytesOf namePtr len1 ++ [92] ++ cstr subKeyName ++ [0]
        if request < text.length then Res.undefined
        else
          let newNamePtr := writeBytes text heap2 0
          match strlenFrom newNamePtr text.length 0 with
          | none => Res.undefined
          | some len =>
            Res.value
              { dataLen := dataLen
                request := request
                newNamePtr := newNamePtr
                written := text.length
                result := if uniAlloc then some (strbufToJString newNamePtr 0 len) else none }

/-! ## Read paths with their native calls and buffers -/

/-- The observable steps of a native method, in the order performed.
`query nullData` is a `RegQueryValueEx` (`nullData` when its data pointer is
`NULL`); `malloc size ok` is a request of `size` bytes for a read buffer and
whether it was granted; `scratch ok` is a request for another block (the
transcoding of a name by `jStringToNewAscii`, the `uniBuf` of
`getStringValueData`).  The block that `strbufToJString` allocates and
releases before returning is not listed. -/
inductive Ev where
  | query (nullData : Bool)
  | queryInfo
  | enumerate
  | malloc (size : Nat) (ok : Bool)
  | scratch (ok : Bool)
  | free
  deriving DecidableEq, Repr

/-- A run of a native helper: how it ends and what it did on the way. -/
structure Run (α : Type) where
  res : Res α
  log : List Ev

/-- The number of blocks obtained in a log. -/
def allocated (log : List Ev) : Nat :=
  (log.filter (fun e => match e with
    | Ev.malloc _ ok => ok
    | Ev.scratch ok => ok
    | _ => false)).length

/-- The number of `free` calls in a log. -/
def released (log : List Ev) : Nat :=
  (log.filter (fun e => match e with
    | Ev.free => true
    | _ => false)).length

/-- The sizes requested for read buffers in a log. -/
def requests (log : List Ev) : List Nat :=
  log.filterMap (fun e => match e with
    | Ev.malloc size _ => some size
    | _ => none)

/-- The request `malloc(dwBufSize + 8)` on a `DWORD dwBufSize`. -/
def dwordRequest (dwBufSize : Nat) : Nat := (dwBufSize + 8) % DWORD_MOD

/-- The request `malloc(lBufSize + 8)` on a `LONG lBufSize` that received the
reported size: the sum is a 32-bit signed integer, converted to `size_t`. -/
def longRequest (bits : Nat) (dwBufSize : Nat) : Nat := toSizeT bits (toInt32 (dwBufSize + 8))

/-- Function `asciiToJString(env, asciiStr)` on a block of `size` bytes:
`undefined` when no terminator lies within the block, `NULL` when
`strbufToJString` does not get its scratch block. -/
def asciiToJString (mem : Mem) (size : Nat) (uniAlloc : Bool) : Res JString :=
  match strlenFrom mem size 0 with
  | none => Res.undefined
  | some len => if uniAlloc then Res.value (strbufToJString mem 0 len) else Res.null

/-- The native method `getStringValue`, from the point where the key handle has
been read.  `bits` is the width of `size_t`, `asciiName` the text of the
transcoded value name, `probe` and `fetch` the replies to the two queries. -/
def getStringValue (bits : Nat) (nameAlloc : Bool) (asciiName : CStr)
    (probe fetch : QueryReply) (bufAlloc uniAlloc : Bool) : Run JString :=
  if !nameAlloc then
    ⟨Res.threw (Thrown.OutOfMemoryError "getting ascii valueName from Java string".toList),
      [Ev.scratch false]⟩
  else if probe.regErr ≠ ERROR_SUCCESS ∧ probe.regErr ≠ ERROR_MORE_DATA then
    ⟨Res.threw (throwSpecificRegError probe.regErr "RegQueryValueEx()".toList none
        (some asciiName)),
      [Ev.scratch true, Ev.query true, Ev.free]⟩
  else
    let size := longRequest bits probe.dwBufSize
    if !bufAlloc then
      ⟨Res.threw (Thrown.OutOfMemoryError "allocating string buffer".toList),
        [Ev.scratch true, Ev.query true, Ev.malloc size false, Ev.free]⟩
    else if fetch.regErr ≠ ERROR_SUCCESS then
      ⟨Res.threw (throwSpecificRegError fetch.regErr "RegQueryValueEx()".toList none
          (some asciiName)),
        [Ev.scratch true, Ev.query true, Ev.malloc size true, Ev.query false, Ev.free, Ev.free]⟩
    else
      ⟨asciiToJString fetch.data size uniAlloc,
        [Ev.scratch true, Ev.query true, Ev.malloc size true, Ev.query false, Ev.free, Ev.free]⟩

/-- The native method `getDefaultValue`, from the point where the key handle
has been read.  The result of `malloc` is not tested: when it is `NULL` the
second query runs with a `NULL` data pointer. -/
def getDefaultValue (bits : Nat) (probe fetch : QueryReply) (bufAlloc uniAlloc : Bool) :
    Run JString :=
  if probe.regErr ≠ ERROR_SUCCESS ∧ probe.regErr ≠ ERROR_MORE_DATA then
    ⟨Res.threw (throwSpecificRegError probe.regErr "RegQueryValueEx()".toList none
        (some "(default)".toList)),
      [Ev.query true]⟩
  else
    let size := longRequest bits probe.dwBufSize
    let log := [Ev.query true, Ev.malloc size bufAlloc, Ev.query (!bufAlloc)]
    if fetch.regErr ≠ ERROR_SUCCESS then
      ⟨Res.threw (throwSpecificRegError fetch.regErr "RegQueryValueEx()".toList none
          (some "(default)".toList)), log⟩
    else if !bufAlloc then
      ⟨Res.undefined, log⟩
    else
      match asciiToJString fetch.data size uniAlloc with
      | Res.null =>
        ⟨Res.threw (Thrown.OutOfMemoryError "allocating Java string".toList), log⟩
      | r => ⟨r, log⟩

/-- The steps of `getStringValueData`, branch by branch as in the function. -/
def getStringValueDataLog (probe fetch : QueryReply) (strAlloc uniAlloc : Bool) : List Ev :=
  if probe.regErr ≠ ERROR_SUCCESS then [Ev.query true]
  else if probe.dwType ≠ REG_SZ ∧ probe.dwType ≠ REG_EXPAND_SZ then [Ev.query true]
  else if !strAlloc then [Ev.query true, Ev.malloc (dwordRequest probe.dwBufSize) false]
  else if fetch.regErr ≠ ERROR_SUCCESS then
    [Ev.query true, Ev.malloc (dwordRequest probe.dwBufSize) true, Ev.query false, Ev.free]
  else if !uniAlloc then
    [Ev.query true, Ev.malloc (dwordRequest probe.dwBufSize) true, Ev.query false,
      Ev.scratch false]
  else
    -- free(uniBuf); strData is not released
    [Ev.query true, Ev.malloc (dwordRequest probe.dwBufSize) true, Ev.query false,
      Ev.scratch true, Ev.free]

/-- Function `getMultiStringValueData(env, hKey, valueName)`.  `classFound`,
`arrAlloc` and `jstrAlloc` tell whether `FindClass`, `NewObjectArray` and the
`strbufToJString` calls of the materialise scan succeed. -/
def getMultiStringValueData (valueName : CStr) (probe fetch : QueryReply)
    (strAlloc classFound arrAlloc jstrAlloc : Bool) : Run (List (Option JString)) :=
  if probe.regErr ≠ ERROR_SUCCESS then
    ⟨Res.threw (throwSpecificRegError probe.regErr "RegQueryValueEx()".toList none
        (some valueName)), [Ev.query true]⟩
  else if probe.dwType ≠ REG_MULTI_SZ then
    ⟨Res.threw (throwRegErrorException ERROR_INVALID_PARAMETER
        "type is not REG_MULTI_SZ".toList), [Ev.query true]⟩
  else if !strAlloc then
    ⟨Res.threw (Thrown.OutOfMemoryError
        "setKeyValue: getMultiStringValueData: strData".toList),
      [Ev.query true, Ev.malloc (dwordRequest probe.dwBufSize) false]⟩
  else if fetch.regErr ≠ ERROR_SUCCESS then
    ⟨Res.threw (throwSpecificRegError fetch.regErr "RegQueryValueEx()".toList none
        (some valueName)),
      [Ev.query true, Ev.malloc (dwordRequest probe.dwBufSize) true, Ev.query false, Ev.free]⟩
  else
    -- from here on no path releases strData
    let log := [Ev.query true, Ev.malloc (dwordRequest probe.dwBufSize) true, Ev.query false]
    let n := toInt32 fetch.dwBufSize
    let count := countScan fetch.data n n.toNat 0 0
    if !classFound then
      ⟨Res.threw (Thrown.NoClassDefFoundError "java/lang/String".toList), log⟩
    else if !arrAlloc then
      ⟨Res.threw (Thrown.OutOfMemoryError "getMultiStringValueData: NewObjectArray".toList),
        log⟩
    else if !jstrAlloc ∧ 0 < count then
      ⟨Res.threw (Thrown.OutOfMemoryError "getMultiStringValueData: strbufToJString".toList),
        log⟩
    else
      ⟨Res.value (decodeMultiSz fetch.data fetch.dwBufSize), log⟩

/-- Function `getBinaryValueData(env, hKey, valueName)`.  The test after
`NewByteArray` looks at `regData`, which is not `NULL` there: a `NULL` array is
handed to `SetByteArrayRegion`. -/
def getBinaryValueData (valueName : CStr) (probe fetch : QueryReply)
    (dataAlloc arrAlloc : Bool) : Run (List Nat) :=
  if probe.regErr ≠ ERROR_SUCCESS then
    ⟨Res.threw (throwSpecificRegError probe.regErr "RegQueryValueEx()".toList none
        (some valueName)), [Ev.query true]⟩
  else if probe.dwType ≠ REG_BINARY then
    ⟨Res.threw (throwRegErrorException ERROR_INVALID_PARAMETER
        "type is not REG_BINARY".toList), [Ev.query true]⟩
  else if !dataAlloc then
    ⟨Res.threw (Thrown.OutOfMemoryError "getBinaryValueData: regData".toList),
      [Ev.query true, Ev.malloc (dwordRequest probe.dwBufSize) false]⟩
  else if fetch.regErr ≠ ERROR_SUCCESS then
    ⟨Res.threw (throwSpecificRegError fetch.regErr "RegQueryValueEx()".toList none
        (some valueName)),
      [Ev.query true, Ev.malloc (dwordRequest probe.dwBufSize) true, Ev.query false, Ev.free]⟩
  else
    -- regData is not released
    let log := [Ev.query true, Ev.malloc (dwordRequest probe.dwBufSize) true, Ev.query false]
    if !arrAlloc ∨ toInt32 fetch.dwBufSize < 0 then ⟨Res.undefined, log⟩
    else ⟨Res.value (bytesOf fetch.data (toInt32 fetch.dwBufSize).toNat), log⟩

/-- The `DWORD` whose four bytes, lowest first, are at the start of a block. -/
def dwordAt (data : Mem) : Nat :=
  data 0 % 256 + 256 * (data 1 % 256) + 65536 * (data 2 % 256) + 16777216 * (data 3 % 256)

/-- Function `getDWordValueData(env, hKey, valueName)`: one query into the
4-byte local `dwValue`. -/
def getDWordValueData (valueName : CStr) (fetch : QueryReply) : Run Nat :=
  if fetch.regErr ≠ ERROR_SUCCESS then
    ⟨Res.threw (throwSpecificRegError fetch.regErr "RegQueryValueEx()".toList none
        (some valueName)), [Ev.query false]⟩
  else if fetch.dwType ≠ REG_DWORD ∨ fetch.dwType = REG_DWORD_BIG_ENDIAN then
    ⟨Res.threw (throwRegErrorException ERROR_INVALID_PARAMETER "type is not REG_DWORD".toList),
      [Ev.query false]⟩
  else ⟨Res.value (dwordAt fetch.data), [Ev.query false]⟩

/-- The DWord read as the specification words it, after a successful query:
a type-mismatch error if the returned type is not DWord, the stored 32-bit
value otherwise. -/
def dwordReadSpec (fetch : QueryReply) : Res Nat :=
  if fetch.dwType ≠ REG_DWORD then
    Res.threw (Thrown.RegistryException ERROR_INVALID_PARAMETER "type is not REG_DWORD".toList)
  else Res.value (dwordAt fetch.data)

/-- What `RegEnumKeyEx` / `RegEnumValue` report: the status and the bytes left
in the name buffer. -/
structure EnumReply where
  regErr : Int
  name : List Nat

/-- The native method `regEnumKey`, from the point where the key handle has
been read. -/
def regEnumKey (hKey : Nat) (info : InfoReply) (reply : EnumReply)
    (bufAlloc uniAlloc : Bool) : Run JString :=
  let r := maxSubKeyLength hKey info
  if r.1 ≠ ERROR_SUCCESS then
    ⟨Res.threw (throwRegErrorException r.1 "RegQueryInfoKey()".toList), [Ev.queryInfo]⟩
  else
    let dwKeyBufSize := (r.2 + 2) % DWORD_MOD
    if !bufAlloc then
      ⟨Res.threw (Thrown.OutOfMemoryError "allocating key name buffer".toList),
        [Ev.queryInfo, Ev.malloc dwKeyBufSize false]⟩
    else if reply.regErr ≠ ERROR_SUCCESS then
      -- return NULL without free(keyBuf)
      ⟨Res.threw (throwRegErrorException reply.regErr "RegEnumKeyEx()".toList),
        [Ev.queryInfo, Ev.malloc dwKeyBufSize true, Ev.enumerate]⟩
    else
      ⟨if uniAlloc then Res.value ((cstr reply.name).map widen) else Res.null,
        [Ev.queryInfo, Ev.malloc dwKeyBufSize true, Ev.enumerate, Ev.free]⟩

/-- The native method `regEnumValue`, from the point where the key handle has
been read. -/
def regEnumValue (hKey : Nat) (info : InfoReply) (reply : EnumReply)
    (bufAlloc uniAlloc : Bool) : Run JString :=
  let r := maxValueNameLength hKey info
  if r.1 ≠ ERROR_SUCCESS then
    ⟨Res.threw (throwRegErrorException r.1 "RegQueryInfoKey()".toList), [Ev.queryInfo]⟩
  else
    let dwNameBufSize := (r.2 + 2) % DWORD_MOD
    if !bufAlloc then
      ⟨Res.threw (Thrown.OutOfMemoryError "allocating value name buffer".toList),
        [Ev.queryInfo, Ev.malloc dwNameBufSize false]⟩
    else if reply.regErr ≠ ERROR_SUCCESS then
      -- return NULL without free(nameBuf)
      ⟨Res.threw (throwRegErrorException reply.regErr "RegEnumValue()".toList),
        [Ev.queryInfo, Ev.malloc dwNameBufSize true, Ev.enumerate]⟩
    else
      ⟨if uniAlloc then Res.value ((cstr reply.name).map widen) else Res.null,
        [Ev.queryInfo, Ev.malloc dwNameBufSize true, Ev.enumerate, Ev.free]⟩

/-- Whether a run ended with a managed value. -/
def Res.isValue {α : Type} : Res α → Bool
  | Res.value _ => true
  | _ => false

/-! ## Lemmas on memory, the transcoder and the two codecs -/

theorem store_apply (mem : Mem) (p v q : Nat) :
    store mem p v q = if q = p then v else mem q := rfl

theorem blit_apply (mem : Mem) (p : Nat) (bytes : List Nat) (q : Nat) :
    blit mem p bytes q = if p ≤ q ∧ q < p + bytes.length then bytes.getD (q - p) 0 else mem q :=
  rfl

theorem blit_nil (mem : Mem) (p : Nat) : blit mem p [] = mem := by
  funext q
  simp [blit_apply]

theorem store_blit (mem : Mem) (p : Nat) (bytes : List Nat) (v : Nat) :
    store (blit mem p bytes) (p + bytes.length) v = blit mem p (bytes ++ [v]) := by
  funext q
  simp only [store_apply, blit_apply, List.length_append, List.length_singleton]
  by_cases h1 : q = p + bytes.length
  · subst h1
    simp [List.getD_eq_getElem?_getD]
  · by_cases h2 : p ≤ q ∧ q < p + bytes.length
    · have h3 : q - p < bytes.length := by omega
      have h4 : p ≤ q ∧ q < p + (bytes.length + 1) := by omega
      simp [h1, h2, h4, List.getD_eq_getElem?_getD, List.getElem?_append_left h3]
    · have h4 : ¬ (p ≤ q ∧ q < p + (bytes.length + 1)) := by omega
      simp [h1, h2, h4]

theorem blit_blit (mem : Mem) (p : Nat) (a b : List Nat) :
    blit (blit mem p a) (p + a.length) b = blit mem p (a ++ b) := by
  funext q
  simp only [blit_apply, List.length_append]
  by_cases h1 : p + a.length ≤ q ∧ q < p + a.length + b.length
  · have h2 : p ≤ q ∧ q < p + (a.length + b.length) := by omega
    have h3 : a.length ≤ q - p := by omega
    have h4 : q - (p + a.length) = q - p - a.length := by omega
    simp [h1, h2, List.getD_eq_getElem?_getD, List.getElem?_append_right h3, h4]
  · by_cases h2 : p ≤ q ∧ q < p + a.length
    · have h3 : q - p < a.length := by omega
      have h4 : p ≤ q ∧ q < p + (a.length + b.length) := by omega
      simp [h1, h2, h4, List.getD_eq_getElem?_getD, List.getElem?_append_left h3]
    · have h4 : ¬ (p ≤ q ∧ q < p + (a.length + b.length)) := by omega
      simp [h1, h2, h4]

theorem asciiLoop_eq (utfBuf : List Nat) (utfLen asciiBuf : Nat) (asciiLen : Int) (m : Nat)
    (hm : m = min utfLen (asciiLen - 1).toNat) :
    ∀ (fuel i : Nat) (mem : Mem), i ≤ m → m ≤ fuel + i →
      asciiLoop utfBuf utfLen asciiBuf asciiLen fuel i mem =
        (m, fun q => if asciiBuf + i ≤ q ∧ q < asciiBuf + m then utfBuf.getD (q - asciiBuf) 0
          else mem q) := by
  intro fuel
  induction fuel with
  | zero =>
    intro i mem h1 h2
    have : i = m := by omega
    subst this
    simp only [asciiLoop]
    congr 1
    funext q
    have : ¬ (asciiBuf + i ≤ q ∧ q < asciiBuf + i) := by omega
    simp [this]
  | succ fuel ih =>
    intro i mem h1 h2
    simp only [asciiLoop]
    by_cases hc : i < utfLen ∧ (i : Int) < asciiLen - 1
    · have him : i < m := by omega
      rw [if_pos hc, ih (i + 1) _ (by omega) (by omega)]
      congr 1
      funext q
      simp only [store_apply]
      by_cases hq : q = asciiBuf + i
      · subst hq
        have : asciiBuf + i ≤ asciiBuf + i ∧ asciiBuf + i < asciiBuf + m := by omega
        have h5 : ¬ (asciiBuf + (i + 1) ≤ asciiBuf + i ∧ asciiBuf + i < asciiBuf + m) := by omega
        simp [this, h5]
      · by_cases h6 : asciiBuf + (i + 1) ≤ q ∧ q < asciiBuf + m
        · have : asciiBuf + i ≤ q ∧ q < asciiBuf + m := by omega
          simp [h6, this]
        · have : ¬ (asciiBuf + i ≤ q ∧ q < asciiBuf + m) := by omega
          simp [h6, this, hq]
    · have him : i = m := by omega
      subst him
      rw [if_neg hc]
      congr 1
      funext q
      have : ¬ (asciiBuf + i ≤ q ∧ q < asciiBuf + i) := by omega
      simp [this]


theorem getD_take_of_lt (l : List Nat) (k j : Nat) (h : j < k) :
    (l.take k).getD j 0 = l.getD j 0 := by
  simp [List.getD_eq_getElem?_getD, List.getElem?_take, h]

theorem jStringToAscii_eq (jStr : JString) (mem : Mem) (p : Nat) (asciiLen : Int) :
    jStringToAscii jStr mem p asciiLen =
      blit mem p ((GetStringUTFChars jStr).take (asciiLen - 1).toNat ++ [0]) := by
  unfold jStringToAscii
  simp only
  rw [asciiLoop_eq (GetStringUTFChars jStr) (GetStringUTFLength jStr) p asciiLen
    (min (GetStringUTFLength jStr) (asciiLen - 1).toNat) rfl (GetStringUTFLength jStr) 0 mem
    (Nat.zero_le _) (by omega)]
  have hlen : ((GetStringUTFChars jStr).take (asciiLen - 1).toNat).length =
      min (GetStringUTFLength jStr) (asciiLen - 1).toNat := by
    simp [GetStringUTFLength, Nat.min_comm]
  have hfun : (fun q => if p + 0 ≤ q ∧ q < p + min (GetStringUTFLength jStr) (asciiLen - 1).toNat
      then (GetStringUTFChars jStr).getD (q - p) 0 else mem q) =
      blit mem p ((GetStringUTFChars jStr).take (asciiLen - 1).toNat) := by
    funext q
    simp only [blit_apply, hlen, Nat.add_zero]
    by_cases h : p ≤ q ∧ q < p + min (GetStringUTFLength jStr) (asciiLen - 1).toNat
    · rw [if_pos h, if_pos h, getD_take_of_lt _ _ _ (by omega)]
    · rw [if_neg h, if_neg h]
  simp only [hfun]
  rw [← hlen, store_blit]

theorem newAsciiLoop_eq (utfBuf : List Nat) (utfLen : Nat) :
    ∀ (fuel i : Nat) (mem : Mem), i ≤ utfLen → utfLen ≤ fuel + i →
      newAsciiLoop utfBuf utfLen fuel i mem =
        (utfLen, fun q => if i ≤ q ∧ q < utfLen then utfBuf.getD q 0 else mem q) := by
  intro fuel
  induction fuel with
  | zero =>
    intro i mem h1 h2
    have : i = utfLen := by omega
    subst this
    simp only [newAsciiLoop]
    congr 1
    funext q
    have : ¬ (i ≤ q ∧ q < i) := by omega
    simp [this]
  | succ fuel ih =>
    intro i mem h1 h2
    simp only [newAsciiLoop]
    by_cases hc : i < utfLen
    · rw [if_pos hc, ih (i + 1) _ (by omega) (by omega)]
      congr 1
      funext q
      simp only [store_apply]
      by_cases hq : q = i
      · subst hq
        have h5 : ¬ (q + 1 ≤ q ∧ q < utfLen) := by omega
        simp [hc, h5]
      · by_cases h6 : i + 1 ≤ q ∧ q < utfLen
        · have : i ≤ q ∧ q < utfLen := by omega
          simp [h6, this]
        · have : ¬ (i ≤ q ∧ q < utfLen) := by omega
          simp [h6, this, hq]
    · have him : i = utfLen := by omega
      subst him
      rw [if_neg hc]
      congr 1
      funext q
      have : ¬ (i ≤ q ∧ q < i) := by omega
      simp [this]

theorem jStringToNewAscii_eq (jStr : JString) (heap : Mem) :
    jStringToNewAscii jStr heap = blit heap 0 (GetStringUTFChars jStr ++ [0]) := by
  unfold jStringToNewAscii
  simp only
  rw [newAsciiLoop_eq (GetStringUTFChars jStr) (GetStringUTFLength jStr)
    (GetStringUTFLength jStr) 0 heap (Nat.zero_le _) (by omega)]
  have hfun : (fun q => if 0 ≤ q ∧ q < GetStringUTFLength jStr
      then (GetStringUTFChars jStr).getD q 0 else heap q) =
      blit heap 0 (GetStringUTFChars jStr) := by
    funext q
    simp [blit_apply, GetStringUTFLength]
  simp only [hfun]
  have := store_blit heap 0 (GetStringUTFChars jStr) 0
  simp only [Nat.zero_add] at this
  exact this

theorem utfUnit_length_pos (c : Nat) : 1 ≤ (utfUnit c).length := by
  unfold utfUnit
  split
  · simp
  · split <;> simp

theorem utf_length_ge (jStr : JString) : jStr.length ≤ (GetStringUTFChars jStr).length := by
  unfold GetStringUTFChars
  induction jStr with
  | nil => simp
  | cons c rest ih =>
    have := utfUnit_length_pos c
    simp only [List.flatMap_cons, List.length_append, List.length_cons]
    omega

theorem utf_of_ascii7 (jStr : JString) (h : Ascii7 jStr) : GetStringUTFChars jStr = jStr := by
  unfold GetStringUTFChars
  induction jStr with
  | nil => rfl
  | cons c rest ih =>
    have hc : 1 ≤ c ∧ c ≤ 127 := h c (List.mem_cons_self _ _)
    have hr : Ascii7 rest := fun d hd => h d (List.mem_cons_of_mem _ hd)
    simp [List.flatMap_cons, utfUnit, hc, ih hr]

theorem bytesOf_blit (heap : Mem) (bytes : List Nat) :
    bytesOf (blit heap 0 bytes) bytes.length = bytes := by
  apply List.ext_getElem
  · simp [bytesOf]
  · intro i h1 h2
    simp only [bytesOf, List.length_map, List.length_range] at h1
    simp [bytesOf, blit_apply, h2, List.getD_eq_getElem?_getD]

theorem multiSzSegments_cons (jStr : JString) (rest : List JString) :
    multiSzSegments (jStr :: rest) =
      ((GetStringUTFChars jStr).take (GetStringLength jStr) ++ [0]) ++ multiSzSegments rest := by
  simp [multiSzSegments, List.flatMap_cons]

theorem multiSzWriteLoop_eq (jStrArray : List JString) :
    ∀ (mem : Mem) (ptr : Nat),
      multiSzWriteLoop jStrArray mem ptr =
        (blit mem ptr (multiSzSegments jStrArray), ptr + (multiSzSegments jStrArray).length) := by
  induction jStrArray with
  | nil =>
    intro mem ptr
    simp [multiSzWriteLoop, multiSzSegments, blit_nil]
  | cons jStr rest ih =>
    intro mem ptr
    have hlen : ((GetStringUTFChars jStr).take (GetStringLength jStr)).length =
        GetStringLength jStr := by
      have := utf_length_ge jStr
      simp [GetStringLength]
      exact this
    simp only [multiSzWriteLoop]
    rw [jStringToAscii_eq]
    have h1 : ((GetStringLength jStr : Int) + 1 - 1).toNat = GetStringLength jStr := by omega
    rw [h1]
    have h2 : store (blit mem ptr ((GetStringUTFChars jStr).take (GetStringLength jStr) ++ [0]))
        (ptr + GetStringLength jStr) 0 =
        blit mem ptr ((GetStringUTFChars jStr).take (GetStringLength jStr) ++ [0]) := by
      rw [← store_blit, hlen]
      funext q
      simp only [store_apply]
      split <;> rfl
    rw [h2, ih, multiSzSegments_cons]
    have h3 : ptr + GetStringLength jStr + 1 =
        ptr + ((GetStringUTFChars jStr).take (GetStringLength jStr) ++ [0]).length := by
      simp [hlen]; omega
    rw [h3, blit_blit]
    simp only [List.length_append]
    congr 1
    omega


theorem multiSzSegments_length (jStrArray : List JString) :
    (multiSzSegments jStrArray).length = (jStrArray.map (fun e => e.length + 1)).sum := by
  induction jStrArray with
  | nil => simp [multiSzSegments]
  | cons jStr rest ih =>
    have := utf_length_ge jStr
    rw [multiSzSegments_cons]
    simp only [List.length_append, List.length_take, List.length_singleton, ih, List.map_cons,
      List.sum_cons, GetStringLength]
    omega

theorem multiSzLenLoop_eq (jStrArray : List JString) :
    ∀ acc : Nat, acc < DWORD_MOD →
      multiSzLenLoop jStrArray acc =
        (acc + (jStrArray.map (fun e => e.length + 1)).sum) % DWORD_MOD := by
  induction jStrArray with
  | nil =>
    intro acc h
    simp [multiSzLenLoop, Nat.mod_eq_of_lt h]
  | cons jStr rest ih =>
    intro acc _
    have hpos : 0 < DWORD_MOD := by decide
    simp only [multiSzLenLoop, GetStringLength]
    rw [ih _ (Nat.mod_lt _ hpos)]
    simp only [List.map_cons, List.sum_cons]
    rw [Nat.add_mod, Nat.mod_mod, ← Nat.add_mod]
    congr 1
    omega

theorem multiSzDataLen_eq (jStrArray : List JString) :
    multiSzDataLen jStrArray = flatLength jStrArray % DWORD_MOD := by
  unfold multiSzDataLen flatLength
  rw [multiSzLenLoop_eq _ 0 (by decide)]
  simp only [Nat.zero_add]
  rw [Nat.add_mod, Nat.mod_mod, ← Nat.add_mod]

theorem encodeMultiSz_dataPtr (jStrArray : List JString) (heap : Mem) :
    (encodeMultiSz jStrArray heap).dataPtr = blit heap 0 (multiSzSegments jStrArray ++ [0]) := by
  unfold encodeMultiSz
  simp only [multiSzWriteLoop_eq]
  exact store_blit heap 0 (multiSzSegments jStrArray) 0

theorem encodeMultiSz_endPtr (jStrArray : List JString) (heap : Mem) :
    (encodeMultiSz jStrArray heap).endPtr = flatLength jStrArray := by
  unfold encodeMultiSz
  simp only [multiSzWriteLoop_eq, multiSzSegments_length, Nat.zero_add]
  rfl

theorem multiSzSegments_ascii7 (jStrArray : List JString) (h : ∀ e ∈ jStrArray, Ascii7 e) :
    multiSzSegments jStrArray ++ [0] = flatImage jStrArray := by
  unfold flatImage
  congr 1
  induction jStrArray with
  | nil => rfl
  | cons jStr rest ih =>
    rw [multiSzSegments_cons, ih (fun e he => h e (List.mem_cons_of_mem _ he))]
    rw [utf_of_ascii7 jStr (h jStr (List.mem_cons_self _ _))]
    simp [GetStringLength, List.flatMap_cons]

theorem flatImage_length (elems : List (List Nat)) :
    (flatImage elems).length = flatLength elems := by
  unfold flatImage flatLength
  induction elems with
  | nil => rfl
  | cons e rest ih =>
    simp only [List.flatMap_cons, List.length_append, List.length_singleton, List.map_cons,
      List.sum_cons] at ih ⊢
    omega

theorem flatImage_cons (e : List Nat) (rest : List (List Nat)) :
    flatImage (e :: rest) = e ++ (0 :: flatImage rest) := by
  simp [flatImage, List.flatMap_cons]

theorem HoldsAt_blit (heap : Mem) (bytes : List Nat) : HoldsAt (blit heap 0 bytes) 0 bytes := by
  intro k hk
  simp [blit_apply, hk]

theorem HoldsAt_left (strData : Mem) (p : Nat) (a b : List Nat)
    (h : HoldsAt strData p (a ++ b)) : HoldsAt strData p a := by
  intro k hk
  have := h k (by simp; omega)
  rw [this]
  simp [List.getD_eq_getElem?_getD, List.getElem?_append_left hk]

theorem HoldsAt_right (strData : Mem) (p : Nat) (a b : List Nat)
    (h : HoldsAt strData p (a ++ b)) : HoldsAt strData (p + a.length) b := by
  intro k hk
  have := h (a.length + k) (by simp; omega)
  rw [Nat.add_assoc, this]
  simp [List.getD_eq_getElem?_getD, List.getElem?_append_right]

theorem HoldsAt_head (strData : Mem) (p c : Nat) (rest : List Nat)
    (h : HoldsAt strData p (c :: rest)) : strData p = c := by
  have := h 0 (by simp)
  simpa using this

theorem HoldsAt_nonzero (strData : Mem) (p : Nat) (s : List Nat) (h : HoldsAt strData p s)
    (hs : ∀ c ∈ s, c ≠ 0) : ∀ k, k < s.length → strData (p + k) ≠ 0 := by
  intro k hk
  rw [h k hk]
  have : s.getD k 0 = s[k] := by simp [List.getD_eq_getElem?_getD, hk]
  rw [this]
  exact hs _ (List.getElem_mem hk)

theorem countScan_skip (strData : Mem) (n : Int) :
    ∀ (m fuel i count : Nat), (∀ k, k < m → strData (i + k) ≠ 0) → ((i + m : Nat) : Int) ≤ n →
      m ≤ fuel →
      countScan strData n fuel i count = countScan strData n (fuel - m) (i + m) count := by
  intro m
  induction m with
  | zero => intro fuel i count _ _ _; rfl
  | succ m ih =>
    intro fuel i count hnz hn hf
    obtain ⟨fuel, rfl⟩ : ∃ f, fuel = f + 1 := ⟨fuel - 1, by omega⟩
    have h0 : strData i ≠ 0 := by simpa using hnz 0 (by omega)
    have hlt : (i : Int) < n := by omega
    simp only [countScan, if_pos hlt, if_neg h0]
    rw [ih fuel (i + 1) count (fun k hk => by
      have := hnz (k + 1) (by omega)
      rwa [show i + (k + 1) = i + 1 + k by omega] at this) (by omega) (by omega)]
    congr 1
    · omega
    · omega

theorem countScan_segments (strData : Mem) (n : Int) :
    ∀ (rest : List (List Nat)) (s : List Nat) (p fuel count : Nat),
      (∀ c ∈ s, c ≠ 0) → (∀ e ∈ rest, e ≠ [] ∧ ∀ c ∈ e, c ≠ 0) →
      HoldsAt strData p (flatImage (s :: rest)) →
      ((p + (flatImage (s :: rest)).length : Nat) : Int) ≤ n →
      (flatImage (s :: rest)).length ≤ fuel →
      countScan strData n fuel p count = count + 1 + rest.length := by
  intro rest
  induction rest with
  | nil =>
    intro s p fuel count hs _ hold hn hf
    have himg : flatImage [s] = s ++ [0, 0] := by simp [flatImage]
    rw [himg] at hold hn hf
    simp only [List.length_append, List.length_cons, List.length_nil] at hn hf
    rw [countScan_skip strData n s.length fuel p count
      (HoldsAt_nonzero strData p s (HoldsAt_left _ _ _ _ hold) hs) (by omega) (by omega)]
    obtain ⟨f, hfe⟩ : ∃ f, fuel - s.length = f + 1 := ⟨fuel - s.length - 1, by omega⟩
    have hr := HoldsAt_right _ _ _ _ hold
    have h0 : strData (p + s.length) = 0 := HoldsAt_head _ _ _ _ hr
    have h1 : strData (p + s.length + 1) = 0 := by
      have := hr 1 (by simp)
      simpa using this
    have hlt : ((p + s.length : Nat) : Int) < n := by omega
    rw [hfe]
    simp only [countScan, if_pos hlt, h0, h1, if_true, List.length_nil, Nat.add_zero]
  | cons r rest ih =>
    intro s p fuel count hs hrest hold hn hf
    have hr : r ≠ [] ∧ ∀ c ∈ r, c ≠ 0 := hrest r (List.mem_cons_self _ _)
    have hrest2 : ∀ e ∈ rest, e ≠ [] ∧ ∀ c ∈ e, c ≠ 0 :=
      fun e he => hrest e (List.mem_cons_of_mem _ he)
    rw [flatImage_cons] at hold hn hf
    simp only [List.length_append, List.length_cons] at hn hf
    rw [countScan_skip strData n s.length fuel p count
      (HoldsAt_nonzero strData p s (HoldsAt_left _ _ _ _ hold) hs) (by omega) (by omega)]
    obtain ⟨f, hfe⟩ : ∃ f, fuel - s.length = f + 1 := ⟨fuel - s.length - 1, by omega⟩
    have hright := HoldsAt_right _ _ _ _ hold
    have h0 : strData (p + s.length) = 0 := HoldsAt_head _ _ _ _ hright
    have hnext : HoldsAt strData (p + s.length + 1) (flatImage (r :: rest)) := by
      have := HoldsAt_right strData (p + s.length) [0] (flatImage (r :: rest)) hright
      simpa using this
    have h1 : strData (p + s.length + 1) ≠ 0 := by
      obtain ⟨c, r2, rfl⟩ : ∃ c r2, r = c :: r2 := by
        cases r with
        | nil => exact absurd rfl hr.1
        | cons c r2 => exact ⟨c, r2, rfl⟩
      rw [flatImage_cons] at hnext
      have := HoldsAt_head _ _ _ _ hnext
      rw [this]
      exact hr.2 c (List.mem_cons_self _ _)
    have hlt : ((p + s.length : Nat) : Int) < n := by omega
    rw [hfe]
    simp only [countScan, if_pos hlt, h0, if_true, if_neg h1]
    rw [ih r (p + s.length + 1) f (count + 1) hr.2 hrest2 hnext (by omega) (by omega)]
    simp only [List.length_cons]
    omega



/-- The count scan does not depend on the fuel once it covers the remaining
indices: the loop leaves by its own condition. -/
theorem countScan_fuel (strData : Mem) (n : Int) :
    ∀ (fuel1 fuel2 i count : Nat), n ≤ ((fuel1 + i : Nat) : Int) → n ≤ ((fuel2 + i : Nat) : Int) →
      countScan strData n fuel1 i count = countScan strData n fuel2 i count := by
  intro fuel1
  induction fuel1 with
  | zero =>
    intro fuel2 i count h1 _
    cases fuel2 with
    | zero => rfl
    | succ f =>
      have : ¬ ((i : Int) < n) := by omega
      simp [countScan, this]
  | succ f1 ih =>
    intro fuel2 i count h1 h2
    cases fuel2 with
    | zero =>
      have : ¬ ((i : Int) < n) := by omega
      simp [countScan, this]
    | succ f2 =>
      simp only [countScan]
      rw [ih f2 (i + 1) (count + 1) (by omega) (by omega),
        ih f2 (i + 1) count (by omega) (by omega)]

/-- The materialise scan does not depend on the fuel once it covers the
remaining indices. -/
theorem fillScan_fuel (strData : Mem) (n : Int) (count : Nat) :
    ∀ (fuel1 fuel2 i start cnt : Nat) (result : List (Option JString)),
      n ≤ ((fuel1 + i : Nat) : Int) → n ≤ ((fuel2 + i : Nat) : Int) →
      fillScan strData n count fuel1 i start cnt result =
        fillScan strData n count fuel2 i start cnt result := by
  intro fuel1
  induction fuel1 with
  | zero =>
    intro fuel2 i start cnt result h1 _
    cases fuel2 with
    | zero => rfl
    | succ f =>
      have : ¬ ((i : Int) < n ∧ cnt < count) := by omega
      simp [fillScan, this]
  | succ f1 ih =>
    intro fuel2 i start cnt result h1 h2
    cases fuel2 with
    | zero =>
      have : ¬ ((i : Int) < n ∧ cnt < count) := by omega
      simp [fillScan, this]
    | succ f2 =>
      simp only [fillScan]
      rw [ih f2 (i + 1) (i + 1) (cnt + 1) _ (by omega) (by omega),
        ih f2 (i + 1) start cnt result (by omega) (by omega)]

theorem ascii7_nonzero (s : List Nat) (h : Ascii7 s) : ∀ c ∈ s, c ≠ 0 := by
  intro c hc
  have := h c hc
  omega

theorem widen_of_le (b : Nat) (h : b ≤ 127) : widen b = b := by
  unfold widen
  have h1 : b % 256 = b := Nat.mod_eq_of_lt (by omega)
  rw [h1, if_pos (by omega)]

theorem strbufToJString_eq (strData : Mem) (p : Nat) (s : List Nat)
    (hold : HoldsAt strData p s) (h7 : Ascii7 s) :
    strbufToJString strData p s.length = s := by
  apply List.ext_getElem
  · simp [strbufToJString]
  · intro i h1 h2
    have hget : s.getD i 0 = s[i] := by simp [List.getD_eq_getElem?_getD, h2]
    have hle : s[i] ≤ 127 := (h7 _ (List.getElem_mem h2)).2
    simp only [strbufToJString, List.getElem_map, List.getElem_range]
    rw [hold i h2, hget, widen_of_le _ hle]

theorem set_done (done : List JString) (s : JString) (k : Nat) :
    (done.map some ++ List.replicate (1 + k) none).set done.length (some s) =
      (done ++ [s]).map some ++ List.replicate k none := by
  induction done with
  | nil => simp [Nat.add_comm 1 k, List.replicate_succ]
  | cons d rest ih => simpa using ih

theorem fillScan_skip (strData : Mem) (n : Int) (count : Nat) :
    ∀ (m fuel i start cnt : Nat) (result : List (Option JString)),
      (∀ k, k < m → strData (i + k) ≠ 0) → ((i + m : Nat) : Int) ≤ n → m ≤ fuel → cnt < count →
      fillScan strData n count fuel i start cnt result =
        fillScan strData n count (fuel - m) (i + m) start cnt result := by
  intro m
  induction m with
  | zero => intro fuel i start cnt result _ _ _ _; rfl
  | succ m ih =>
    intro fuel i start cnt result hnz hn hf hc
    obtain ⟨fuel, rfl⟩ : ∃ f, fuel = f + 1 := ⟨fuel - 1, by omega⟩
    have h0 : strData i ≠ 0 := by simpa using hnz 0 (by omega)
    have hlt : (i : Int) < n ∧ cnt < count := ⟨by omega, hc⟩
    simp only [fillScan, if_pos hlt, if_neg h0]
    rw [ih fuel (i + 1) start cnt result (fun k hk => by
      have := hnz (k + 1) (by omega)
      rwa [show i + (k + 1) = i + 1 + k by omega] at this) (by omega) (by omega) hc]
    congr 1
    · omega
    · omega

theorem fillScan_segments (strData : Mem) (n : Int) (count : Nat) :
    ∀ (rest : List (List Nat)) (s : List Nat) (p fuel : Nat) (done : List JString),
      Ascii7 s → (∀ e ∈ rest, e ≠ [] ∧ Ascii7 e) →
      HoldsAt strData p (flatImage (s :: rest)) →
      ((p + (flatImage (s :: rest)).length : Nat) : Int) ≤ n →
      (flatImage (s :: rest)).length ≤ fuel →
      count = done.length + 1 + rest.length →
      fillScan strData n count fuel p p done.length
          (done.map some ++ List.replicate (1 + rest.length) none) =
        (done ++ s :: rest).map some := by
  intro rest
  induction rest with
  | nil =>
    intro s p fuel done hs _ hold hn hf hcount
    have himg : flatImage [s] = s ++ [0, 0] := by simp [flatImage]
    rw [himg] at hold hn hf
    simp only [List.length_append, List.length_cons, List.length_nil] at hn hf hcount
    have hleft := HoldsAt_left _ _ _ _ hold
    rw [fillScan_skip strData n count s.length fuel p p done.length _
      (HoldsAt_nonzero strData p s hleft (ascii7_nonzero s hs)) (by omega) (by omega)
      (by omega)]
    obtain ⟨f, hfe⟩ : ∃ f, fuel - s.length = f + 1 := ⟨fuel - s.length - 1, by omega⟩
    have hr := HoldsAt_right _ _ _ _ hold
    have h0 : strData (p + s.length) = 0 := HoldsAt_head _ _ _ _ hr
    have h1 : strData (p + s.length + 1) = 0 := by
      have := hr 1 (by simp)
      simpa using this
    have hlt : ((p + s.length : Nat) : Int) < n ∧ done.length < count := ⟨by omega, by omega⟩
    rw [hfe]
    simp only [fillScan, if_pos hlt, h0, h1, if_true, List.length_nil, Nat.add_sub_cancel_left]
    rw [strbufToJString_eq strData p s hleft hs]
    have := set_done done s 0
    simp at this
    simp [this]
  | cons r rest ih =>
    intro s p fuel done hs hrest hold hn hf hcount
    have hr : r ≠ [] ∧ Ascii7 r := hrest r (List.mem_cons_self _ _)
    have hrest2 : ∀ e ∈ rest, e ≠ [] ∧ Ascii7 e :=
      fun e he => hrest e (List.mem_cons_of_mem _ he)
    rw [flatImage_cons] at hold hn hf
    simp only [List.length_append, List.length_cons] at hn hf hcount
    have hleft := HoldsAt_left _ _ _ _ hold
    rw [fillScan_skip strData n count s.length fuel p p done.length _
      (HoldsAt_nonzero strData p s hleft (ascii7_nonzero s hs)) (by omega) (by omega)
      (by omega)]
    obtain ⟨f, hfe⟩ : ∃ f, fuel - s.length = f + 1 := ⟨fuel - s.length - 1, by omega⟩
    have hright := HoldsAt_right _ _ _ _ hold
    have h0 : strData (p + s.length) = 0 := HoldsAt_head _ _ _ _ hright
    have hnext : HoldsAt strData (p + s.length + 1) (flatImage (r :: rest)) := by
      have := HoldsAt_right strData (p + s.length) [0] (flatImage (r :: rest)) hright
      simpa using this
    have h1 : strData (p + s.length + 1) ≠ 0 := by
      obtain ⟨c, r2, rfl⟩ : ∃ c r2, r = c :: r2 := by
        cases r with
        | nil => exact absurd rfl hr.1
        | cons c r2 => exact ⟨c, r2, rfl⟩
      rw [flatImage_cons] at hnext
      have := HoldsAt_head _ _ _ _ hnext
      rw [this]
      exact ascii7_nonzero _ hr.2 c (List.mem_cons_self _ _)
    have hlt : ((p + s.length : Nat) : Int) < n ∧ done.length < count := ⟨by omega, by omega⟩
    rw [hfe]
    simp only [fillScan, if_pos hlt, h0, if_true, if_neg h1, Nat.add_sub_cancel_left]
    rw [strbufToJString_eq strData p s hleft hs]
    have hset := set_done done s (rest.length + 1)
    simp only [List.length_cons] at hset ⊢
    rw [show 1 + (rest.length + 1) = 1 + (rest.length + 1) from rfl] at hset
    rw [hset]
    have := ih r (p + s.length + 1) f (done ++ [s]) hr.2 hrest2 hnext (by omega) (by omega)
      (by simp; omega)
    simp only [List.length_append, List.length_singleton, Nat.add_comm 1 rest.length,
      List.append_assoc, List.singleton_append] at this
    exact this

theorem toInt32_of_lt (v : Nat) (h : v < 2147483648) : toInt32 v = (v : Int) := by
  unfold toInt32
  have h1 : v % 4294967296 = v := Nat.mod_eq_of_lt (by omega)
  rw [h1, if_pos h]

theorem decodeMultiSz_flatImage (strData : Mem) (s : List Nat) (rest : List (List Nat))
    (hs : Ascii7 s) (hrest : ∀ e ∈ rest, e ≠ [] ∧ Ascii7 e)
    (hold : HoldsAt strData 0 (flatImage (s :: rest)))
    (hsize : flatLength (s :: rest) < 2147483648) :
    decodeMultiSz strData (flatLength (s :: rest)) = (s :: rest).map some := by
  unfold decodeMultiSz
  simp only [toInt32_of_lt _ hsize, Int.toNat_ofNat]
  have hlen := flatImage_length (s :: rest)
  rw [countScan_segments strData _ rest s 0 _ 0 (ascii7_nonzero s hs)
    (fun e he => ⟨(hrest e he).1, ascii7_nonzero e (hrest e he).2⟩) hold
    (by rw [hlen]; simp) (by rw [hlen])]
  have := fillScan_segments strData (flatLength (s :: rest) : Nat) (0 + 1 + rest.length) rest s 0
    (flatLength (s :: rest)) [] hs hrest hold (by rw [hlen]; simp) (by rw [hlen]) (by simp)
  simp only [List.length_nil, List.map_nil, List.nil_append] at this
  rw [show 0 + 1 + rest.length = 1 + rest.length by omega]
  exact this


theorem encodeMultiSz_dataLen (jStrArray : List JString) (heap : Mem)
    (hsize : flatLength jStrArray < 4294967296) :
    (encodeMultiSz jStrArray heap).dataLen = flatLength jStrArray := by
  show multiSzDataLen jStrArray = flatLength jStrArray
  rw [multiSzDataLen_eq]
  exact Nat.mod_eq_of_lt hsize

theorem HoldsAt_of_agree (strData mem : Mem) (bytes : List Nat)
    (hold : HoldsAt mem 0 bytes)
    (hread : ∀ q, q < bytes.length → strData q = mem q) : HoldsAt strData 0 bytes := by
  intro k hk
  rw [Nat.zero_add, hread k hk]
  simpa using hold k hk

/-- Decoding what the encoder produced, for a first element followed by
non-empty elements, all 7-bit and NUL-free, of encoded length below `2 ^ 31`. -/
theorem decode_encode (s : JString) (rest : List JString)
    (hs : Ascii7 s) (hrest : ∀ e ∈ rest, e ≠ [] ∧ Ascii7 e)
    (hsize : flatLength (s :: rest) < 2147483648) (heap strData : Mem)
    (hread : ∀ q, q < (encodeMultiSz (s :: rest) heap).dataLen →
      strData q = (encodeMultiSz (s :: rest) heap).dataPtr q) :
    decodeMultiSz strData (encodeMultiSz (s :: rest) heap).dataLen = (s :: rest).map some := by
  have h7 : ∀ e ∈ s :: rest, Ascii7 e := by
    intro e he
    rcases List.mem_cons.mp he with h | h
    · exact h ▸ hs
    · exact (hrest e h).2
  rw [encodeMultiSz_dataLen _ _ (by omega)] at hread ⊢
  rw [encodeMultiSz_dataPtr, multiSzSegments_ascii7 _ h7] at hread
  apply decodeMultiSz_flatImage strData s rest hs hrest _ hsize
  apply HoldsAt_of_agree strData _ _ (HoldsAt_blit heap _)
  intro q hq
  exact hread q (by rwa [flatImage_length] at hq)


theorem setKeyValue_multi (env : SetEnv) (a : List JString)
    (hc : env.valClassFound = true) (hg : env.getDataFound = true)
    (hd : env.dataValue = some (Payload.strs a)) (ha : env.dataAlloc = true) :
    (setKeyValue env REG_MULTI_SZ).calls =
      [⟨REG_MULTI_SZ, (encodeMultiSz a env.heap).dataPtr, (encodeMultiSz a env.heap).dataLen⟩] := by
  unfold setKeyValue
  simp only [hc, hg, hd, Bool.not_true, Bool.false_eq_true, if_false]
  have hsw : setKeyValueSwitch env REG_MULTI_SZ (Payload.strs a) =
      Except.ok ((encodeMultiSz a env.heap).dataPtr, (encodeMultiSz a env.heap).dataLen) := by
    simp [setKeyValueSwitch, ha, REG_MULTI_SZ, REG_SZ, REG_EXPAND_SZ]
  rw [hsw]
  simp only
  split <;> rfl

theorem blit_beyond (heap : Mem) (bytes : List Nat) (q : Nat) (h : bytes.length ≤ q) :
    blit heap 0 bytes q = heap q := by
  have : ¬ (0 ≤ q ∧ q < 0 + bytes.length) := by omega
  rw [blit_apply, if_neg this]

theorem map_utf_of_ascii7 (jStrArray : List JString) (h7 : ∀ e ∈ jStrArray, Ascii7 e) :
    jStrArray.map GetStringUTFChars = jStrArray := by
  induction jStrArray with
  | nil => rfl
  | cons e rest ih =>
    rw [List.map_cons, utf_of_ascii7 e (h7 e (List.mem_cons_self _ _)),
      ih (fun d hd => h7 d (List.mem_cons_of_mem _ hd))]

theorem lowByte_of_ascii7 (e : JString) (h7 : Ascii7 e) : e.map (fun c => c % 256) = e := by
  induction e with
  | nil => rfl
  | cons c rest ih =>
    have hc := h7 c (List.mem_cons_self _ _)
    rw [List.map_cons, ih (fun d hd => h7 d (List.mem_cons_of_mem _ hd)),
      Nat.mod_eq_of_lt (by omega)]

theorem map_lowByte_of_ascii7 (jStrArray : List JString) (h7 : ∀ e ∈ jStrArray, Ascii7 e) :
    jStrArray.map (fun e => e.map (fun c => c % 256)) = jStrArray := by
  induction jStrArray with
  | nil => rfl
  | cons e rest ih =>
    rw [List.map_cons, lowByte_of_ascii7 e (h7 e (List.mem_cons_self _ _)),
      ih (fun d hd => h7 d (List.mem_cons_of_mem _ hd))]


theorem strlenFrom_skip (mem : Mem) :
    ∀ (m fuel i : Nat), (∀ k, k < m → mem (i + k) ≠ 0) → m ≤ fuel →
      strlenFrom mem fuel i = strlenFrom mem (fuel - m) (i + m) := by
  intro m
  induction m with
  | zero => intro fuel i _ _; rfl
  | succ m ih =>
    intro fuel i hnz hf
    obtain ⟨fuel, rfl⟩ : ∃ f, fuel = f + 1 := ⟨fuel - 1, by omega⟩
    have h0 : mem i ≠ 0 := by simpa using hnz 0 (by omega)
    simp only [strlenFrom, if_neg h0]
    rw [ih fuel (i + 1) (fun k hk => by
      have := hnz (k + 1) (by omega)
      rwa [show i + (k + 1) = i + 1 + k by omega] at this) (by omega)]
    congr 1
    · omega
    · omega

theorem strlenFrom_eq (mem : Mem) (s : List Nat) (hold : HoldsAt mem 0 (s ++ [0]))
    (hnz : ∀ c ∈ s, c ≠ 0) (fuel : Nat) (hf : s.length + 1 ≤ fuel) :
    strlenFrom mem fuel 0 = some s.length := by
  rw [strlenFrom_skip mem s.length fuel 0
    (HoldsAt_nonzero mem 0 s (HoldsAt_left _ _ _ _ hold) hnz) (by omega)]
  obtain ⟨f, hfe⟩ : ∃ f, fuel - s.length = f + 1 := ⟨fuel - s.length - 1, by omega⟩
  have h0 : mem (0 + s.length) = 0 := HoldsAt_head _ _ _ _ (HoldsAt_right _ _ _ _ hold)
  rw [Nat.zero_add] at h0 ⊢
  rw [hfe]
  simp only [strlenFrom, h0, if_true]

theorem utf_nonzero (jStr : JString) : ∀ b ∈ GetStringUTFChars jStr, b ≠ 0 := by
  unfold GetStringUTFChars
  intro b hb
  rw [List.mem_flatMap] at hb
  obtain ⟨c, _, hbc⟩ := hb
  unfold utfUnit at hbc
  split at hbc
  · simp at hbc; omega
  · split at hbc
    · simp at hbc; omega
    · simp at hbc; omega

theorem setKeyValue_string (env : SetEnv) (s : JString) (dwType : Nat)
    (hty : dwType = REG_SZ ∨ dwType = REG_EXPAND_SZ)
    (hc : env.valClassFound = true) (hg : env.getDataFound = true)
    (hd : env.dataValue = some (Payload.str s)) (ha : env.dataAlloc = true) :
    (setKeyValue env dwType).calls =
      [⟨dwType, blit env.heap 0 (GetStringUTFChars s ++ [0]),
        (GetStringUTFLength s + 1) % DWORD_MOD⟩] := by
  unfold setKeyValue
  simp only [hc, hg, hd, Bool.not_true, Bool.false_eq_true, if_false]
  have hsw : setKeyValueSwitch env dwType (Payload.str s) =
      Except.ok (blit env.heap 0 (GetStringUTFChars s ++ [0]),
        (GetStringUTFLength s + 1) % DWORD_MOD) := by
    unfold setKeyValueSwitch
    rw [if_pos hty]
    simp only [ha, if_true, jStringToNewAscii_eq]
    rw [show GetStringUTFLength s = (GetStringUTFChars s).length from rfl,
      strlenFrom_eq _ (GetStringUTFChars s) (HoldsAt_blit _ _) (utf_nonzero s) _
      (by unfold jStringToNewAsciiSize GetStringUTFLength; omega)]
  rw [hsw]
  simp only
  split <;> rfl

theorem range_map_agree (mem : Mem) (s : List Nat) (hold : HoldsAt mem 0 s) (h7 : Ascii7 s) :
    (List.range s.length).map (fun i => widen (mem i)) = s := by
  have := strbufToJString_eq mem 0 s hold h7
  simpa [strbufToJString] using this

theorem fmtPrecS_eq_take : ∀ (prec : Nat) (s : CStr), fmtPrecS prec s = s.take prec
  | 0, s => by simp [fmtPrecS]
  | _ + 1, [] => by simp [fmtPrecS]
  | prec + 1, c :: cs => by simp [fmtPrecS, fmtPrecS_eq_take prec cs]

theorem utf_eq_lowByte_iff (jStr : JString) :
    GetStringUTFChars jStr = jStr.map (fun c => c % 256) ↔ Ascii7 jStr := by
  constructor
  · intro h
    induction jStr with
    | nil => intro c hc; simp at hc
    | cons c rest ih =>
      have hlen := congrArg List.length h
      have hge := utf_length_ge rest
      have hcons : GetStringUTFChars (c :: rest) = utfUnit c ++ GetStringUTFChars rest := by
        simp [GetStringUTFChars, List.flatMap_cons]
      rw [hcons] at h hlen
      simp only [List.length_append, List.length_map, List.length_cons] at hlen
      by_cases hc : 1 ≤ c ∧ c ≤ 127
      · have hu : utfUnit c = [c] := by simp [utfUnit, hc]
        rw [hu] at h
        simp only [List.map_cons, List.singleton_append, List.cons.injEq] at h
        intro d hd
        rcases List.mem_cons.mp hd with rfl | hd
        · exact hc
        · exact ih h.2 d hd
      · exfalso
        have hu : 2 ≤ (utfUnit c).length := by
          unfold utfUnit
          rw [if_neg hc]
          split <;> simp
        omega
  · intro h
    rw [utf_of_ascii7 jStr h, lowByte_of_ascii7 jStr h]

theorem setKeyValueSwitch_error (env : SetEnv) (dwType : Nat) (d : Payload) (o : Outcome)
    (h : setKeyValueSwitch env dwType d = Except.error o) :
    ∀ (r : Int) (m : CStr), o ≠ Outcome.threw (Thrown.RegistryException r m) := by
  intro r m ho
  subst ho
  unfold setKeyValueSwitch at h
  split_ifs at h <;> cases d <;> simp at h
  all_goals (try split at h)
  all_goals simp at h


theorem blit_at (mem : Mem) (p : Nat) (bytes : List Nat) (i : Nat) (h : i < bytes.length) :
    blit mem p bytes (p + i) = bytes[i] := by
  have hc : p ≤ p + i ∧ p + i < p + bytes.length := by omega
  rw [blit_apply, if_pos hc, Nat.add_sub_cancel_left, List.getD_eq_getElem?_getD,
    List.getElem?_eq_getElem h, Option.getD_some]


theorem setKeyValue_no_call (env : SetEnv) (dwType : Nat)
    (h : (setKeyValue env dwType).calls = []) :
    ∀ (r : Int) (m : CStr),
      (setKeyValue env dwType).outcome ≠ Outcome.threw (Thrown.RegistryException r m) := by
  intro r m
  unfold setKeyValue at h ⊢
  by_cases hc : env.valClassFound = true
  · by_cases hg : env.getDataFound = true
    · simp only [hc, hg, Bool.not_true, Bool.false_eq_true, if_false] at h ⊢
      cases hd : env.dataValue with
      | none => simp [hd]
      | some d =>
        simp only [hd] at h ⊢
        cases hsw : setKeyValueSwitch env dwType d with
        | error o =>
          simp only [hsw]
          exact setKeyValueSwitch_error env dwType d o hsw r m
        | ok pr =>
          exfalso
          simp only [hsw] at h
          split at h <;> simp at h
    · simp [hc, hg]
  · simp [hc]

theorem setKeyValue_unsupported (env : SetEnv) (dwType : Nat) (d : Payload)
    (hk : dwType = REG_NONE ∨ dwType = REG_LINK ∨ dwType = REG_RESOURCE_LIST ∨
      dwType = REG_FULL_RESOURCE_DESCRIPTOR ∨ dwType = REG_RESOURCE_REQUIREMENTS_LIST)
    (hc : env.valClassFound = true) (hg : env.getDataFound = true)
    (hd : env.dataValue = some d) :
    (setKeyValue env dwType).calls = [⟨dwType, env.stackPtr, env.stackLen⟩] ∧
    (env.regErr = ERROR_SUCCESS → (setKeyValue env dwType).outcome = Outcome.returned) := by
  have hsw : setKeyValueSwitch env dwType d = Except.ok (env.stackPtr, env.stackLen) := by
    unfold setKeyValueSwitch
    rcases hk with h | h | h | h | h <;> subst h <;> rfl
  unfold setKeyValue
  simp only [hc, hg, hd, hsw, Bool.not_true, Bool.false_eq_true, if_false]
  constructor
  · split <;> rfl
  · intro hr
    simp [hr]


theorem longString_length : longString.length = 1073741824 := by
  unfold longString
  exact List.length_replicate _ _

theorem longString_ascii7 : Ascii7 longString := by
  intro c hc
  unfold longString at hc
  have := List.eq_of_mem_replicate hc
  omega

theorem longString_ne_nil : longString ≠ [] := by
  intro h0
  have h := longString_length
  rw [h0] at h
  exact absurd h (by simp)

theorem flatLength_pair (a b : List Nat) :
    flatLength [a, b] = a.length + 1 + (b.length + 1) + 1 := by
  simp [flatLength]

theorem decodeMultiSz_of_negative (strData : Mem) (dwBufSize : Nat)
    (h : toInt32 dwBufSize < 0) : decodeMultiSz strData dwBufSize = [] := by
  unfold decodeMultiSz
  have hz : (toInt32 dwBufSize).toNat = 0 := by omega
  simp only [hz, countScan, fillScan, List.replicate]

/-! ## The claims -/

/-- C1, as stated, fails: the sequence "a", "", "bb" (7-bit, NUL-free
characters) is written as 7 bytes and read back as the single element "a",
and the sequence of zero elements is written as 1 byte and read back as one
empty string. -/
theorem multiSz_roundtrip_counterexample :
    (∀ e ∈ [[97], [], [98, 98]], Ascii7 e) ∧
    decodeMultiSz (encodeMultiSz [[97], [], [98, 98]] (fun _ => 0)).dataPtr
        (encodeMultiSz [[97], [], [98, 98]] (fun _ => 0)).dataLen = [some [97]] ∧
    decodeMultiSz (encodeMultiSz [[97], [], [98, 98]] (fun _ => 0)).dataPtr
        (encodeMultiSz [[97], [], [98, 98]] (fun _ => 0)).dataLen
      ≠ [[97], [], [98, 98]].map some ∧
    decodeMultiSz (encodeMultiSz [] (fun _ => 0)).dataPtr
        (encodeMultiSz [] (fun _ => 0)).dataLen = [some []] ∧
    decodeMultiSz (encodeMultiSz [] (fun _ => 0)).dataPtr
        (encodeMultiSz [] (fun _ => 0)).dataLen ≠ ([] : List JString).map some := by
  decide

/-- C1 (amended): for every sequence of at least one string, of 7-bit NUL-free
characters, in which every element after the first is non-empty (the first may
be empty) and whose encoded length fits a signed 32-bit integer, the two scans
of the MultiString decoder, run on any buffer holding the bytes the encoder
passed with the length it passed, return the same elements in the same order
with no unfilled slot. -/
theorem multiSz_roundtrip_tail_nonempty (s : JString) (rest : List JString)
    (hs : Ascii7 s) (hrest : ∀ e ∈ rest, e ≠ [] ∧ Ascii7 e)
    (hsize : flatLength (s :: rest) < 2147483648) (heap strData : Mem)
    (hread : ∀ q, q < (encodeMultiSz (s :: rest) heap).dataLen →
      strData q = (encodeMultiSz (s :: rest) heap).dataPtr q) :
    decodeMultiSz strData (encodeMultiSz (s :: rest) heap).dataLen = (s :: rest).map some :=
  decode_encode s rest hs hrest hsize heap strData hread

/-- Instance of the amended C1: the sequence "", "a", "bb" is read back unchanged. -/
theorem multiSz_roundtrip_tail_nonempty_witness :
    decodeMultiSz (encodeMultiSz [[], [97], [98, 98]] (fun _ => 7)).dataPtr
        (encodeMultiSz [[], [97], [98, 98]] (fun _ => 7)).dataLen
      = [some [], some [97], some [98, 98]] :=
  multiSz_roundtrip_tail_nonempty [] [[97], [98, 98]] (by decide) (by decide) (by decide)
    (fun _ => 7) _ (fun _ _ => rfl)

/-- C2, as stated, fails on a sequence too long for the decoder's loop bound:
two strings of 2 ^ 30 characters `A` are non-empty, 7-bit and NUL-free; the
encoder passes the length 2 ^ 31 + 3, whose cast `(int)dwBufSize` is negative,
so neither scan of the decoder runs and the result has no element. -/
theorem multiSz_roundtrip_nonempty_counterexample :
    (∀ e ∈ [longString, longString], e ≠ [] ∧ Ascii7 e) ∧
    (encodeMultiSz [longString, longString] (fun _ => 0)).dataLen = 2147483651 ∧
    decodeMultiSz (encodeMultiSz [longString, longString] (fun _ => 0)).dataPtr
        (encodeMultiSz [longString, longString] (fun _ => 0)).dataLen = [] ∧
    decodeMultiSz (encodeMultiSz [longString, longString] (fun _ => 0)).dataPtr
        (encodeMultiSz [longString, longString] (fun _ => 0)).dataLen
      ≠ [longString, longString].map some := by
  have hflat : flatLength [longString, longString] = 2147483651 := by
    rw [flatLength_pair, longString_length]
  have hlen : (encodeMultiSz [longString, longString] (fun _ => 0)).dataLen = 2147483651 := by
    rw [encodeMultiSz_dataLen _ _ (by rw [hflat]; omega), hflat]
  have hdec : decodeMultiSz (encodeMultiSz [longString, longString] (fun _ => 0)).dataPtr
      (encodeMultiSz [longString, longString] (fun _ => 0)).dataLen = [] := by
    rw [hlen]
    apply decodeMultiSz_of_negative
    unfold toInt32
    omega
  refine ⟨?_, hlen, hdec, ?_⟩
  · intro e he
    have he2 : e = longString := by
      rcases List.mem_cons.mp he with h | h
      · exact h
      · exact List.mem_singleton.mp h
    rw [he2]
    exact ⟨longString_ne_nil, longString_ascii7⟩
  · rw [hdec]
    exact List.noConfusion

/-- C2 (amended): for every sequence of N >= 1 strings in which every element
is non-empty and made of 7-bit NUL-free characters, and whose encoded length
is below 2 ^ 31, decoding (count scan and materialise scan) a buffer holding
the bytes and the length produced by the MultiString encoder yields exactly the
original sequence: N elements, same order, each element equal. -/
theorem multiSz_roundtrip_nonempty (jStrArray : List JString)
    (hN : 1 ≤ jStrArray.length) (helem : ∀ e ∈ jStrArray, e ≠ [] ∧ Ascii7 e)
    (hsize : flatLength jStrArray < 2147483648) (heap strData : Mem)
    (hread : ∀ q, q < (encodeMultiSz jStrArray heap).dataLen →
      strData q = (encodeMultiSz jStrArray heap).dataPtr q) :
    decodeMultiSz strData (encodeMultiSz jStrArray heap).dataLen = jStrArray.map some ∧
    (decodeMultiSz strData (encodeMultiSz jStrArray heap).dataLen).length = jStrArray.length := by
  cases jStrArray with
  | nil => simp at hN
  | cons s rest =>
    have h := decode_encode s rest (helem s (List.mem_cons_self _ _)).2
      (fun e he => helem e (List.mem_cons_of_mem _ he)) hsize heap strData hread
    exact ⟨h, by rw [h, List.length_map]⟩

/-- Instance of the amended C2: the sequence "a", "bb", "c" is read back unchanged. -/
theorem multiSz_roundtrip_nonempty_witness :
    decodeMultiSz (encodeMultiSz [[97], [98, 98], [99]] (fun _ => 7)).dataPtr
        (encodeMultiSz [[97], [98, 98], [99]] (fun _ => 7)).dataLen
      = [some [97], some [98, 98], some [99]] :=
  (multiSz_roundtrip_nonempty [[97], [98, 98], [99]] (by decide) (by decide) (by decide)
    (fun _ => 7) _ (fun _ _ => rfl)).1


/-- C3, as stated, fails on a character outside 1..127: for the one-element
sequence holding the character U+00E9 the write path passes length 3 and the
bytes 195, 0, 0.  The low-byte transcoding of the element is the single byte
233; its transcoding by the code (jStringToNewAscii) is the two bytes 195, 169,
for which the claimed length would be 4. -/
theorem multiSz_layout_counterexample :
    (encodeMultiSz [[233]] (fun _ => 7)).dataLen = 3 ∧
    bytesOf (encodeMultiSz [[233]] (fun _ => 7)).dataPtr 3 = [195, 0, 0] ∧
    flatImage ([[233]].map (fun e => e.map (fun c => c % 256))) = [233, 0, 0] ∧
    bytesOf (encodeMultiSz [[233]] (fun _ => 7)).dataPtr 3
      ≠ flatImage ([[233]].map (fun e => e.map (fun c => c % 256))) ∧
    bytesOf (jStringToNewAscii [233] (fun _ => 7)) 3 = [195, 169, 0] ∧
    (encodeMultiSz [[233]] (fun _ => 7)).dataLen
      ≠ flatLength ([[233]].map GetStringUTFChars) := by
  decide

/-- C3 (amended): for every sequence of strings of 7-bit NUL-free characters
whose computed length plus the margin of 32 stays below 2 ^ 32, the MultiString
write path issues one native set call whose length is (sum over the elements
of (byte length of the transcoding + 1)) + 1, the first that-many bytes of the
buffer are each element's transcoded bytes followed by NUL, then one final
NUL; the transcoded bytes are the low bytes of the characters; the block
requested is 32 bytes longer than the length passed, and no byte at or beyond
the computed length is written. -/
theorem multiSz_layout (jStrArray : List JString) (h7 : ∀ e ∈ jStrArray, Ascii7 e)
    (hsize : flatLength jStrArray + 32 < 4294967296) (env : SetEnv)
    (hc : env.valClassFound = true) (hg : env.getDataFound = true)
    (hd : env.dataValue = some (Payload.strs jStrArray)) (ha : env.dataAlloc = true) :
    ∃ call : SetCall, (setKeyValue env REG_MULTI_SZ).calls = [call] ∧
      call.dataLen = flatLength (jStrArray.map GetStringUTFChars) ∧
      bytesOf call.dataPtr call.dataLen = flatImage (jStrArray.map GetStringUTFChars) ∧
      jStrArray.map GetStringUTFChars = jStrArray.map (fun e => e.map (fun c => c % 256)) ∧
      (encodeMultiSz jStrArray env.heap).allocSize = call.dataLen + 32 ∧
      (encodeMultiSz jStrArray env.heap).endPtr = call.dataLen ∧
      ∀ q, call.dataLen ≤ q → call.dataPtr q = env.heap q := by
  refine ⟨_, setKeyValue_multi env jStrArray hc hg hd ha, ?_⟩
  have hlen := encodeMultiSz_dataLen jStrArray env.heap (by omega)
  have hptr : (encodeMultiSz jStrArray env.heap).dataPtr = blit env.heap 0 (flatImage jStrArray) := by
    rw [encodeMultiSz_dataPtr, multiSzSegments_ascii7 _ h7]
  rw [map_utf_of_ascii7 _ h7, map_lowByte_of_ascii7 _ h7]
  simp only [hlen, hptr]
  refine ⟨trivial, ?_, trivial, ?_, encodeMultiSz_endPtr _ _, ?_⟩
  · rw [← flatImage_length]
    exact bytesOf_blit _ _
  · show (multiSzDataLen jStrArray + 32) % DWORD_MOD = flatLength jStrArray + 32
    rw [show multiSzDataLen jStrArray = flatLength jStrArray from hlen]
    exact Nat.mod_eq_of_lt hsize
  · intro q hq
    exact blit_beyond _ _ _ (by rwa [flatImage_length])

/-- Instance of the amended C3: "a", "", "bb" is written as 7 bytes. -/
theorem multiSz_layout_witness :
    ∃ call : SetCall,
      (setKeyValue ⟨true, true, true, some (Payload.strs [[97], [], [98, 98]]), true,
        fun _ => 7, fun _ => 5, 77, 0⟩ REG_MULTI_SZ).calls = [call] ∧
      call.dataLen = 7 ∧ bytesOf call.dataPtr call.dataLen = [97, 0, 0, 98, 98, 0, 0] := by
  obtain ⟨call, h1, h2, h3, _⟩ := multiSz_layout [[97], [], [98, 98]] (by decide) (by decide)
    ⟨true, true, true, some (Payload.strs [[97], [], [98, 98]]), true,
      fun _ => 7, fun _ => 5, 77, 0⟩ rfl rfl rfl rfl
  exact ⟨call, h1, h2, h3⟩

/-- C4, as stated, fails: writing a MultiString payload of zero elements passes
the length 1, not 2, and writes one NUL byte; the second byte of the block
keeps whatever the allocator left there (here 7). -/
theorem multiSz_empty_counterexample :
    (setKeyValue ⟨true, true, true, some (Payload.strs []), true,
        fun _ => 7, fun _ => 5, 77, 0⟩ REG_MULTI_SZ).calls.map
      (fun call => (call.dataLen, bytesOf call.dataPtr 2)) = [(1, [0, 7])] ∧
    (setKeyValue ⟨true, true, true, some (Payload.strs []), true,
        fun _ => 7, fun _ => 5, 77, 0⟩ REG_MULTI_SZ).calls.map
      (fun call => (call.dataLen, bytesOf call.dataPtr 2)) ≠ [(2, [0, 0])] := by
  decide

/-- C4 (amended): writing a MultiString payload with zero elements issues one
native set call of type REG_MULTI_SZ whose data length is 1 and whose single
byte is NUL; no other byte of the block is written. -/
theorem multiSz_empty_layout (env : SetEnv)
    (hc : env.valClassFound = true) (hg : env.getDataFound = true)
    (hd : env.dataValue = some (Payload.strs [])) (ha : env.dataAlloc = true) :
    ∃ call : SetCall, (setKeyValue env REG_MULTI_SZ).calls = [call] ∧
      call.dwType = REG_MULTI_SZ ∧ call.dataLen = 1 ∧ call.dataPtr 0 = 0 ∧
      ∀ q, 1 ≤ q → call.dataPtr q = env.heap q := by
  refine ⟨_, setKeyValue_multi env [] hc hg hd ha, rfl, rfl, rfl, ?_⟩
  intro q hq
  show store env.heap 0 0 q = env.heap q
  have : q ≠ 0 := by omega
  simp [store_apply, this]

/-- Instance of the amended C4 on a block whose bytes were all 7. -/
theorem multiSz_empty_layout_witness :
    ∃ call : SetCall,
      (setKeyValue ⟨true, true, true, some (Payload.strs []), true,
        fun _ => 7, fun _ => 5, 77, 0⟩ REG_MULTI_SZ).calls = [call] ∧
      call.dwType = REG_MULTI_SZ ∧ call.dataLen = 1 ∧ call.dataPtr 0 = 0 ∧
      ∀ q, 1 ≤ q → call.dataPtr q = 7 :=
  multiSz_empty_layout ⟨true, true, true, some (Payload.strs []), true,
    fun _ => 7, fun _ => 5, 77, 0⟩ rfl rfl rfl rfl


/-- C5: for every string s of 7-bit NUL-free characters (the empty string
included; a managed string has fewer than 2 ^ 31 characters), the String /
ExpandableString write path passes exactly len(s) + 1 bytes, the characters of
s followed by one NUL, to the native set call, and the String read path applied
to stored data consisting of those bytes returns a managed string equal to s,
where `size_t` has 64 bits; where it has 32 bits the read returns s for every
s of fewer than 2 ^ 31 - 3 characters. -/
theorem string_roundtrip (s : JString) (h7 : Ascii7 s) (hlen : s.length < 2147483648)
    (env : SetEnv) (dwType : Nat) (hty : dwType = REG_SZ ∨ dwType = REG_EXPAND_SZ)
    (hc : env.valClassFound = true) (hg : env.getDataFound = true)
    (hd : env.dataValue = some (Payload.str s)) (ha : env.dataAlloc = true) :
    ∃ call : SetCall, (setKeyValue env dwType).calls = [call] ∧
      call.dwType = dwType ∧ call.dataLen = s.length + 1 ∧
      bytesOf call.dataPtr call.dataLen = s ++ [0] ∧
      ∀ (bits : Nat) (valueName : CStr) (probe fetch : QueryReply),
        (bits = 64 ∨ (bits = 32 ∧ s.length + 3 < 2147483648)) →
        probe.regErr = ERROR_SUCCESS → (probe.dwType = REG_SZ ∨ probe.dwType = REG_EXPAND_SZ) →
        fetch.regErr = ERROR_SUCCESS → fetch.dwBufSize = call.dataLen →
        (∀ q, q < call.dataLen → fetch.data q = call.dataPtr q) →
        getStringValueData bits valueName probe fetch true true = Res.value s := by
  refine ⟨_, setKeyValue_string env s dwType hty hc hg hd ha, rfl, ?_⟩
  have hutf := utf_of_ascii7 s h7
  have hl : (GetStringUTFLength s + 1) % DWORD_MOD = s.length + 1 := by
    unfold GetStringUTFLength DWORD_MOD
    rw [hutf]
    exact Nat.mod_eq_of_lt (by omega)
  simp only [hl, hutf]
  refine ⟨trivial, ?_, ?_⟩
  · have := bytesOf_blit env.heap (s ++ [0])
    simpa using this
  · intro bits valueName probe fetch hbits hp hpt hf hsz hdata
    unfold getStringValueData
    have hpt2 : ¬ (probe.dwType ≠ REG_SZ ∧ probe.dwType ≠ REG_EXPAND_SZ) := by
      rcases hpt with h | h <;> simp [h]
    simp only [hp, hf, ne_eq, not_true_eq_false, if_false, hpt2, Bool.not_true,
      Bool.false_eq_true, hsz]
    have hdec : decrementedSize (s.length + 1) = s.length := by
      unfold decrementedSize DWORD_MOD
      omega
    have hslots : uniBufSlots bits (s.length + 1) = s.length + 3 := by
      unfold uniBufSlots uniBufBytes DWORD_MOD
      rcases hbits with h | ⟨h, _⟩ <;> subst h <;> omega
    have hs : (List.range s.length).map (fun i => widen (fetch.data i)) = s := by
      apply range_map_agree fetch.data s _ h7
      apply HoldsAt_of_agree fetch.data _ s (HoldsAt_left _ 0 s [0] (HoldsAt_blit env.heap _))
      intro q hq
      exact hdata q (by omega)
    have hfit : ¬ (s.length + 3 < s.length ∨ toInt32 s.length < 0) := by
      rw [toInt32_of_lt _ hlen]
      omega
    rw [hdec, hslots, if_neg hfit, hs]

/-- Instance of C5: "Hi" is written as 3 bytes and read back as "Hi". -/
theorem string_roundtrip_witness :
    ∃ call : SetCall,
      (setKeyValue ⟨true, true, true, some (Payload.str [72, 105]), true,
        fun _ => 7, fun _ => 5, 77, 0⟩ REG_SZ).calls = [call] ∧
      call.dataLen = 3 ∧ bytesOf call.dataPtr call.dataLen = [72, 105, 0] ∧
      getStringValueData 64 [] ⟨0, REG_SZ, 3, fun _ => 0⟩ ⟨0, REG_SZ, 3, call.dataPtr⟩
          true true
        = Res.value [72, 105] := by
  obtain ⟨call, h1, _, h3, h4, h5⟩ := string_roundtrip [72, 105] (by decide) (by decide)
    ⟨true, true, true, some (Payload.str [72, 105]), true, fun _ => 7, fun _ => 5, 77, 0⟩
    REG_SZ (Or.inl rfl) rfl rfl rfl rfl
  exact ⟨call, h1, h3, h4,
    h5 64 [] ⟨0, REG_SZ, 3, fun _ => 0⟩ ⟨0, REG_SZ, 3, call.dataPtr⟩ (Or.inl rfl) rfl
      (Or.inl rfl) rfl h3.symm (fun _ _ => rfl)⟩

/-- C6, as stated, fails: for the one-character string U+00E9 the buffer
returned by jStringToNewAscii holds the two bytes 195, 169 and then NUL, not
the single low byte 233 followed by NUL. -/
theorem lowByte_transcoding_counterexample :
    bytesOf (jStringToNewAscii [233] (fun _ => 7)) 3 = [195, 169, 0] ∧
    bytesOf (jStringToNewAscii [233] (fun _ => 7)) 2 ≠ [233].map (fun c => c % 256) ++ [0] := by
  decide

/-- C6 (amended): for every managed string s, the buffer returned by
jStringToNewAscii holds the modified UTF-8 bytes of s followed by a
terminating NUL; this is one byte per character, byte i being the low 8 bits
of the code of character i, exactly when every character of s lies in 1..127.
For every capacity of at least 1, jStringToAscii writes the first
min(byte count, capacity - 1) of the same bytes and a NUL after them. -/
theorem transcoding_bytes (jStr : JString) (heap : Mem) :
    bytesOf (jStringToNewAscii jStr heap) (GetStringUTFLength jStr + 1)
      = GetStringUTFChars jStr ++ [0] ∧
    (GetStringUTFChars jStr = jStr.map (fun c => c % 256) ↔ Ascii7 jStr) ∧
    ∀ (mem : Mem) (asciiBuf : Nat) (asciiLen : Nat), 1 ≤ asciiLen →
      bytesOf (fun i => jStringToAscii jStr mem asciiBuf asciiLen (asciiBuf + i))
          (min (GetStringUTFLength jStr) (asciiLen - 1) + 1)
        = (bytesOf (jStringToNewAscii jStr heap) (GetStringUTFLength jStr)).take (asciiLen - 1)
          ++ [0] := by
  have hnew : ∀ k, k ≤ GetStringUTFLength jStr + 1 →
      bytesOf (jStringToNewAscii jStr heap) k = (GetStringUTFChars jStr ++ [0]).take k := by
    intro k hk
    rw [jStringToNewAscii_eq]
    apply List.ext_getElem
    · simp [bytesOf, GetStringUTFLength] at hk ⊢
      omega
    · intro i h1 h2
      simp only [bytesOf, List.length_map, List.length_range] at h1
      have h3 : i < (GetStringUTFChars jStr ++ [0]).length := by
        simp [GetStringUTFLength] at hk ⊢
        omega
      have hb := blit_at heap 0 (GetStringUTFChars jStr ++ [0]) i h3
      rw [Nat.zero_add] at hb
      simp only [bytesOf, List.getElem_map, List.getElem_range, List.getElem_take, hb]
  refine ⟨?_, utf_eq_lowByte_iff jStr, ?_⟩
  · rw [hnew _ (Nat.le_refl _)]
    apply List.take_of_length_le
    simp [GetStringUTFLength]
  · intro mem asciiBuf asciiLen hcap
    rw [hnew _ (Nat.le_succ _), jStringToAscii_eq]
    have hk : ((asciiLen : Int) - 1).toNat = asciiLen - 1 := by omega
    rw [hk]
    have htake : (GetStringUTFChars jStr ++ [0]).take (GetStringUTFLength jStr)
        = GetStringUTFChars jStr := by
      unfold GetStringUTFLength
      simp
    rw [htake]
    have hlen : ((GetStringUTFChars jStr).take (asciiLen - 1) ++ [0]).length
        = min (GetStringUTFLength jStr) (asciiLen - 1) + 1 := by
      simp [GetStringUTFLength, Nat.min_comm]
    rw [← hlen]
    apply List.ext_getElem
    · simp [bytesOf]
    · intro i h1 h2
      simp only [bytesOf, List.getElem_map, List.getElem_range]
      exact blit_at mem asciiBuf _ i h2

/-- Instance of the amended C6: "Hi!" into a buffer of capacity 2 at offset 4. -/
theorem transcoding_bytes_witness :
    bytesOf (fun i => jStringToAscii [72, 105, 33] (fun _ => 9) 4 2 (4 + i)) 2 = [72, 0] := by
  have h := (transcoding_bytes [72, 105, 33] (fun _ => 7)).2.2 (fun _ => 9) 4 2 (by decide)
  exact h.trans (by decide)


/-- C7: for every 32-bit signed type tag t carried by the value object,
set-value raises the generic registry error with status invalid-parameter and
issues zero native registry calls if and only if t < 0 or t > 10
(REG_RESOURCE_REQUIREMENTS_LIST); the lower-bound test on the unsigned value is
never true, and a negative t is rejected by the upper-bound test on its
unsigned reinterpretation. -/
theorem setValue_rejects_iff (env : SetEnv) (jType : Int)
    (hlo : -2147483648 ≤ jType) (hhi : jType ≤ 2147483647) :
    (((∃ message : CStr, (setValue env jType).outcome
          = Outcome.threw (Thrown.RegistryException ERROR_INVALID_PARAMETER message)) ∧
        (setValue env jType).calls = []) ↔ (jType < 0 ∨ 10 < jType)) ∧
    ¬ (toDWORD jType < REG_NONE) ∧
    (jType < 0 → REG_RESOURCE_REQUIREMENTS_LIST < toDWORD jType) := by
  have hneg : jType < 0 → REG_RESOURCE_REQUIREMENTS_LIST < toDWORD jType := by
    intro h
    unfold REG_RESOURCE_REQUIREMENTS_LIST toDWORD
    omega
  refine ⟨?_, by unfold REG_NONE; omega, hneg⟩
  by_cases hr : jType < 0 ∨ 10 < jType
  · have hcond : toDWORD jType < REG_NONE ∨ toDWORD jType > REG_RESOURCE_REQUIREMENTS_LIST := by
      right
      rcases hr with h | h
      · exact hneg h
      · unfold REG_RESOURCE_REQUIREMENTS_LIST toDWORD
        omega
    simp only [hr, iff_true]
    unfold setValue
    simp only [if_pos hcond]
    exact ⟨⟨_, rfl⟩, trivial⟩
  · have hcond : ¬ (toDWORD jType < REG_NONE ∨
        toDWORD jType > REG_RESOURCE_REQUIREMENTS_LIST) := by
      unfold REG_NONE REG_RESOURCE_REQUIREMENTS_LIST toDWORD
      omega
    simp only [hr, iff_false, not_and]
    unfold setValue
    simp only [if_neg hcond]
    rintro ⟨message, hm⟩ hcalls
    by_cases hn : env.nameAlloc = true
    · simp only [hn, if_true] at hm hcalls
      exact setKeyValue_no_call env _ hcalls _ _ hm
    · simp [hn] at hm

/-- Instance of C7: the type tag -1 is rejected without a native call. -/
theorem setValue_rejects_iff_witness :
    (∃ message : CStr,
      (setValue ⟨true, true, true, some (Payload.int 5), true, fun _ => 7, fun _ => 5, 77, 0⟩
        (-1)).outcome = Outcome.threw (Thrown.RegistryException ERROR_INVALID_PARAMETER message)) ∧
    (setValue ⟨true, true, true, some (Payload.int 5), true, fun _ => 7, fun _ => 5, 77, 0⟩
      (-1)).calls = [] :=
  (setValue_rejects_iff
    ⟨true, true, true, some (Payload.int 5), true, fun _ => 7, fun _ => 5, 77, 0⟩ (-1)
    (by decide) (by decide)).1.mpr (Or.inl (by decide))

/-- C8 is violated by the code: for a type tag in the recognised range that is
one of None (0), Link (6), ResourceList (8), FullResourceDescriptor (9),
ResourceRequirementsList (10), set-value does not reject: the switch of
setKeyValue has no default label, so one native set call is issued with that
type and with the never-assigned locals dataPtr and dataLen, and the call
returns normally when the native status is success. -/
theorem setValue_unsupported_kind_calls_native (env : SetEnv) (jType : Int)
    (hk : jType = 0 ∨ jType = 6 ∨ jType = 8 ∨ jType = 9 ∨ jType = 10)
    (hn : env.nameAlloc = true) (hc : env.valClassFound = true)
    (hg : env.getDataFound = true) (d : Payload) (hd : env.dataValue = some d) :
    (setValue env jType).calls = [⟨toDWORD jType, env.stackPtr, env.stackLen⟩] ∧
    (env.regErr = ERROR_SUCCESS → (setValue env jType).outcome = Outcome.returned) := by
  have hcond : ¬ (toDWORD jType < REG_NONE ∨
      toDWORD jType > REG_RESOURCE_REQUIREMENTS_LIST) := by
    unfold REG_NONE REG_RESOURCE_REQUIREMENTS_LIST toDWORD
    omega
  have hkind : toDWORD jType = REG_NONE ∨ toDWORD jType = REG_LINK ∨
      toDWORD jType = REG_RESOURCE_LIST ∨ toDWORD jType = REG_FULL_RESOURCE_DESCRIPTOR ∨
      toDWORD jType = REG_RESOURCE_REQUIREMENTS_LIST := by
    unfold REG_NONE REG_LINK REG_RESOURCE_LIST REG_FULL_RESOURCE_DESCRIPTOR
      REG_RESOURCE_REQUIREMENTS_LIST toDWORD
    omega
  unfold setValue
  simp only [if_neg hcond, hn, if_true]
  exact setKeyValue_unsupported env _ d hkind hc hg hd

/-- Instance for C8: the type tag 6 (Link) reaches the native set call with the unassigned locals. -/
theorem setValue_unsupported_kind_calls_native_witness :
    (setValue ⟨true, true, true, some (Payload.str [72, 105]), true, fun _ => 7, fun _ => 5,
      77, 0⟩ 6).calls.map (fun call => (call.dwType, call.dataLen, call.dataPtr 0))
      = [(6, 77, 5)] := by
  rw [(setValue_unsupported_kind_calls_native
    ⟨true, true, true, some (Payload.str [72, 105]), true, fun _ => 7, fun _ => 5, 77, 0⟩ 6
    (by decide) rfl rfl rfl (Payload.str [72, 105]) rfl).1]
  rfl

/-- C9: for every native status code and every combination of present or
absent key-name and value-name, throwSpecificRegError raises exactly one of
three kinds: NoSuchKey if and only if the status is not-found and a key-name is
supplied; NoSuchValue if and only if the status is not-found, no key-name is
supplied and a value-name is supplied; the generic RegistryError in every other
case, including not-found with neither context and every other status. -/
theorem throwSpecificRegError_classifies (regErr : Int) (message : CStr)
    (keyName valueName : Option CStr) :
    ((∃ m, throwSpecificRegError regErr message keyName valueName
        = Thrown.NoSuchKeyException m) ↔ (regErr = ERROR_FILE_NOT_FOUND ∧ keyName ≠ none)) ∧
    ((∃ m, throwSpecificRegError regErr message keyName valueName
        = Thrown.NoSuchValueException m) ↔
      (regErr = ERROR_FILE_NOT_FOUND ∧ keyName = none ∧ valueName ≠ none)) ∧
    ((throwSpecificRegError regErr message keyName valueName
        = Thrown.RegistryException regErr message) ↔
      ¬ (regErr = ERROR_FILE_NOT_FOUND ∧ (keyName ≠ none ∨ valueName ≠ none))) ∧
    ((∃ m, throwSpecificRegError regErr message keyName valueName
        = Thrown.NoSuchKeyException m) ∨
      (∃ m, throwSpecificRegError regErr message keyName valueName
        = Thrown.NoSuchValueException m) ∨
      throwSpecificRegError regErr message keyName valueName
        = Thrown.RegistryException regErr message) := by
  by_cases hr : regErr = ERROR_FILE_NOT_FOUND
  · cases keyName <;> cases valueName <;>
      simp [throwSpecificRegError, throwRegErrorException, hr]
  · simp [throwSpecificRegError, throwRegErrorException, hr]

/-- C10: for every operation label and key name, the NoSuchKey message is
exactly (first 200 characters of the label) + ", key='" + (first 200
characters of the key name) + "'", and for every label and value name the
NoSuchValue message is (first 200 characters of the label) + ", value='" +
(first 200 characters of the value name) + "'"; each field is truncated
independently of the other. -/
theorem classifier_message_truncation (message keyName valueName : CStr) :
    (∀ other : Option CStr,
      throwSpecificRegError ERROR_FILE_NOT_FOUND message (some keyName) other
        = Thrown.NoSuchKeyException
            (message.take 200 ++ ", key=\x27".toList ++ keyName.take 200 ++ "\x27".toList)) ∧
    throwSpecificRegError ERROR_FILE_NOT_FOUND message none (some valueName)
      = Thrown.NoSuchValueException
          (message.take 200 ++ ", value=\x27".toList ++ valueName.take 200 ++ "\x27".toList) ∧
    (message.take 200).length = min 200 message.length ∧
    (keyName.take 200).length = min 200 keyName.length ∧
    (valueName.take 200).length = min 200 valueName.length := by
  refine ⟨?_, ?_, List.length_take _ _, List.length_take _ _, List.length_take _ _⟩
  · intro other
    simp [throwSpecificRegError, fmtPrecS_eq_take]
  · simp [throwSpecificRegError, fmtPrecS_eq_take]

/-! ## Handles, counters, key names and read paths : lemmas and claims -/

theorem RegIsHKeyRemote_iff (hKey : Nat) :
    RegIsHKeyRemote hKey = true ↔
      ¬ (HKEY_CLASSES_ROOT ≤ hKey ∧ hKey ≤ HKEY_DYN_DATA) ∧ hKey % 2 = 1 := by
  unfold RegIsHKeyRemote
  by_cases h : hKey ≥ HKEY_CLASSES_ROOT ∧ hKey ≤ HKEY_DYN_DATA
  · simp [h]
  · have h2 : ¬ (HKEY_CLASSES_ROOT ≤ hKey ∧ hKey ≤ HKEY_DYN_DATA) := h
    simp only [h, if_false, h2, not_false_eq_true, true_and, beq_iff_eq]
    rw [Nat.and_one_is_mod, Nat.xor_mod_two_eq]
    unfold DWORD_MOD
    omega

theorem writeBytes_eq_blit (bytes : List Nat) :
    ∀ (mem : Mem) (p : Nat), writeBytes bytes mem p = blit mem p bytes := by
  induction bytes with
  | nil => intro mem p; simp [writeBytes, blit_nil]
  | cons b rest ih =>
    intro mem p
    simp only [writeBytes]
    rw [ih]
    have h1 := store_blit mem p [] b
    simp only [List.length_nil, Nat.add_zero, List.nil_append, blit_nil] at h1
    rw [h1]
    have h2 := blit_blit mem p [b] rest
    simpa using h2

theorem cstr_of_nonzero (bytes : List Nat) (h : ∀ b ∈ bytes, b ≠ 0) : cstr bytes = bytes := by
  unfold cstr
  rw [List.takeWhile_eq_self_iff]
  intro b hb
  simpa using h b hb

theorem bytesOf_blit_prefix (heap : Mem) (a b : List Nat) :
    bytesOf (blit heap 0 (a ++ b)) a.length = a := by
  apply List.ext_getElem
  · simp [bytesOf]
  · intro i h1 h2
    have h3 : i < (a ++ b).length := by simp; omega
    have hb := blit_at heap 0 (a ++ b) i h3
    rw [Nat.zero_add] at hb
    simp only [bytesOf, List.getElem_map, List.getElem_range, hb]
    exact List.getElem_append_left h2

theorem ascii7_append (a b : List Nat) (ha : Ascii7 a) (hb : Ascii7 b) : Ascii7 (a ++ b) := by
  intro c hc
  rcases List.mem_append.mp hc with h | h
  · exact ha c h
  · exact hb c h

/-- The request of `buildFullKeyName` on a 32-bit `size_t`: the sum itself,
modulo 2 ^ 32. -/
theorem request_32 (n : Nat) : toSizeT 32 (toInt32 n) = n % 4294967296 := by
  unfold toSizeT toInt32
  have h : ((2 : Int) ^ 32) = 4294967296 := by norm_num
  rw [h]
  split_ifs <;> omega

/-- The request of `buildFullKeyName` on a 64-bit `size_t`: the sum modulo
2 ^ 32 when that is below 2 ^ 31, and 2 ^ 64 - 2 ^ 32 more otherwise. -/
theorem request_64 (n : Nat) :
    toSizeT 64 (toInt32 n)
      = if n % 4294967296 < 2147483648 then n % 4294967296
        else 18446744069414584320 + n % 4294967296 := by
  unfold toSizeT toInt32
  have h : ((2 : Int) ^ 64) = 18446744073709551616 := by norm_num
  rw [h]
  split_ifs <;> omega

/-- What `buildFullKeyName` computes on 7-bit NUL-free names once the name of
the key has been transcoded, whatever their length. -/
theorem buildFullKeyName_eq (bits : Nat) (p : JString) (c : List Nat) (hp : Ascii7 p)
    (hc : Ascii7 c) (newAlloc uniAlloc : Bool) (heap1 heap2 : Mem) :
    buildFullKeyName bits p c true newAlloc uniAlloc heap1 heap2 =
      if !(newAlloc && grantable bits (p.length + 1 + (c.length + 1))
          (toSizeT bits (toInt32 (p.length + c.length + 2)))) then
        Res.threw (Thrown.OutOfMemoryError "malloc(newNamePtr)".toList)
      else if toSizeT bits (toInt32 (p.length + c.length + 2)) < p.length + c.length + 2 then
        Res.undefined
      else
        Res.value
          { dataLen := toInt32 (p.length + c.length + 2)
            request := toSizeT bits (toInt32 (p.length + c.length + 2))
            newNamePtr := blit heap2 0 (p ++ [92] ++ c ++ [0])
            written := p.length + c.length + 2
            result := if uniAlloc then some (p ++ [92] ++ c) else none } := by
  have hutf := utf_of_ascii7 p hp
  have h1 : strlenFrom (jStringToNewAscii p heap1) (jStringToNewAsciiSize p) 0 = some p.length := by
    rw [jStringToNewAscii_eq, hutf]
    exact strlenFrom_eq _ p (HoldsAt_blit _ _) (ascii7_nonzero p hp) _
      (by unfold jStringToNewAsciiSize GetStringUTFLength; rw [hutf]; omega)
  have hcs : cstr c = c := cstr_of_nonzero c (ascii7_nonzero c hc)
  have hname : bytesOf (jStringToNewAscii p heap1) p.length = p := by
    rw [jStringToNewAscii_eq, hutf]
    exact bytesOf_blit_prefix heap1 p [0]
  have h92 : Ascii7 [92] := by decide
  have hpc : Ascii7 (p ++ [92] ++ c) := ascii7_append _ _ (ascii7_append _ _ hp h92) hc
  have hlen : (p ++ [92] ++ c ++ [0]).length = p.length + c.length + 2 := by
    simp only [List.length_append, List.length_singleton]
    omega
  have hlen2 : (p ++ [92] ++ c).length + 1 ≤ (p ++ [92] ++ c ++ [0]).length := by
    simp only [List.length_append, List.length_singleton]
    omega
  have h2 : strlenFrom (blit heap2 0 (p ++ [92] ++ c ++ [0])) (p ++ [92] ++ c ++ [0]).length 0
      = some (p ++ [92] ++ c).length :=
    strlenFrom_eq _ (p ++ [92] ++ c) (HoldsAt_blit _ _) (ascii7_nonzero _ hpc) _ hlen2
  have h3 : strbufToJString (blit heap2 0 (p ++ [92] ++ c ++ [0])) 0 (p ++ [92] ++ c).length
      = p ++ [92] ++ c :=
    strbufToJString_eq _ 0 _ (HoldsAt_left _ 0 (p ++ [92] ++ c) [0] (HoldsAt_blit heap2 _)) hpc
  rw [hlen] at h2
  unfold buildFullKeyName
  simp only [Bool.not_true, Bool.false_eq_true, if_false, h1, hcs, hname, writeBytes_eq_blit,
    hlen, h2, h3]

/-- When `buildFullKeyName` obtains its scratch block the `int dataLen` and the
request are the sum of the two lengths plus 2, which is below 2 ^ 31. -/
theorem buildFullKeyName_granted (bits : Nat) (hbits : bits = 32 ∨ bits = 64) (n : Nat)
    (hg : grantable bits n (toSizeT bits (toInt32 n)) = true)
    (hfit : ¬ toSizeT bits (toInt32 n) < n) :
    n < 2147483648 ∧ toSizeT bits (toInt32 n) = n ∧ toInt32 n = (n : Int) := by
  have hg2 : n + toSizeT bits (toInt32 n) < 2 ^ bits := by
    unfold grantable at hg
    exact of_decide_eq_true hg
  have hn : n < 2147483648 := by
    rcases hbits with h | h
    · subst h
      rw [request_32] at hg2 hfit
      omega
    · subst h
      rw [request_64] at hg2 hfit
      split_ifs at hg2 hfit <;> omega
  refine ⟨hn, ?_, toInt32_of_lt n hn⟩
  rcases hbits with h | h
  · subst h
    rw [request_32]
    omega
  · subst h
    rw [request_64]
    split_ifs <;> omega

/-- A sum of at least 2 ^ 31 and below 2 ^ 32 gives a request that cannot be
served beside the two names. -/
theorem buildFullKeyName_large (bits : Nat) (hbits : bits = 32 ∨ bits = 64) (n : Nat)
    (h1 : 2147483648 ≤ n) (h2 : n < 4294967296) :
    grantable bits n (toSizeT bits (toInt32 n)) = false := by
  unfold grantable
  apply decide_eq_false
  rcases hbits with h | h
  · subst h
    rw [request_32]
    omega
  · subst h
    rw [request_64]
    split_ifs <;> omega

/-- A sum below 2 ^ 31 gives a request of that many bytes, which fits beside
the two names. -/
theorem buildFullKeyName_small (bits : Nat) (hbits : bits = 32 ∨ bits = 64) (n : Nat)
    (h1 : n < 2147483648) :
    grantable bits n (toSizeT bits (toInt32 n)) = true ∧ toSizeT bits (toInt32 n) = n := by
  have hr : toSizeT bits (toInt32 n) = n := by
    rcases hbits with h | h
    · subst h
      rw [request_32]
      omega
    · subst h
      rw [request_64]
      split_ifs <;> omega
  refine ⟨?_, hr⟩
  rw [hr]
  unfold grantable
  apply decide_eq_true
  rcases hbits with h | h <;> subst h <;> omega

/-- C11: for every handle h and natively reported maximum length L with a
success status, maxSubKeyLength and maxValueNameLength yield L unchanged when h
lies in the predefined-local range [HKEY_CLASSES_ROOT, HKEY_DYN_DATA], and
otherwise yield (2 * L + 2) mod 2 ^ 32 exactly when h is classified remote
(outside that range and lowest bit of the handle equal to 1) and L when it is
not; when the native query fails the reported length is left uncorrected. -/
theorem remote_length_correction (hKey L : Nat) (regErr : Int) :
    (RegIsHKeyRemote hKey = true ↔
      ¬ (HKEY_CLASSES_ROOT ≤ hKey ∧ hKey ≤ HKEY_DYN_DATA) ∧ hKey % 2 = 1) ∧
    (HKEY_CLASSES_ROOT ≤ hKey ∧ hKey ≤ HKEY_DYN_DATA →
      maxSubKeyLength hKey ⟨ERROR_SUCCESS, L⟩ = (ERROR_SUCCESS, L) ∧
      maxValueNameLength hKey ⟨ERROR_SUCCESS, L⟩ = (ERROR_SUCCESS, L)) ∧
    (RegIsHKeyRemote hKey = true →
      maxSubKeyLength hKey ⟨ERROR_SUCCESS, L⟩ = (ERROR_SUCCESS, (2 * L + 2) % 4294967296) ∧
      maxValueNameLength hKey ⟨ERROR_SUCCESS, L⟩ = (ERROR_SUCCESS, (2 * L + 2) % 4294967296)) ∧
    (RegIsHKeyRemote hKey = false →
      maxSubKeyLength hKey ⟨ERROR_SUCCESS, L⟩ = (ERROR_SUCCESS, L) ∧
      maxValueNameLength hKey ⟨ERROR_SUCCESS, L⟩ = (ERROR_SUCCESS, L)) ∧
    (regErr ≠ ERROR_SUCCESS →
      maxSubKeyLength hKey ⟨regErr, L⟩ = (regErr, L) ∧
      maxValueNameLength hKey ⟨regErr, L⟩ = (regErr, L)) := by
  refine ⟨RegIsHKeyRemote_iff hKey, ?_, ?_, ?_, ?_⟩
  · intro hr
    have hloc : RegIsHKeyRemote hKey = false := by
      cases hb : RegIsHKeyRemote hKey with
      | false => rfl
      | true => exact absurd hr ((RegIsHKeyRemote_iff hKey).mp hb).1
    simp [maxSubKeyLength, maxValueNameLength, hloc]
  · intro hr
    simp [maxSubKeyLength, maxValueNameLength, hr, DWORD_MOD, Nat.mul_comm]
  · intro hr
    simp [maxSubKeyLength, maxValueNameLength, hr]
  · intro he
    simp [maxSubKeyLength, maxValueNameLength, he]

/-- Instance of C11: the handle 0x135 is remote and 10 becomes 22; the
handle HKEY_CLASSES_ROOT + 1 is local and 10 stays 10; a failed query leaves 10. -/
theorem remote_length_correction_witness :
    maxSubKeyLength 309 ⟨ERROR_SUCCESS, 10⟩ = (ERROR_SUCCESS, 22) ∧
    maxValueNameLength 2147483649 ⟨ERROR_SUCCESS, 10⟩ = (ERROR_SUCCESS, 10) ∧
    maxSubKeyLength 309 ⟨5, 10⟩ = (5, 10) :=
  ⟨((remote_length_correction 309 10 5).2.2.1 (by decide)).1,
   ((remote_length_correction 2147483649 10 5).2.1 (by decide)).2,
   ((remote_length_correction 309 10 5).2.2.2.2 (by decide)).1⟩

/-- C12 is violated by the code: on a remote handle getMaxValueNameLength
returns the natively reported length L itself, not the corrected length that
maxValueNameLength computes and that getMaxSubkeyLength returns for its
query. -/
theorem getMaxValueNameLength_uncorrected (hKey L : Nat)
    (hrem : RegIsHKeyRemote hKey = true) :
    getMaxValueNameLength hKey ⟨ERROR_SUCCESS, L⟩ = (none, toInt32 L) ∧
    maxValueNameLength hKey ⟨ERROR_SUCCESS, L⟩ = (ERROR_SUCCESS, (2 * L + 2) % 4294967296) ∧
    getMaxSubkeyLength hKey ⟨ERROR_SUCCESS, L⟩ = (none, toInt32 ((2 * L + 2) % 4294967296)) := by
  refine ⟨?_, ?_, ?_⟩
  · simp [getMaxValueNameLength]
  · simp [maxValueNameLength, hrem, DWORD_MOD, Nat.mul_comm]
  · simp [getMaxSubkeyLength, maxSubKeyLength, hrem, DWORD_MOD, Nat.mul_comm]

/-- Instance for C12: on the remote handle 0x135 with a reported length of 10
the method returns 10, where maxValueNameLength gives 22. -/
theorem getMaxValueNameLength_uncorrected_witness :
    getMaxValueNameLength 309 ⟨ERROR_SUCCESS, 10⟩ = (none, 10) ∧
    (maxValueNameLength 309 ⟨ERROR_SUCCESS, 10⟩).2 = 22 ∧
    getMaxSubkeyLength 309 ⟨ERROR_SUCCESS, 10⟩ = (none, 22) := by
  have h := getMaxValueNameLength_uncorrected 309 10 (by decide)
  refine ⟨h.1.trans (by decide), ?_, h.2.2.trans (by decide)⟩
  rw [h.2.1]

/-- C15, as stated, fails for the value returned: decrement-dword on a DWord
holding 0, and on a value of another type, writes 4294967295 and returns the
jint -1, not 4294967295; increment-dword on a DWord holding 2147483647 writes
2147483648 and returns -2147483648. -/
theorem counter_arithmetic_counterexample :
    (decrDoubleWord true [] ⟨ERROR_SUCCESS, REG_DWORD, 0, 4⟩ ERROR_SUCCESS).thrown = none ∧
    (decrDoubleWord true [] ⟨ERROR_SUCCESS, REG_DWORD, 0, 4⟩ ERROR_SUCCESS).writes
      = [⟨REG_DWORD, 4294967295, 4⟩] ∧
    (decrDoubleWord true [] ⟨ERROR_SUCCESS, REG_DWORD, 0, 4⟩ ERROR_SUCCESS).result = -1 ∧
    (decrDoubleWord true [] ⟨ERROR_SUCCESS, REG_DWORD, 0, 4⟩ ERROR_SUCCESS).result
      ≠ 4294967295 ∧
    (decrDoubleWord true [] ⟨ERROR_SUCCESS, REG_SZ, 77, 3⟩ ERROR_SUCCESS).result = -1 ∧
    (incrDoubleWord true [] ⟨ERROR_SUCCESS, REG_DWORD, 2147483647, 4⟩ ERROR_SUCCESS).writes
      = [⟨REG_DWORD, 2147483648, 4⟩] ∧
    (incrDoubleWord true [] ⟨ERROR_SUCCESS, REG_DWORD, 2147483647, 4⟩ ERROR_SUCCESS).result
      = -2147483648 := by
  decide

/-- C15 (amended): whenever the native read and the native write both succeed,
the read reporting stored type T and 32-bit data v, increment-dword writes
w = ((v if T is DWord else 0) + 1) mod 2 ^ 32 and decrement-dword writes
w = ((v if T is DWord else 0) - 1) mod 2 ^ 32, and each returns the written
word as a signed 32-bit integer: w when w is below 2 ^ 31 and w - 2 ^ 32
otherwise. -/
theorem counter_arithmetic (lpValueName : CStr) (read : DwordReply)
    (hread : read.regErr = ERROR_SUCCESS) (hv : read.dw < 4294967296) :
    (incrDoubleWord true lpValueName read ERROR_SUCCESS).thrown = none ∧
    (∃ w : Nat,
      w = ((if read.dwType = REG_DWORD then read.dw else 0) + 1) % 4294967296 ∧
      (incrDoubleWord true lpValueName read ERROR_SUCCESS).writes
        = [⟨REG_DWORD, w, read.size⟩] ∧
      (incrDoubleWord true lpValueName read ERROR_SUCCESS).result
        = (if w < 2147483648 then (w : Int) else (w : Int) - 4294967296)) ∧
    (decrDoubleWord true lpValueName read ERROR_SUCCESS).thrown = none ∧
    (∃ w : Nat,
      (w : Int) = (((if read.dwType = REG_DWORD then read.dw else 0 : Nat) : Int) - 1)
        % 4294967296 ∧
      (decrDoubleWord true lpValueName read ERROR_SUCCESS).writes
        = [⟨REG_DWORD, w, read.size⟩] ∧
      (decrDoubleWord true lpValueName read ERROR_SUCCESS).result
        = (if w < 2147483648 then (w : Int) else (w : Int) - 4294967296)) := by
  have hmod : read.dw % DWORD_MOD = read.dw := Nat.mod_eq_of_lt hv
  have hcast : ∀ w : Nat, w < 4294967296 →
      toInt32 w = (if w < 2147483648 then (w : Int) else (w : Int) - 4294967296) := by
    intro w hw
    unfold toInt32
    rw [Nat.mod_eq_of_lt hw]
  by_cases ht : read.dwType = REG_DWORD
  · simp only [incrDoubleWord, decrDoubleWord, hread, ht, hmod, Bool.not_true,
      Bool.false_eq_true, if_false, ne_eq, not_true_eq_false, if_true]
    refine ⟨trivial, ⟨_, rfl, ?_, ?_⟩, trivial, ⟨_, ?_, rfl, ?_⟩⟩
    · simp [DWORD_MOD]
    · rw [← hcast _ (Nat.mod_lt _ (by decide))]
      simp [DWORD_MOD]
    · unfold DWORD_MOD
      omega
    · exact hcast _ (Nat.mod_lt _ (by decide))
  · simp only [incrDoubleWord, decrDoubleWord, hread, ht, Bool.not_true,
      Bool.false_eq_true, if_false, ne_eq, not_true_eq_false, not_false_eq_true, if_true]
    refine ⟨trivial, ⟨_, rfl, ?_, ?_⟩, trivial, ⟨_, ?_, rfl, ?_⟩⟩
    · simp [DWORD_MOD]
    · decide
    · decide
    · decide

/-- Instances of the amended C15: a non-DWord value is written as 1 and
returned as 1 on increment, written as 4294967295 and returned as -1 on
decrement; a DWord of 4294967295 increments to 0 and a DWord of 0 decrements
to the written word 4294967295, returned as -1. -/
theorem counter_arithmetic_witness :
    (⟨ERROR_SUCCESS, REG_SZ, 77, 3⟩ : DwordReply).regErr = ERROR_SUCCESS ∧
    (incrDoubleWord true [] ⟨ERROR_SUCCESS, REG_SZ, 77, 3⟩ ERROR_SUCCESS).writes
      = [⟨REG_DWORD, 1, 3⟩] ∧
    (incrDoubleWord true [] ⟨ERROR_SUCCESS, REG_SZ, 77, 3⟩ ERROR_SUCCESS).result = 1 ∧
    (decrDoubleWord true [] ⟨ERROR_SUCCESS, REG_SZ, 77, 3⟩ ERROR_SUCCESS).writes
      = [⟨REG_DWORD, 4294967295, 3⟩] ∧
    (decrDoubleWord true [] ⟨ERROR_SUCCESS, REG_SZ, 77, 3⟩ ERROR_SUCCESS).result = -1 ∧
    (incrDoubleWord true [] ⟨ERROR_SUCCESS, REG_DWORD, 4294967295, 4⟩ ERROR_SUCCESS).writes
      = [⟨REG_DWORD, 0, 4⟩] ∧
    (incrDoubleWord true [] ⟨ERROR_SUCCESS, REG_DWORD, 4294967295, 4⟩ ERROR_SUCCESS).result
      = 0 ∧
    (decrDoubleWord true [] ⟨ERROR_SUCCESS, REG_DWORD, 0, 4⟩ ERROR_SUCCESS).writes
      = [⟨REG_DWORD, 4294967295, 4⟩] ∧
    (decrDoubleWord true [] ⟨ERROR_SUCCESS, REG_DWORD, 0, 4⟩ ERROR_SUCCESS).result = -1 := by
  obtain ⟨_, ⟨w1, hw1, hi1, hr1⟩, _, ⟨w2, hw2, hd1, hs1⟩⟩ :=
    counter_arithmetic [] ⟨ERROR_SUCCESS, REG_SZ, 77, 3⟩ rfl (by decide)
  obtain ⟨_, ⟨w3, hw3, hi2, hr2⟩, _, _⟩ :=
    counter_arithmetic [] ⟨ERROR_SUCCESS, REG_DWORD, 4294967295, 4⟩ rfl (by decide)
  obtain ⟨_, _, _, ⟨w4, hw4, hd2, hs2⟩⟩ :=
    counter_arithmetic [] ⟨ERROR_SUCCESS, REG_DWORD, 0, 4⟩ rfl (by decide)
  have e1 : w1 = 1 := hw1.trans (by decide)
  have e3 : w3 = 0 := hw3.trans (by decide)
  have e2 : w2 = 4294967295 := by
    have h : (w2 : Int) = 4294967295 := hw2.trans (by decide)
    omega
  have e4 : w4 = 4294967295 := by
    have h : (w4 : Int) = 4294967295 := hw4.trans (by decide)
    omega
  subst e1 e2 e3 e4
  exact ⟨rfl, hi1, hr1.trans (by decide), hd1, hs1.trans (by decide), hi2,
    hr2.trans (by decide), hd2, hs2.trans (by decide)⟩

/-- C16: for increment-dword and decrement-dword, if the native read returns
any non-success status the operation raises the classified error, issues no
native write and returns 0; if the read succeeds but the native write fails,
the operation raises the classified error and returns 0 rather than the
computed new value. -/
theorem counter_failure (lpValueName : CStr) (read : DwordReply) (writeErr : Int) :
    (read.regErr ≠ ERROR_SUCCESS →
      (incrDoubleWord true lpValueName read writeErr).thrown =
        some (throwSpecificRegError read.regErr "RegQueryValueEx()".toList none
          (some lpValueName)) ∧
      (incrDoubleWord true lpValueName read writeErr).writes = [] ∧
      (incrDoubleWord true lpValueName read writeErr).result = 0 ∧
      (decrDoubleWord true lpValueName read writeErr).thrown =
        some (throwSpecificRegError read.regErr "RegQueryValueEx()".toList none
          (some lpValueName)) ∧
      (decrDoubleWord true lpValueName read writeErr).writes = [] ∧
      (decrDoubleWord true lpValueName read writeErr).result = 0) ∧
    (read.regErr = ERROR_SUCCESS → writeErr ≠ ERROR_SUCCESS →
      (incrDoubleWord true lpValueName read writeErr).thrown =
        some (throwSpecificRegError writeErr "RegSetValueEx()".toList none
          (some lpValueName)) ∧
      (incrDoubleWord true lpValueName read writeErr).writes.length = 1 ∧
      (incrDoubleWord true lpValueName read writeErr).result = 0 ∧
      (decrDoubleWord true lpValueName read writeErr).thrown =
        some (throwSpecificRegError writeErr "RegSetValueEx()".toList none
          (some lpValueName)) ∧
      (decrDoubleWord true lpValueName read writeErr).writes.length = 1 ∧
      (decrDoubleWord true lpValueName read writeErr).result = 0) := by
  constructor
  · intro hr
    simp [incrDoubleWord, decrDoubleWord, hr]
  · intro hr hw
    simp [incrDoubleWord, decrDoubleWord, hr, hw]

/-- Instance of C16: a read failing with status 5 and a write failing with
status 5 after a good read both return 0. -/
theorem counter_failure_witness :
    (incrDoubleWord true "n".toList ⟨5, REG_DWORD, 41, 4⟩ 0).writes = [] ∧
    (incrDoubleWord true "n".toList ⟨5, REG_DWORD, 41, 4⟩ 0).result = 0 ∧
    (decrDoubleWord true "n".toList ⟨0, REG_DWORD, 41, 4⟩ 5).result = 0 := by
  have h1 := (counter_failure "n".toList ⟨5, REG_DWORD, 41, 4⟩ 0).1 (by decide)
  have h2 := (counter_failure "n".toList ⟨0, REG_DWORD, 41, 4⟩ 5).2 rfl (by decide)
  exact ⟨h1.2.1, h1.2.2.1, h2.2.2.2.2.2⟩

/-- C17: for every parent path p and child segment c made of 7-bit NUL-free
characters, on a 32-bit and on a 64-bit `size_t`: whenever buildFullKeyName
obtains its scratch block it returns exactly p followed by a single backslash
followed by c (length len(p) + len(c) + 1), the block was requested with
len(p) + len(c) + 2 bytes, and exactly that many bytes, the text and its
terminating NUL, are written: no byte is written past the block.  The block is
obtained whenever the allocator serves the request and len(p) + len(c) + 2 is
below 2 ^ 31; for longer names no block is obtained (the `int dataLen`
converted to `size_t` is a request that cannot be served beside the two
names) and nothing is written. -/
theorem buildFullKeyName_composes (bits : Nat) (hbits : bits = 32 ∨ bits = 64)
    (p : JString) (c : List Nat) (hp : Ascii7 p) (hc : Ascii7 c) (newAlloc : Bool)
    (heap1 heap2 : Mem) :
    (∀ v : FullKeyName,
      buildFullKeyName bits p c true newAlloc true heap1 heap2 = Res.value v →
      v.result = some (p ++ [92] ++ c) ∧
      (p ++ [92] ++ c).length = p.length + c.length + 1 ∧
      v.dataLen = ((p.length + c.length + 2 : Nat) : Int) ∧
      v.request = p.length + c.length + 2 ∧
      v.written = p.length + c.length + 2 ∧
      bytesOf v.newNamePtr v.written = p ++ [92] ++ c ++ [0] ∧
      ∀ q, v.request ≤ q → v.newNamePtr q = heap2 q) ∧
    (p.length + c.length + 2 < 2147483648 →
      ∃ v : FullKeyName,
        buildFullKeyName bits p c true true true heap1 heap2 = Res.value v) ∧
    (2147483648 ≤ p.length + c.length + 2 →
      (∀ v : FullKeyName,
        buildFullKeyName bits p c true newAlloc true heap1 heap2 ≠ Res.value v) ∧
      (p.length + c.length + 2 < 4294967296 →
        buildFullKeyName bits p c true newAlloc true heap1 heap2
          = Res.threw (Thrown.OutOfMemoryError "malloc(newNamePtr)".toList))) := by
  have hlen : (p ++ [92] ++ c ++ [0]).length = p.length + c.length + 2 := by
    simp only [List.length_append, List.length_singleton]
    omega
  have hlive : p.length + 1 + (c.length + 1) = p.length + c.length + 2 := by omega
  have hvalue : ∀ v : FullKeyName,
      buildFullKeyName bits p c true newAlloc true heap1 heap2 = Res.value v →
      p.length + c.length + 2 < 2147483648 ∧
      v = { dataLen := ((p.length + c.length + 2 : Nat) : Int)
            request := p.length + c.length + 2
            newNamePtr := blit heap2 0 (p ++ [92] ++ c ++ [0])
            written := p.length + c.length + 2
            result := some (p ++ [92] ++ c) } := by
    intro v hv
    rw [buildFullKeyName_eq bits p c hp hc, hlive] at hv
    simp only [if_true] at hv
    split_ifs at hv with h1 h2
    have hg : grantable bits (p.length + c.length + 2)
        (toSizeT bits (toInt32 (p.length + c.length + 2))) = true := by
      cases hgr : grantable bits (p.length + c.length + 2)
          (toSizeT bits (toInt32 (p.length + c.length + 2))) with
      | true => rfl
      | false => simp [hgr] at h1
    obtain ⟨hn, hr, hd⟩ := buildFullKeyName_granted bits hbits _ hg h2
    rw [hr, hd] at hv
    exact ⟨hn, (Res.value.inj hv).symm⟩
  refine ⟨?_, ?_, ?_⟩
  · intro v hv
    obtain ⟨_, rfl⟩ := hvalue v hv
    refine ⟨rfl, ?_, rfl, rfl, rfl, ?_, ?_⟩
    · simp only [List.length_append, List.length_singleton]
      omega
    · show bytesOf (blit heap2 0 (p ++ [92] ++ c ++ [0])) (p.length + c.length + 2) = _
      rw [← hlen]
      exact bytesOf_blit _ _
    · intro q hq
      exact blit_beyond _ _ _ (by rw [hlen]; exact hq)
  · intro hsmall
    obtain ⟨hg, hr⟩ := buildFullKeyName_small bits hbits _ hsmall
    rw [buildFullKeyName_eq bits p c hp hc, hlive, hg, hr]
    simp only [Bool.and_self, Bool.not_true, Bool.false_eq_true, if_false, Nat.lt_irrefl]
    exact ⟨_, rfl⟩
  · intro hbig
    refine ⟨?_, ?_⟩
    · intro v hv
      have := (hvalue v hv).1
      omega
    · intro hlt
      rw [buildFullKeyName_eq bits p c hp hc, hlive,
        buildFullKeyName_large bits hbits _ hbig hlt]
      simp

/-- Instance of C17: "HK" and "SW" give "HK\SW" in a 6-byte buffer. -/
theorem buildFullKeyName_composes_witness :
    ((64 : Nat) = 32 ∨ (64 : Nat) = 64) ∧ Ascii7 [72, 75] ∧ Ascii7 [83, 87] ∧
    ∃ v : FullKeyName,
      buildFullKeyName 64 [72, 75] [83, 87] true true true (fun _ => 7) (fun _ => 9)
        = Res.value v ∧
      v.result = some [72, 75, 92, 83, 87] ∧ v.dataLen = 6 ∧ v.request = 6 ∧
      v.written = 6 := by
  have h := buildFullKeyName_composes 64 (Or.inr rfl) [72, 75] [83, 87] (by decide)
    (by decide) true (fun _ => 7) (fun _ => 9)
  obtain ⟨v, hv⟩ := h.2.1 (by decide)
  obtain ⟨h1, _, h3, h4, h5, _⟩ := h.1 v hv
  exact ⟨Or.inr rfl, by decide, by decide, v, hv, h1, h3, h4, h5⟩

/-- C19: for every managed string whose transcoded form has n bytes and every
capacity c >= 1, jStringToAscii writes exactly the first min(n, c - 1)
transcoded bytes at indices 0 .. min(n, c - 1) - 1, writes a NUL at index
min(n, c - 1), and writes nothing at any other index, in particular at no
index >= c; the excess is dropped and the function has no error result. -/
theorem fixed_buffer_bound (jStr : JString) (mem : Mem) (asciiBuf : Nat) (c : Int)
    (hc : 1 ≤ c) :
    (∀ i, i < min (GetStringUTFLength jStr) (c - 1).toNat →
      jStringToAscii jStr mem asciiBuf c (asciiBuf + i) = (GetStringUTFChars jStr).getD i 0) ∧
    jStringToAscii jStr mem asciiBuf c (asciiBuf + min (GetStringUTFLength jStr) (c - 1).toNat)
      = 0 ∧
    (∀ q, q < asciiBuf ∨ asciiBuf + min (GetStringUTFLength jStr) (c - 1).toNat < q →
      jStringToAscii jStr mem asciiBuf c q = mem q) ∧
    (∀ q, asciiBuf + c.toNat ≤ q → jStringToAscii jStr mem asciiBuf c q = mem q) ∧
    min (GetStringUTFLength jStr) (c - 1).toNat < c.toNat := by
  have hlen : ((GetStringUTFChars jStr).take (c - 1).toNat ++ [0]).length
      = min (GetStringUTFLength jStr) (c - 1).toNat + 1 := by
    simp [GetStringUTFLength, Nat.min_comm]
  have hout : ∀ q, q < asciiBuf ∨ asciiBuf + min (GetStringUTFLength jStr) (c - 1).toNat < q →
      jStringToAscii jStr mem asciiBuf c q = mem q := by
    intro q hq
    rw [jStringToAscii_eq, blit_apply, hlen, if_neg (by omega)]
  have hlt : min (GetStringUTFLength jStr) (c - 1).toNat < c.toNat := by omega
  refine ⟨?_, ?_, hout, ?_, hlt⟩
  · intro i hi
    rw [jStringToAscii_eq, blit_at _ _ _ i (by rw [hlen]; omega)]
    have h1 : i < ((GetStringUTFChars jStr).take (c - 1).toNat).length := by
      simp [GetStringUTFLength, Nat.min_comm] at hi ⊢
      omega
    rw [List.getElem_append_left h1, List.getElem_take]
    have h2 : i < (GetStringUTFChars jStr).length := by
      have := Nat.min_le_left (GetStringUTFLength jStr) (c - 1).toNat
      unfold GetStringUTFLength at this hi
      omega
    rw [List.getD_eq_getElem?_getD, List.getElem?_eq_getElem h2, Option.getD_some]
  · have h1 : ((GetStringUTFChars jStr).take (c - 1).toNat).length
        = min (GetStringUTFLength jStr) (c - 1).toNat := by
      simp [GetStringUTFLength, Nat.min_comm]
    rw [jStringToAscii_eq, ← h1, blit_at _ _ _ _ (by simp)]
    simp
  · intro q hq
    exact hout q (Or.inr (by omega))

/-- Instance of C19: "Hi!" into a buffer of capacity 2 at offset 4 stores
"H" and a NUL and leaves offset 6 untouched. -/
theorem fixed_buffer_bound_witness :
    jStringToAscii [72, 105, 33] (fun _ => 9) 4 2 (4 + 0) = 72 ∧
    jStringToAscii [72, 105, 33] (fun _ => 9) 4 2 (4 + 1) = 0 ∧
    jStringToAscii [72, 105, 33] (fun _ => 9) 4 2 6 = 9 := by
  have h := fixed_buffer_bound [72, 105, 33] (fun _ => 9) 4 2 (by decide)
  exact ⟨(h.1 0 (by decide)).trans (by decide), h.2.1.trans (by decide),
    h.2.2.2.1 6 (by decide)⟩

theorem dwordRequest_eq (S : Nat) (hS : S + 8 < 4294967296) : dwordRequest S = S + 8 := by
  unfold dwordRequest DWORD_MOD
  exact Nat.mod_eq_of_lt hS

theorem longRequest_ge (S : Nat) (hS : S + 8 < 4294967296) (bits : Nat)
    (hbits : bits = 32 ∨ bits = 64) : S + 8 ≤ longRequest bits S := by
  unfold longRequest toSizeT toInt32
  have h1 : (S + 8) % 4294967296 = S + 8 := Nat.mod_eq_of_lt hS
  rw [h1]
  rcases hbits with h | h <;> subst h <;> norm_num <;> split <;> omega

theorem longRequest_eq (S : Nat) (hS : S + 8 < 2147483648) (bits : Nat)
    (hbits : bits = 32 ∨ bits = 64) : longRequest bits S = S + 8 := by
  unfold longRequest toSizeT
  rw [toInt32_of_lt _ hS]
  rcases hbits with h | h <;> subst h <;> norm_num <;> omega

/-- C13, as stated, fails when the reported size is within 8 of 2 ^ 32: for
S = 4294967295 each of the four read paths requests 7 bytes. -/
theorem read_buffer_margin_counterexample :
    requests (getStringValue 32 true [] ⟨ERROR_SUCCESS, REG_SZ, 4294967295, fun _ => 0⟩
      ⟨ERROR_SUCCESS, REG_SZ, 4294967295, fun _ => 0⟩ true true).log = [7] ∧
    requests (getStringValue 64 true [] ⟨ERROR_SUCCESS, REG_SZ, 4294967295, fun _ => 0⟩
      ⟨ERROR_SUCCESS, REG_SZ, 4294967295, fun _ => 0⟩ true true).log = [7] ∧
    requests (getStringValueDataLog ⟨ERROR_SUCCESS, REG_SZ, 4294967295, fun _ => 0⟩
      ⟨ERROR_SUCCESS, REG_SZ, 4294967295, fun _ => 0⟩ true true) = [7] ∧
    requests (getMultiStringValueData [] ⟨ERROR_SUCCESS, REG_MULTI_SZ, 4294967295, fun _ => 0⟩
      ⟨5, REG_MULTI_SZ, 4294967295, fun _ => 0⟩ true true true true).log = [7] ∧
    requests (getBinaryValueData [] ⟨ERROR_SUCCESS, REG_BINARY, 4294967295, fun _ => 0⟩
      ⟨5, REG_BINARY, 4294967295, fun _ => 0⟩ true true).log = [7] ∧
    ¬ (4294967295 + 8 ≤ 7) := by
  refine ⟨?_, ?_, ?_, ?_, ?_, by omega⟩
  · simp [getStringValue, requests, longRequest, toSizeT, toInt32, ERROR_SUCCESS, ERROR_MORE_DATA]
  · simp [getStringValue, requests, longRequest, toSizeT, toInt32, ERROR_SUCCESS, ERROR_MORE_DATA]
  · simp [getStringValueDataLog, requests, dwordRequest, DWORD_MOD, ERROR_SUCCESS, REG_SZ]
  · simp [getMultiStringValueData, requests, dwordRequest, DWORD_MOD, ERROR_SUCCESS]
  · simp [getBinaryValueData, requests, dwordRequest, DWORD_MOD, ERROR_SUCCESS]

/-- C13 (amended): in every variable-length value read (get-string-value, and
the String, MultiString and Binary read paths), for every size S reported by
the first query with S + 8 below 2 ^ 32, the number of bytes requested from
the allocator before the second query is at least S + 8 (exactly S + 8 in the
three typed paths), on a platform with a 32-bit or a 64-bit size_t. -/
theorem read_buffer_margin (S : Nat) (hS : S + 8 < 4294967296) (bits : Nat)
    (hbits : bits = 32 ∨ bits = 64) :
    (∀ (asciiName : CStr) (probe fetch : QueryReply) (bufAlloc uniAlloc : Bool),
      probe.dwBufSize = S → (probe.regErr = ERROR_SUCCESS ∨ probe.regErr = ERROR_MORE_DATA) →
      ∃ r, requests (getStringValue bits true asciiName probe fetch bufAlloc uniAlloc).log = [r]
        ∧ S + 8 ≤ r) ∧
    (∀ (probe fetch : QueryReply) (strAlloc uniAlloc : Bool),
      probe.dwBufSize = S → probe.regErr = ERROR_SUCCESS →
      (probe.dwType = REG_SZ ∨ probe.dwType = REG_EXPAND_SZ) →
      requests (getStringValueDataLog probe fetch strAlloc uniAlloc) = [S + 8]) ∧
    (∀ (valueName : CStr) (probe fetch : QueryReply) (a b c d : Bool),
      probe.dwBufSize = S → probe.regErr = ERROR_SUCCESS → probe.dwType = REG_MULTI_SZ →
      requests (getMultiStringValueData valueName probe fetch a b c d).log = [S + 8]) ∧
    (∀ (valueName : CStr) (probe fetch : QueryReply) (a b : Bool),
      probe.dwBufSize = S → probe.regErr = ERROR_SUCCESS → probe.dwType = REG_BINARY →
      requests (getBinaryValueData valueName probe fetch a b).log = [S + 8]) := by
  have hd := dwordRequest_eq S hS
  have hl := longRequest_ge S hS bits hbits
  refine ⟨?_, ?_, ?_, ?_⟩
  · intro asciiName probe fetch bufAlloc uniAlloc hsz hst
    refine ⟨longRequest bits S, ?_, hl⟩
    have hacc : ¬ (probe.regErr ≠ ERROR_SUCCESS ∧ probe.regErr ≠ ERROR_MORE_DATA) := by
      rcases hst with h | h <;> simp [h]
    unfold getStringValue
    simp only [Bool.not_true, Bool.false_eq_true, if_false, hacc, hsz]
    split_ifs <;> simp [requests]
  · intro probe fetch strAlloc uniAlloc hsz hst hty
    have hty2 : ¬ (probe.dwType ≠ REG_SZ ∧ probe.dwType ≠ REG_EXPAND_SZ) := by
      rcases hty with h | h <;> simp [h]
    unfold getStringValueDataLog
    simp only [hst, ne_eq, not_true_eq_false, if_false, hty2, hsz, hd]
    split_ifs <;> simp [requests]
  · intro valueName probe fetch a b c d hsz hst hty
    unfold getMultiStringValueData
    simp only [hst, ne_eq, not_true_eq_false, if_false, hty, hsz, hd]
    split_ifs <;> simp [requests]
  · intro valueName probe fetch a b hsz hst hty
    unfold getBinaryValueData
    simp only [hst, ne_eq, not_true_eq_false, if_false, hty, hsz, hd]
    split_ifs <;> simp [requests]

/-- Instance of the amended C13: a reported size of 6 leads to requests of 14 bytes. -/
theorem read_buffer_margin_witness :
    requests (getStringValueDataLog ⟨ERROR_SUCCESS, REG_SZ, 6, fun _ => 0⟩
      ⟨ERROR_SUCCESS, REG_SZ, 6, fun _ => 0⟩ true true) = [6 + 8] ∧
    requests (getBinaryValueData [] ⟨ERROR_SUCCESS, REG_BINARY, 6, fun _ => 0⟩
      ⟨ERROR_SUCCESS, REG_BINARY, 6, fun _ => 0⟩ true true).log = [6 + 8] :=
  ⟨(read_buffer_margin 6 (by decide) 64 (Or.inr rfl)).2.1 _ _ true true rfl rfl (Or.inl rfl),
   (read_buffer_margin 6 (by decide) 64 (Or.inr rfl)).2.2.2 [] _ _ true true rfl rfl rfl⟩

theorem throwSpecific_ne_invalid (message : CStr) (valueName : CStr) (m : CStr) :
    throwRegErrorException ERROR_INVALID_PARAMETER m ≠
      throwSpecificRegError ERROR_SUCCESS message none (some valueName) := by
  simp [throwSpecificRegError, throwRegErrorException, ERROR_SUCCESS, ERROR_FILE_NOT_FOUND,
    ERROR_INVALID_PARAMETER]

/-- C14, as stated, fails in the typed read paths: with a first-probe status of
more-data (234) the String, MultiString and Binary helpers classify the status
as a failure right after the probe: nothing is allocated and no second query
is issued. -/
theorem probe_status_counterexample :
    getStringValueData 64 "v".toList ⟨ERROR_MORE_DATA, REG_SZ, 6, fun _ => 0⟩
        ⟨ERROR_SUCCESS, REG_SZ, 6, fun _ => 0⟩ true true
      = Res.threw (Thrown.RegistryException ERROR_MORE_DATA "RegQueryValueEx()".toList) ∧
    getStringValueDataLog ⟨ERROR_MORE_DATA, REG_SZ, 6, fun _ => 0⟩
        ⟨ERROR_SUCCESS, REG_SZ, 6, fun _ => 0⟩ true true = [Ev.query true] ∧
    (getMultiStringValueData "v".toList ⟨ERROR_MORE_DATA, REG_MULTI_SZ, 6, fun _ => 0⟩
        ⟨ERROR_SUCCESS, REG_MULTI_SZ, 6, fun _ => 0⟩ true true true true).log = [Ev.query true] ∧
    (getBinaryValueData "v".toList ⟨ERROR_MORE_DATA, REG_BINARY, 6, fun _ => 0⟩
        ⟨ERROR_SUCCESS, REG_BINARY, 6, fun _ => 0⟩ true true).log = [Ev.query true] := by
  refine ⟨?_, by decide, by decide, by decide⟩
  simp [getStringValueData, throwSpecificRegError, throwRegErrorException, ERROR_MORE_DATA,
    ERROR_SUCCESS, ERROR_FILE_NOT_FOUND]

/-- C14 (amended): get-string-value (and get-default-value) treat the first
(null-buffer) query as a failure and classify it if and only if its status is
neither success nor more-data, and a first-probe status of more-data proceeds
to the allocation and the second query; the String, MultiString and Binary read
paths of get-typed-value treat it as a failure and classify it if and only if
its status is not success, more-data included. -/
theorem probe_status_handling (bits : Nat) (name : CStr) (probe fetch : QueryReply)
    (a b c d : Bool) :
    (((getStringValue bits true name probe fetch a b).res =
          Res.threw (throwSpecificRegError probe.regErr "RegQueryValueEx()".toList none
            (some name)) ∧
        (getStringValue bits true name probe fetch a b).log =
          [Ev.scratch true, Ev.query true, Ev.free]) ↔
      (probe.regErr ≠ ERROR_SUCCESS ∧ probe.regErr ≠ ERROR_MORE_DATA)) ∧
    ((getDefaultValue bits probe fetch a b).log = [Ev.query true] ↔
      (probe.regErr ≠ ERROR_SUCCESS ∧ probe.regErr ≠ ERROR_MORE_DATA)) ∧
    (probe.regErr = ERROR_MORE_DATA →
      (getStringValue bits true name probe fetch true b).log =
        [Ev.scratch true, Ev.query true, Ev.malloc (longRequest bits probe.dwBufSize) true,
          Ev.query false, Ev.free, Ev.free] ∧
      (getDefaultValue bits probe fetch true b).log =
        [Ev.query true, Ev.malloc (longRequest bits probe.dwBufSize) true, Ev.query false]) ∧
    ((getStringValueData bits name probe fetch a b =
          Res.threw (throwSpecificRegError probe.regErr "RegQueryValueEx()".toList none
            (some name)) ∧
        getStringValueDataLog probe fetch a b = [Ev.query true]) ↔
      probe.regErr ≠ ERROR_SUCCESS) ∧
    (((getMultiStringValueData name probe fetch a b c d).res =
          Res.threw (throwSpecificRegError probe.regErr "RegQueryValueEx()".toList none
            (some name)) ∧
        (getMultiStringValueData name probe fetch a b c d).log = [Ev.query true]) ↔
      probe.regErr ≠ ERROR_SUCCESS) ∧
    (((getBinaryValueData name probe fetch a b).res =
          Res.threw (throwSpecificRegError probe.regErr "RegQueryValueEx()".toList none
            (some name)) ∧
        (getBinaryValueData name probe fetch a b).log = [Ev.query true]) ↔
      probe.regErr ≠ ERROR_SUCCESS) := by
  refine ⟨?_, ?_, ?_, ?_, ?_, ?_⟩
  · by_cases h : probe.regErr ≠ ERROR_SUCCESS ∧ probe.regErr ≠ ERROR_MORE_DATA
    · simp [getStringValue, h]
    · simp only [h, iff_false, not_and]
      intro _
      unfold getStringValue
      simp only [Bool.not_true, Bool.false_eq_true, if_false, h]
      split_ifs <;> simp
  · by_cases h : probe.regErr ≠ ERROR_SUCCESS ∧ probe.regErr ≠ ERROR_MORE_DATA
    · simp [getDefaultValue, h]
    · simp only [h, iff_false]
      unfold getDefaultValue
      simp only [if_neg h]
      split_ifs
      · simp
      · simp
      · split <;> simp
  · intro h
    have hacc : ¬ (probe.regErr ≠ ERROR_SUCCESS ∧ probe.regErr ≠ ERROR_MORE_DATA) := by
      simp [h]
    constructor
    · unfold getStringValue
      simp only [Bool.not_true, Bool.false_eq_true, if_false, hacc]
      split_ifs <;> rfl
    · unfold getDefaultValue
      simp only [if_neg hacc, Bool.not_true, Bool.false_eq_true, if_false]
      split_ifs
      · rfl
      · split <;> rfl
  · by_cases h : probe.regErr ≠ ERROR_SUCCESS
    · simp [getStringValueData, getStringValueDataLog, h]
    · have h0 : probe.regErr = ERROR_SUCCESS := by simpa using h
      simp only [h, iff_false, not_and]
      intro hres
      unfold getStringValueData at hres
      unfold getStringValueDataLog
      simp only [h0, ne_eq, not_true_eq_false, if_false] at hres ⊢
      split_ifs at hres ⊢ with h1 <;> try simp
      · exact absurd (Res.threw.inj hres) (throwSpecific_ne_invalid _ _ _)
  · by_cases h : probe.regErr ≠ ERROR_SUCCESS
    · simp [getMultiStringValueData, h]
    · have h0 : probe.regErr = ERROR_SUCCESS := by simpa using h
      simp only [h, iff_false, not_and]
      intro hres
      unfold getMultiStringValueData at hres ⊢
      simp only [h0, ne_eq, not_true_eq_false, if_false] at hres ⊢
      split_ifs at hres ⊢ with h1 <;> try simp
      · exact absurd (Res.threw.inj hres) (throwSpecific_ne_invalid _ _ _)
  · by_cases h : probe.regErr ≠ ERROR_SUCCESS
    · simp [getBinaryValueData, h]
    · have h0 : probe.regErr = ERROR_SUCCESS := by simpa using h
      simp only [h, iff_false, not_and]
      intro hres
      unfold getBinaryValueData at hres ⊢
      simp only [h0, ne_eq, not_true_eq_false, if_false] at hres ⊢
      split_ifs at hres ⊢ with h1 <;> try simp
      · exact absurd (Res.threw.inj hres) (throwSpecific_ne_invalid _ _ _)

/-- Instance of the amended C14: on a more-data probe get-string-value goes on
to the allocation and the second query. -/
theorem probe_status_handling_witness :
    (getStringValue 64 true "v".toList ⟨ERROR_MORE_DATA, REG_SZ, 6, fun _ => 0⟩
        ⟨ERROR_SUCCESS, REG_SZ, 6, fun _ => 0⟩ true true).log =
      [Ev.scratch true, Ev.query true, Ev.malloc (longRequest 64 6) true, Ev.query false,
        Ev.free, Ev.free] :=
  ((probe_status_handling 64 "v".toList ⟨ERROR_MORE_DATA, REG_SZ, 6, fun _ => 0⟩
    ⟨ERROR_SUCCESS, REG_SZ, 6, fun _ => 0⟩ true true true true).2.2.1 rfl).1

theorem getStringValueData_ok_log (bits : Nat) (valueName : CStr) (probe fetch : QueryReply)
    (strAlloc uniAlloc : Bool) (s : JString)
    (h : getStringValueData bits valueName probe fetch strAlloc uniAlloc = Res.value s) :
    getStringValueDataLog probe fetch strAlloc uniAlloc =
      [Ev.query true, Ev.malloc (dwordRequest probe.dwBufSize) true, Ev.query false,
        Ev.scratch true, Ev.free] := by
  unfold getStringValueData at h
  unfold getStringValueDataLog
  split_ifs at h ⊢
  rfl

theorem getMultiStringValueData_value_log (valueName : CStr) (probe fetch : QueryReply)
    (a b c d : Bool) (r : List (Option JString))
    (h : (getMultiStringValueData valueName probe fetch a b c d).res = Res.value r) :
    (getMultiStringValueData valueName probe fetch a b c d).log =
      [Ev.query true, Ev.malloc (dwordRequest probe.dwBufSize) true, Ev.query false] := by
  simp only [getMultiStringValueData] at h ⊢
  split_ifs at h ⊢
  rfl

theorem getBinaryValueData_value_log (valueName : CStr) (probe fetch : QueryReply)
    (a b : Bool) (r : List Nat)
    (h : (getBinaryValueData valueName probe fetch a b).res = Res.value r) :
    (getBinaryValueData valueName probe fetch a b).log =
      [Ev.query true, Ev.malloc (dwordRequest probe.dwBufSize) true, Ev.query false] := by
  simp only [getBinaryValueData] at h ⊢
  split_ifs at h ⊢
  rfl

/-- C20 is violated by the code: the typed read helpers never release their
read buffer on the paths that end with a value (getStringValueData releases
only its uniBuf), get-default-value never releases its buffer, and the two
enumeration adapters return without releasing theirs when the enumeration
call fails: on each of these exits one allocated block is still held. -/
theorem read_paths_leak (bits : Nat) (hKey : Nat) (name : CStr) (probe fetch : QueryReply)
    (info : InfoReply) (reply : EnumReply) (a b c d : Bool) :
    (∀ s, getStringValueData bits name probe fetch a b = Res.value s →
      allocated (getStringValueDataLog probe fetch a b) = 2 ∧
      released (getStringValueDataLog probe fetch a b) = 1) ∧
    (∀ r, (getMultiStringValueData name probe fetch a b c d).res = Res.value r →
      allocated (getMultiStringValueData name probe fetch a b c d).log = 1 ∧
      released (getMultiStringValueData name probe fetch a b c d).log = 0) ∧
    (∀ r, (getBinaryValueData name probe fetch a b).res = Res.value r →
      allocated (getBinaryValueData name probe fetch a b).log = 1 ∧
      released (getBinaryValueData name probe fetch a b).log = 0) ∧
    (released (getDefaultValue bits probe fetch a b).log = 0 ∧
      ((getDefaultValue bits probe fetch a b).res.isValue = true →
        allocated (getDefaultValue bits probe fetch a b).log = 1)) ∧
    (info.regErr = ERROR_SUCCESS → reply.regErr ≠ ERROR_SUCCESS →
      allocated (regEnumKey hKey info reply true b).log = 1 ∧
      released (regEnumKey hKey info reply true b).log = 0 ∧
      allocated (regEnumValue hKey info reply true b).log = 1 ∧
      released (regEnumValue hKey info reply true b).log = 0) := by
  refine ⟨?_, ?_, ?_, ⟨?_, ?_⟩, ?_⟩
  · intro s hs
    rw [getStringValueData_ok_log bits name probe fetch a b s hs]
    exact ⟨rfl, rfl⟩
  · intro r hr
    rw [getMultiStringValueData_value_log name probe fetch a b c d r hr]
    exact ⟨rfl, rfl⟩
  · intro r hr
    rw [getBinaryValueData_value_log name probe fetch a b r hr]
    exact ⟨rfl, rfl⟩
  · simp only [getDefaultValue]
    split_ifs
    · rfl
    · rfl
    · rfl
    · split <;> rfl
  · simp only [getDefaultValue]
    split_ifs
    · intro h; simp [Res.isValue] at h
    · intro h; simp [Res.isValue] at h
    · intro h; simp [Res.isValue] at h
    · rename_i hb
      have hb2 : a = true := by simpa using hb
      subst hb2
      split <;> intro _ <;> rfl
  · intro hi hr
    have h1 : (maxSubKeyLength hKey info).1 = ERROR_SUCCESS := by
      unfold maxSubKeyLength
      split_ifs <;> exact hi
    have h2 : (maxValueNameLength hKey info).1 = ERROR_SUCCESS := by
      unfold maxValueNameLength
      split_ifs <;> exact hi
    simp only [regEnumKey, regEnumValue, h1, h2, ne_eq, not_true_eq_false, if_false,
      Bool.not_true, Bool.false_eq_true, hr, not_false_eq_true, if_true]
    exact ⟨rfl, rfl, rfl, rfl⟩

/-- Instance for C20: a successful String read of the stored bytes "Hi" and
NUL obtains two blocks and releases one; an enumeration whose native call
reports status 259 obtains one block and releases none. -/
theorem read_paths_leak_witness :
    allocated (getStringValueDataLog ⟨ERROR_SUCCESS, REG_SZ, 3, fun _ => 0⟩
      ⟨ERROR_SUCCESS, REG_SZ, 3, fun q => [72, 105, 0].getD q 9⟩ true true) = 2 ∧
    released (getStringValueDataLog ⟨ERROR_SUCCESS, REG_SZ, 3, fun _ => 0⟩
      ⟨ERROR_SUCCESS, REG_SZ, 3, fun q => [72, 105, 0].getD q 9⟩ true true) = 1 ∧
    allocated (regEnumKey 309 ⟨ERROR_SUCCESS, 10⟩ ⟨259, []⟩ true true).log = 1 ∧
    released (regEnumKey 309 ⟨ERROR_SUCCESS, 10⟩ ⟨259, []⟩ true true).log = 0 := by
  have h := read_paths_leak 64 309 "v".toList ⟨ERROR_SUCCESS, REG_SZ, 3, fun _ => 0⟩
    ⟨ERROR_SUCCESS, REG_SZ, 3, fun q => [72, 105, 0].getD q 9⟩ ⟨ERROR_SUCCESS, 10⟩ ⟨259, []⟩
    true true true true
  have h1 := h.1 [72, 105] (by
    simp [getStringValueData, ERROR_SUCCESS, REG_SZ, REG_EXPAND_SZ, DWORD_MOD, widen,
      List.range_succ, decrementedSize, uniBufSlots, uniBufBytes, toInt32])
  have h5 := h.2.2.2.2 rfl (by decide)
  exact ⟨h1.1, h1.2, h5.1, h5.2.1⟩

/-! ## Typed reads, decoder passes, counter writes and message buffers : lemmas and claims -/

/-- C21 (DWord read type check): after a successful native query the DWord read
path raises the invalid-parameter `RegistryException` if and only if the
returned type is not `REG_DWORD`; its test `t != REG_DWORD || t ==
REG_DWORD_BIG_ENDIAN` is equivalent to `t != REG_DWORD` for every tag `t`, a
`REG_DWORD_BIG_ENDIAN` value is always rejected, the result is the stored
32-bit value exactly when the type is `REG_DWORD`, and the function agrees
with the reading worded by the specification. -/
theorem dword_read_type_check (valueName : CStr) (fetch : QueryReply)
    (hok : fetch.regErr = ERROR_SUCCESS) :
    ((getDWordValueData valueName fetch).res
        = Res.threw (throwRegErrorException ERROR_INVALID_PARAMETER
            "type is not REG_DWORD".toList)
      ↔ fetch.dwType ≠ REG_DWORD) ∧
    (∀ t : Nat, (t ≠ REG_DWORD ∨ t = REG_DWORD_BIG_ENDIAN) ↔ t ≠ REG_DWORD) ∧
    (fetch.dwType = REG_DWORD_BIG_ENDIAN →
      (getDWordValueData valueName fetch).res
        = Res.threw (throwRegErrorException ERROR_INVALID_PARAMETER
            "type is not REG_DWORD".toList)) ∧
    ((getDWordValueData valueName fetch).res = Res.value (dwordAt fetch.data)
      ↔ fetch.dwType = REG_DWORD) ∧
    (∀ v, (getDWordValueData valueName fetch).res = Res.value v →
      v = dwordAt fetch.data ∧ v < DWORD_MOD) ∧
    (getDWordValueData valueName fetch).res = dwordReadSpec fetch := by
  have hequiv : ∀ t : Nat, (t ≠ REG_DWORD ∨ t = REG_DWORD_BIG_ENDIAN) ↔ t ≠ REG_DWORD := by
    intro t
    constructor
    · rintro (h | h)
      · exact h
      · rw [h]
        decide
    · intro h
      exact Or.inl h
  have hlt : dwordAt fetch.data < DWORD_MOD := by
    unfold dwordAt DWORD_MOD
    omega
  by_cases ht : fetch.dwType = REG_DWORD
  · have hno : ¬ (fetch.dwType ≠ REG_DWORD ∨ fetch.dwType = REG_DWORD_BIG_ENDIAN) := by
      rw [hequiv]
      exact not_not.mpr ht
    have hres : (getDWordValueData valueName fetch).res = Res.value (dwordAt fetch.data) := by
      unfold getDWordValueData
      rw [if_neg (not_not.mpr hok), if_neg hno]
    refine ⟨?_, hequiv, ?_, ?_, ?_, ?_⟩
    · rw [hres]
      constructor
      · intro h
        cases h
      · intro h
        exact absurd ht h
    · intro hbe
      rw [hbe] at ht
      exact absurd ht (by decide)
    · rw [hres]
      exact ⟨fun _ => ht, fun _ => rfl⟩
    · intro v hv
      rw [hres] at hv
      cases hv
      exact ⟨rfl, hlt⟩
    · rw [hres]
      unfold dwordReadSpec
      rw [if_neg (not_not.mpr ht)]
  · have hyes : fetch.dwType ≠ REG_DWORD ∨ fetch.dwType = REG_DWORD_BIG_ENDIAN := Or.inl ht
    have hres : (getDWordValueData valueName fetch).res
        = Res.threw (throwRegErrorException ERROR_INVALID_PARAMETER
            "type is not REG_DWORD".toList) := by
      unfold getDWordValueData
      rw [if_neg (not_not.mpr hok), if_pos hyes]
    refine ⟨?_, hequiv, ?_, ?_, ?_, ?_⟩
    · exact ⟨fun _ => ht, fun _ => hres⟩
    · intro _
      exact hres
    · rw [hres]
      constructor
      · intro h
        cases h
      · intro h
        exact absurd h ht
    · intro v hv
      rw [hres] at hv
      cases hv
    · rw [hres]
      unfold dwordReadSpec throwRegErrorException
      rw [if_pos ht]

/-- The DWord read on a `REG_DWORD_BIG_ENDIAN` value and on a `REG_DWORD`
value holding the bytes 1, 2, 0, 0. -/
theorem dword_read_type_check_witness :
    (⟨0, REG_DWORD_BIG_ENDIAN, 4, fun _ => 0⟩ : QueryReply).regErr = ERROR_SUCCESS ∧
    (getDWordValueData [] ⟨0, REG_DWORD_BIG_ENDIAN, 4, fun _ => 0⟩).res
      = Res.threw (Thrown.RegistryException 87 "type is not REG_DWORD".toList) ∧
    (getDWordValueData [] ⟨0, REG_DWORD, 4, fun q => [1, 2, 0, 0].getD q 0⟩).res
      = Res.value 513 :=
  ⟨rfl,
   (dword_read_type_check [] ⟨0, REG_DWORD_BIG_ENDIAN, 4, fun _ => 0⟩ rfl).2.2.1 rfl,
   by simp [getDWordValueData, ERROR_SUCCESS, REG_DWORD, REG_DWORD_BIG_ENDIAN, dwordAt]⟩

/-- The count scan started from `k` counts `k` more than started from 0. -/
theorem countScan_acc (strData : Mem) (n : Int) :
    ∀ (fuel i k : Nat),
      countScan strData n fuel i k = k + countScan strData n fuel i 0 := by
  intro fuel
  induction fuel with
  | zero =>
    intro i k
    simp [countScan]
  | succ fuel ih =>
    intro i k
    simp only [countScan]
    split_ifs
    · omega
    · rw [ih (i + 1) (k + 1), ih (i + 1) (0 + 1)]
      omega
    · exact ih (i + 1) k
    · omega

/-- The materialise scan is the replay of its recorded stores. -/
theorem fillScan_trace (strData : Mem) (n : Int) (count : Nat) :
    ∀ (fuel i start cnt : Nat) (result : List (Option JString)),
      fillScan strData n count fuel i start cnt result
        = (fillTrace strData n count fuel i start cnt).foldl (setSlot strData) result := by
  intro fuel
  induction fuel with
  | zero =>
    intro i start cnt result
    rfl
  | succ fuel ih =>
    intro i start cnt result
    simp only [fillScan, fillTrace]
    split_ifs
    · rfl
    · rw [ih]
      rfl
    · exact ih _ _ _ _
    · rfl

/-- The indices stored by the materialise scan, when `count` is what the count
scan finds from the same position. -/
theorem fillTrace_idx (strData : Mem) (n : Int) (count : Nat) :
    ∀ (fuel i start cnt : Nat), count = cnt + countScan strData n fuel i 0 →
      (fillTrace strData n count fuel i start cnt).map SlotWrite.idx
        = List.range' cnt (countScan strData n fuel i 0) := by
  intro fuel
  induction fuel with
  | zero =>
    intro i start cnt _
    rfl
  | succ fuel ih =>
    intro i start cnt hc
    simp only [countScan] at hc ⊢
    simp only [fillTrace]
    by_cases hi : (i : Int) < n
    · by_cases h0 : strData i = 0
      · by_cases h1 : strData (i + 1) = 0
        · simp only [if_pos hi, if_pos h0, if_pos h1] at hc ⊢
          have hlt : (i : Int) < n ∧ cnt < count := ⟨hi, by omega⟩
          simp only [if_pos hlt]
          rfl
        · simp only [if_pos hi, if_pos h0, if_neg h1] at hc ⊢
          rw [countScan_acc strData n fuel (i + 1) (0 + 1)] at hc ⊢
          have hlt : (i : Int) < n ∧ cnt < count := ⟨hi, by omega⟩
          simp only [if_pos hlt]
          rw [List.map_cons, ih (i + 1) (i + 1) (cnt + 1) (by omega),
            Nat.add_comm (0 + 1), List.range'_succ]
      · simp only [if_pos hi, if_neg h0] at hc ⊢
        by_cases hcnt : cnt < count
        · have hlt : (i : Int) < n ∧ cnt < count := ⟨hi, hcnt⟩
          simp only [if_pos hlt]
          exact ih (i + 1) start cnt hc
        · have hlt : ¬ ((i : Int) < n ∧ cnt < count) := fun h => hcnt h.2
          simp only [if_neg hlt]
          have hz : countScan strData n fuel (i + 1) 0 = 0 := by omega
          rw [hz]
          rfl
    · have hlt : ¬ ((i : Int) < n ∧ cnt < count) := fun h => hi h.1
      simp only [if_neg hi, if_neg hlt]
      rfl

/-- The array left by the materialise scan when it starts on an array whose
first `cnt` slots are filled and whose other slots are null. -/
theorem fillScan_filled (strData : Mem) (n : Int) (count : Nat) :
    ∀ (fuel i start cnt : Nat) (done : List JString), done.length = cnt →
      count = cnt + countScan strData n fuel i 0 →
      fillScan strData n count fuel i start cnt
          (done.map some ++ List.replicate (countScan strData n fuel i 0) none)
        = done.map some
          ++ (fillTrace strData n count fuel i start cnt).map
              (fun w => some (w.jStr strData)) := by
  intro fuel
  induction fuel with
  | zero =>
    intro i start cnt done _ _
    simp [fillScan, fillTrace, countScan]
  | succ fuel ih =>
    intro i start cnt done hd hc
    simp only [countScan] at hc ⊢
    simp only [fillScan, fillTrace]
    by_cases hi : (i : Int) < n
    · by_cases h0 : strData i = 0
      · by_cases h1 : strData (i + 1) = 0
        · simp only [if_pos hi, if_pos h0, if_pos h1] at hc ⊢
          have hlt : (i : Int) < n ∧ cnt < count := ⟨hi, by omega⟩
          simp only [if_pos hlt]
          have hs := set_done done (strbufToJString strData start (i - start)) 0
          simp only [Nat.add_zero, List.replicate_zero, List.append_nil] at hs
          rw [← hd, Nat.zero_add, hs]
          simp [SlotWrite.jStr]
        · simp only [if_pos hi, if_pos h0, if_neg h1] at hc ⊢
          rw [countScan_acc strData n fuel (i + 1) (0 + 1)] at hc ⊢
          have hlt : (i : Int) < n ∧ cnt < count := ⟨hi, by omega⟩
          simp only [if_pos hlt]
          have hs := set_done done (strbufToJString strData start (i - start))
            (countScan strData n fuel (i + 1) 0)
          rw [hd] at hs
          rw [Nat.zero_add, hs,
            ih (i + 1) (i + 1) (cnt + 1) (done ++ [strbufToJString strData start (i - start)])
              (by simp [hd]) (by omega)]
          simp [SlotWrite.jStr]
      · simp only [if_pos hi, if_neg h0] at hc ⊢
        by_cases hcnt : cnt < count
        · have hlt : (i : Int) < n ∧ cnt < count := ⟨hi, hcnt⟩
          simp only [if_pos hlt]
          exact ih (i + 1) start cnt done hd hc
        · have hlt : ¬ ((i : Int) < n ∧ cnt < count) := fun h => hcnt h.2
          simp only [if_neg hlt]
          have hz : countScan strData n fuel (i + 1) 0 = 0 := by omega
          rw [hz]
          simp
    · have hlt : ¬ ((i : Int) < n ∧ cnt < count) := fun h => hi h.1
      simp only [if_neg hi, if_neg hlt]
      simp

/-- The stores of the materialise scan follow the buffer: each string starts
at or after `start`, ends on a terminator inside the reported size at or after
`i`, and starts after the terminator of the string stored before it. -/
theorem fillTrace_order (strData : Mem) (n : Int) (count : Nat) :
    ∀ (fuel i start cnt : Nat), start ≤ i →
      (∀ w ∈ fillTrace strData n count fuel i start cnt,
        start ≤ w.start ∧ i ≤ w.start + w.len ∧ ((w.start + w.len : Nat) : Int) < n
          ∧ strData (w.start + w.len) = 0) ∧
      (fillTrace strData n count fuel i start cnt).Pairwise
        (fun a b => a.start + a.len < b.start) := by
  intro fuel
  induction fuel with
  | zero =>
    intro i start cnt _
    simp [fillTrace]
  | succ fuel ih =>
    intro i start cnt hsi
    simp only [fillTrace]
    by_cases hc : (i : Int) < n ∧ cnt < count
    · rw [if_pos hc]
      by_cases h0 : strData i = 0
      · rw [if_pos h0]
        have hend : start + (i - start) = i := by omega
        by_cases h1 : strData (i + 1) = 0
        · rw [if_pos h1]
          refine ⟨?_, List.pairwise_singleton _ _⟩
          intro w hw
          rw [List.mem_singleton] at hw
          subst hw
          simp only [hend]
          exact ⟨le_refl _, le_refl _, hc.1, h0⟩
        · rw [if_neg h1]
          obtain ⟨hmem, hpair⟩ := ih (i + 1) (i + 1) (cnt + 1) (le_refl _)
          refine ⟨?_, ?_⟩
          · intro w hw
            rcases List.mem_cons.mp hw with hw | hw
            · subst hw
              simp only [hend]
              exact ⟨le_refl _, le_refl _, hc.1, h0⟩
            · obtain ⟨a, b, c, d⟩ := hmem w hw
              exact ⟨by omega, by omega, c, d⟩
          · rw [List.pairwise_cons]
            refine ⟨?_, hpair⟩
            intro w hw
            have := (hmem w hw).1
            simp only [hend]
            omega
      · rw [if_neg h0]
        obtain ⟨hmem, hpair⟩ := ih (i + 1) start cnt (by omega)
        refine ⟨?_, hpair⟩
        intro w hw
        obtain ⟨a, b, c, d⟩ := hmem w hw
        exact ⟨a, by omega, c, d⟩
    · rw [if_neg hc]
      simp

/-- The two scans on the buffer 'a', NUL, 'b', 'c', NUL, NUL with reported
size 6: two strings counted, two stores, at indices 0 and 1. -/
theorem decodeWrites_example :
    decodeCount (fun q => [97, 0, 98, 99, 0, 0].getD q 0) 6 = 2 ∧
    decodeWrites (fun q => [97, 0, 98, 99, 0, 0].getD q 0) 6 = [⟨0, 0, 1⟩, ⟨1, 2, 2⟩] ∧
    decodeMultiSz (fun q => [97, 0, 98, 99, 0, 0].getD q 0) 6 = [some [97], some [98, 99]] := by
  decide

/-- C22 (two-pass agreement in the multi-string decoder): for every buffer
content and every reported size, the materialise scan of
`getMultiStringValueData` issues exactly `count` stores, `count` being the
result of the count scan; their indices are 0, 1, ..., count - 1 in this
order, each once and none at or past `count`; each stored string starts after
the terminator of the one stored before it; the result array is the replay of
these stores on `count` null slots, has `count` elements, and none is null. -/
theorem two_pass_agreement (strData : Mem) (dwBufSize : Nat) :
    (decodeWrites strData dwBufSize).length = decodeCount strData dwBufSize ∧
    (decodeWrites strData dwBufSize).map SlotWrite.idx
      = List.range (decodeCount strData dwBufSize) ∧
    ((decodeWrites strData dwBufSize).map SlotWrite.idx).Nodup ∧
    (∀ w ∈ decodeWrites strData dwBufSize, w.idx < decodeCount strData dwBufSize) ∧
    (decodeWrites strData dwBufSize).Pairwise (fun a b => a.start + a.len < b.start) ∧
    decodeMultiSz strData dwBufSize
      = (decodeWrites strData dwBufSize).foldl (setSlot strData)
          (List.replicate (decodeCount strData dwBufSize) none) ∧
    decodeMultiSz strData dwBufSize
      = (decodeWrites strData dwBufSize).map (fun w => some (w.jStr strData)) ∧
    (decodeMultiSz strData dwBufSize).length = decodeCount strData dwBufSize ∧
    (∀ slot ∈ decodeMultiSz strData dwBufSize, slot ≠ none) := by
  have hidx : (decodeWrites strData dwBufSize).map SlotWrite.idx
      = List.range (decodeCount strData dwBufSize) := by
    rw [List.range_eq_range']
    exact fillTrace_idx strData (toInt32 dwBufSize) (decodeCount strData dwBufSize)
      (toInt32 dwBufSize).toNat 0 0 0 (Nat.zero_add _).symm
  have hlen : (decodeWrites strData dwBufSize).length = decodeCount strData dwBufSize := by
    have h := congrArg List.length hidx
    rwa [List.length_map, List.length_range] at h
  have hreplay : decodeMultiSz strData dwBufSize
      = (decodeWrites strData dwBufSize).foldl (setSlot strData)
          (List.replicate (decodeCount strData dwBufSize) none) :=
    fillScan_trace strData (toInt32 dwBufSize) (decodeCount strData dwBufSize)
      (toInt32 dwBufSize).toNat 0 0 0 _
  have hfilled : decodeMultiSz strData dwBufSize
      = (decodeWrites strData dwBufSize).map (fun w => some (w.jStr strData)) := by
    have h := fillScan_filled strData (toInt32 dwBufSize) (decodeCount strData dwBufSize)
      (toInt32 dwBufSize).toNat 0 0 0 [] rfl (Nat.zero_add _).symm
    simpa using h
  refine ⟨hlen, hidx, ?_, ?_, ?_, hreplay, hfilled, ?_, ?_⟩
  · rw [hidx]
    exact List.nodup_range _
  · intro w hw
    have hm : w.idx ∈ (decodeWrites strData dwBufSize).map SlotWrite.idx :=
      List.mem_map_of_mem _ hw
    rw [hidx] at hm
    exact List.mem_range.mp hm
  · exact (fillTrace_order strData (toInt32 dwBufSize) (decodeCount strData dwBufSize)
      (toInt32 dwBufSize).toNat 0 0 0 (le_refl _)).2
  · rw [hfilled, List.length_map, hlen]
  · intro slot hs
    rw [hfilled] at hs
    obtain ⟨w, _, hw⟩ := List.mem_map.mp hs
    rw [← hw]
    exact Option.some_ne_none _

/-- The `DWORD` decrement on a size of at least one byte. -/
theorem decrementedSize_pos (S : Nat) (h1 : 1 ≤ S) (h2 : S < DWORD_MOD) :
    decrementedSize S = S - 1 := by
  unfold decrementedSize
  unfold DWORD_MOD at h2 ⊢
  omega

/-- The slots of `uniBuf` when neither the `DWORD` sum nor the `size_t`
product wraps. -/
theorem uniBufSlots_small (bits S : Nat)
    (h : (bits = 32 ∧ S + 2 < 2147483648) ∨ (bits = 64 ∧ S + 2 < 4294967296)) :
    uniBufSlots bits S = S + 2 := by
  unfold uniBufSlots uniBufBytes DWORD_MOD
  rcases h with ⟨hb, hs⟩ | ⟨hb, hs⟩ <;> subst hb <;> omega

/-- The String read path once both queries and both allocations succeeded. -/
theorem getStringValueData_reached (bits : Nat) (valueName : CStr) (probe fetch : QueryReply)
    (hprobe : probe.regErr = ERROR_SUCCESS)
    (htype : probe.dwType = REG_SZ ∨ probe.dwType = REG_EXPAND_SZ)
    (hfetch : fetch.regErr = ERROR_SUCCESS) :
    getStringValueData bits valueName probe fetch true true
      = if uniBufSlots bits fetch.dwBufSize < decrementedSize fetch.dwBufSize
            ∨ toInt32 (decrementedSize fetch.dwBufSize) < 0 then Res.undefined
        else Res.value ((List.range (decrementedSize fetch.dwBufSize)).map
          (fun i => widen (fetch.data i))) := by
  have ht : ¬ (probe.dwType ≠ REG_SZ ∧ probe.dwType ≠ REG_EXPAND_SZ) := by
    rintro ⟨h1, h2⟩
    rcases htype with h | h
    · exact h1 h
    · exact h2 h
  unfold getStringValueData
  rw [if_neg (not_not.mpr hprobe), if_neg ht, if_neg (not_not.mpr hfetch)]
  simp only [Bool.not_true, Bool.false_eq_true, if_false]

/-- C23, as stated, fails for a reported data size of 0: the decrement wraps
the count to 4294967295, more than the 2 slots of `uniBuf` and -1 as the
`jsize` given to `NewString`; no managed string of 4294967295 characters is
built, on a 32-bit and on a 64-bit `size_t`. -/
theorem string_read_length_counterexample :
    decrementedSize 0 = 4294967295 ∧
    uniBufSlots 64 0 = 2 ∧ uniBufSlots 32 0 = 2 ∧
    toInt32 (decrementedSize 0) = -1 ∧
    (∀ s : JString,
      getStringValueData 64 [] ⟨0, REG_SZ, 0, fun _ => 0⟩ ⟨0, REG_SZ, 0, fun _ => 0⟩ true true
        ≠ Res.value s) ∧
    (∀ s : JString,
      getStringValueData 32 [] ⟨0, REG_SZ, 0, fun _ => 0⟩ ⟨0, REG_SZ, 0, fun _ => 0⟩ true true
        ≠ Res.value s) := by
  have h1 : decrementedSize 0 = 4294967295 := by decide
  have h3 : toInt32 (decrementedSize 0) = -1 := by
    rw [h1]
    decide
  have h4 : ∀ bits : Nat,
      getStringValueData bits [] ⟨0, REG_SZ, 0, fun _ => 0⟩ ⟨0, REG_SZ, 0, fun _ => 0⟩
        true true = Res.undefined := by
    intro bits
    rw [getStringValueData_reached _ _ _ _ rfl (Or.inl rfl) rfl]
    exact if_pos (Or.inr (by rw [h3]; decide))
  refine ⟨h1, by decide, by decide, h3, ?_, ?_⟩
  · intro s hs
    rw [h4] at hs
    cases hs
  · intro s hs
    rw [h4] at hs
    cases hs

/-- C23 (amended): once both queries and both allocations of
`getStringValueData` succeeded, with `S` the data size reported by the second
query: for `1 <= S <= 2 ^ 31 - 3`, and for `1 <= S <= 2 ^ 31` where `size_t`
has 64 bits, the managed string is built from `S - 1` characters, character
`i` being the widening of stored byte `i`: these are the first `S - 1` bytes
whatever the byte at offset `S - 1` is. -/
theorem string_read_length (bits : Nat) (valueName : CStr) (probe fetch : QueryReply)
    (hprobe : probe.regErr = ERROR_SUCCESS)
    (htype : probe.dwType = REG_SZ ∨ probe.dwType = REG_EXPAND_SZ)
    (hfetch : fetch.regErr = ERROR_SUCCESS)
    (h1 : 1 ≤ fetch.dwBufSize)
    (hS : (bits = 32 ∧ fetch.dwBufSize ≤ 2147483645) ∨
      (bits = 64 ∧ fetch.dwBufSize ≤ 2147483648)) :
    getStringValueData bits valueName probe fetch true true
      = Res.value ((List.range (fetch.dwBufSize - 1)).map (fun i => widen (fetch.data i))) ∧
    ((List.range (fetch.dwBufSize - 1)).map (fun i => widen (fetch.data i))).length
      = fetch.dwBufSize - 1 ∧
    (∀ i, i < fetch.dwBufSize - 1 →
      ((List.range (fetch.dwBufSize - 1)).map (fun i => widen (fetch.data i))).getD i 0
        = widen (fetch.data i)) ∧
    (∀ b : Nat,
      getStringValueData bits valueName probe
          { fetch with data := store fetch.data (fetch.dwBufSize - 1) b } true true
        = getStringValueData bits valueName probe fetch true true) := by
  have hlt : fetch.dwBufSize < DWORD_MOD := by
    unfold DWORD_MOD
    rcases hS with ⟨_, h⟩ | ⟨_, h⟩ <;> omega
  have h2 : fetch.dwBufSize ≤ 2147483648 := by
    rcases hS with ⟨_, h⟩ | ⟨_, h⟩ <;> omega
  have hdec := decrementedSize_pos _ h1 hlt
  have hslots : uniBufSlots bits fetch.dwBufSize = fetch.dwBufSize + 2 := by
    apply uniBufSlots_small
    rcases hS with ⟨hb, h⟩ | ⟨hb, h⟩
    · exact Or.inl ⟨hb, by omega⟩
    · exact Or.inr ⟨hb, by omega⟩
  have hfit : ¬ (fetch.dwBufSize + 2 < fetch.dwBufSize - 1
      ∨ toInt32 (fetch.dwBufSize - 1) < 0) := by
    rw [toInt32_of_lt _ (by omega)]
    omega
  have hval : getStringValueData bits valueName probe fetch true true
      = Res.value ((List.range (fetch.dwBufSize - 1)).map
          (fun i => widen (fetch.data i))) := by
    rw [getStringValueData_reached _ _ _ _ hprobe htype hfetch, hdec, hslots, if_neg hfit]
  refine ⟨hval, ?_, ?_, ?_⟩
  · rw [List.length_map, List.length_range]
  · intro i hi
    rw [List.getD_eq_getElem?_getD, List.getElem?_map, List.getElem?_range hi]
    rfl
  · intro b
    rw [hval, getStringValueData_reached bits valueName probe
      { fetch with data := store fetch.data (fetch.dwBufSize - 1) b } hprobe htype hfetch]
    have hmap : (List.range (fetch.dwBufSize - 1)).map
          (fun i => widen (store fetch.data (fetch.dwBufSize - 1) b i))
        = (List.range (fetch.dwBufSize - 1)).map (fun i => widen (fetch.data i)) := by
      apply List.map_congr_left
      intro i hi
      have hi2 : i < fetch.dwBufSize - 1 := List.mem_range.mp hi
      simp only [store, if_neg (Nat.ne_of_lt hi2)]
    simp only []
    rw [hdec, hslots, if_neg hfit, hmap]

/-- A three-byte value 'H', 'i', '!' whose last byte is not a terminator reads
as the two characters "Hi", on a 32-bit `size_t`. -/
theorem string_read_length_witness :
    (⟨0, REG_SZ, 3, fun _ => 0⟩ : QueryReply).regErr = ERROR_SUCCESS ∧
    getStringValueData 32 [] ⟨0, REG_SZ, 3, fun _ => 0⟩
        ⟨0, REG_SZ, 3, fun q => [72, 105, 33].getD q 0⟩ true true
      = Res.value [72, 105] :=
  ⟨rfl,
   (string_read_length 32 [] ⟨0, REG_SZ, 3, fun _ => 0⟩
      ⟨0, REG_SZ, 3, fun q => [72, 105, 33].getD q 0⟩ rfl (Or.inl rfl) rfl
      (by decide) (Or.inl ⟨rfl, by decide⟩)).1.trans
    (by simp [List.range_succ, widen])⟩

/-- C24 (counter write-back shape): when the native read of `incrDoubleWord` or
`decrDoubleWord` succeeds, exactly one native write follows, whatever its
status; it has type `REG_DWORD` and the data length the read reported, so 4
bytes when the read reported 4, and a value of another type with fewer than 4
bytes is written back, from zero, as a `REG_DWORD` of that shorter length. -/
theorem counter_write_shape (lpValueName : CStr) (read : DwordReply) (writeErr : Int)
    (hread : read.regErr = ERROR_SUCCESS) :
    (∃ dw, (incrDoubleWord true lpValueName read writeErr).writes
        = [⟨REG_DWORD, dw, read.size⟩]) ∧
    (∃ dw, (decrDoubleWord true lpValueName read writeErr).writes
        = [⟨REG_DWORD, dw, read.size⟩]) ∧
    (read.size = 4 →
      (incrDoubleWord true lpValueName read writeErr).writes.map (fun c => c.size) = [4] ∧
      (decrDoubleWord true lpValueName read writeErr).writes.map (fun c => c.size) = [4]) ∧
    (read.dwType ≠ REG_DWORD → read.size < 4 →
      (incrDoubleWord true lpValueName read writeErr).writes = [⟨REG_DWORD, 1, read.size⟩] ∧
      (decrDoubleWord true lpValueName read writeErr).writes
        = [⟨REG_DWORD, 4294967295, read.size⟩]) := by
  have hi : (incrDoubleWord true lpValueName read writeErr).writes
      = [⟨REG_DWORD, ((if read.dwType ≠ REG_DWORD then 0 else read.dw % DWORD_MOD) + 1)
          % DWORD_MOD, read.size⟩] := by
    simp only [incrDoubleWord, Bool.not_true, Bool.false_eq_true, if_false,
      if_neg (not_not.mpr hread)]
    split_ifs <;> rfl
  have hd : (decrDoubleWord true lpValueName read writeErr).writes
      = [⟨REG_DWORD, ((if read.dwType ≠ REG_DWORD then 0 else read.dw % DWORD_MOD)
          + (DWORD_MOD - 1)) % DWORD_MOD, read.size⟩] := by
    simp only [decrDoubleWord, Bool.not_true, Bool.false_eq_true, if_false,
      if_neg (not_not.mpr hread)]
    split_ifs <;> rfl
  refine ⟨⟨_, hi⟩, ⟨_, hd⟩, ?_, ?_⟩
  · intro h4
    rw [hi, hd, h4]
    exact ⟨rfl, rfl⟩
  · intro ht _
    rw [hi, hd, if_pos ht]
    exact ⟨rfl, rfl⟩

/-- A one-byte `REG_BINARY` value (type 3) read with success is written back
as a `REG_DWORD` of one byte, also when the write then fails with status 5. -/
theorem counter_write_shape_witness :
    (⟨0, 3, 200, 1⟩ : DwordReply).regErr = ERROR_SUCCESS ∧
    (incrDoubleWord true [] ⟨0, 3, 200, 1⟩ 5).writes = [⟨4, 1, 1⟩] ∧
    (decrDoubleWord true [] ⟨0, 3, 200, 1⟩ 5).writes = [⟨4, 4294967295, 1⟩] :=
  ⟨rfl, (counter_write_shape [] ⟨0, 3, 200, 1⟩ 5 rfl).2.2.2 (by decide) (by decide)⟩

/-- A bound on the length of both branches bounds the length of a choice. -/
theorem length_ite_le (c : Prop) [Decidable c] (a b : CStr) (n : Nat)
    (ha : a.length ≤ n) (hb : b.length ≤ n) : (if c then a else b).length ≤ n := by
  split_ifs
  · exact ha
  · exact hb

/-- Every description of the table has at most 20 characters. -/
theorem regDescription_length (regErr : Int) : (regDescription regErr).length ≤ 20 := by
  unfold regDescription
  repeat' apply length_ite_le
  all_goals decide

/-- The conversion `%d` of a 32-bit value gives at most 11 characters. -/
theorem fmtD_length (v : Int) (hlo : -2147483648 ≤ v) (hhi : v ≤ 2147483647) :
    (fmtD v).length ≤ 11 := by
  unfold fmtD
  split_ifs with h
  · have h1 : ((-v).toNat) < 10 ^ 10 := by omega
    have h2 := Nat.repr_length (-v).toNat 10 (by decide) h1
    have h3 : (Nat.repr (-v).toNat).toList.length = (Nat.repr (-v).toNat).length := rfl
    rw [List.length_cons, h3]
    omega
  · have h1 : (v.toNat) < 10 ^ 10 := by omega
    have h2 := Nat.repr_length v.toNat 10 (by decide) h1
    have h3 : (Nat.repr v.toNat).toList.length = (Nat.repr v.toNat).length := rfl
    rw [h3]
    omega

/-- The conversion `%.Ns` gives at most `N` characters. -/
theorem fmtPrecS_length (prec : Nat) (s : CStr) : (fmtPrecS prec s).length ≤ prec := by
  rw [fmtPrecS_eq_take, List.length_take]
  exact Nat.min_le_left _ _

/-- C25 (message buffers never overflow): every description of the table of
`throwRegErrorException` has at most 128 characters; for every 32-bit status
and every label the text written to `strBuf` has at most
19 + 11 + 3 + 128 + 5 + 256 + 1 = 423 characters; for every label and every
key or value name the text written to `msgBuf` by `throwSpecificRegError` has
at most 200 + 9 + 200 + 1 = 410 characters; each text and its terminating NUL
fit in the 512 bytes of its buffer. -/
theorem message_buffers_fit (regErr : Int) (message : CStr) (keyName valueName : Option CStr)
    (hlo : -2147483648 ≤ regErr) (hhi : regErr ≤ 2147483647) :
    (regDescription regErr).length ≤ 128 ∧
    (fmtD regErr).length ≤ 11 ∧
    (strBufText regErr message).length ≤ 19 + 11 + 3 + 128 + 5 + 256 + 1 ∧
    (strBufText regErr message).length + 1 ≤ MSG_BUF_SIZE ∧
    (∀ msgBuf, throwSpecificRegError regErr message keyName valueName
          = Thrown.NoSuchKeyException msgBuf
        ∨ throwSpecificRegError regErr message keyName valueName
          = Thrown.NoSuchValueException msgBuf →
      msgBuf.length ≤ 200 + 9 + 200 + 1 ∧ msgBuf.length + 1 ≤ MSG_BUF_SIZE) ∧
    (∀ t, throwSpecificRegError regErr message keyName valueName = t →
      (∃ msgBuf, t = Thrown.NoSuchKeyException msgBuf) ∨
      (∃ msgBuf, t = Thrown.NoSuchValueException msgBuf) ∨
      t = throwRegErrorException regErr message) := by
  have hd := regDescription_length regErr
  have hn := fmtD_length regErr hlo hhi
  have hp1 := fmtPrecS_length 128 (regDescription regErr)
  have hp2 := fmtPrecS_length 256 message
  have hm := fmtPrecS_length 200 message
  have hs : (strBufText regErr message).length ≤ 423 := by
    unfold strBufText
    simp only [List.length_append]
    have e1 : "Registry API Error ".toList.length = 19 := by decide
    have e2 : ", \x27".toList.length = 3 := by decide
    have e3 : "\x27 - \x27".toList.length = 5 := by decide
    have e4 : "\x27".toList.length = 1 := by decide
    rw [e1, e2, e3, e4]
    omega
  have ek : ", key=\x27".toList.length = 7 := by decide
  have ev : ", value=\x27".toList.length = 9 := by decide
  have eq : "\x27".toList.length = 1 := by decide
  refine ⟨by omega, hn, hs, by unfold MSG_BUF_SIZE; omega, ?_, ?_⟩
  · intro msgBuf h
    have hlen : msgBuf.length ≤ 410 := by
      unfold throwSpecificRegError throwRegErrorException at h
      split_ifs at h with c1 c2
      · rcases h with h | h <;> cases h
      · rcases h with h | h
        · have hk := fmtPrecS_length 200 (keyName.getD [])
          injection h with h
          rw [← h]
          simp only [List.length_append]
          rw [ek, eq]
          omega
        · cases h
      · rcases h with h | h
        · cases h
        · have hk := fmtPrecS_length 200 (valueName.getD [])
          injection h with h
          rw [← h]
          simp only [List.length_append]
          rw [ev, eq]
          omega
    exact ⟨hlen, by unfold MSG_BUF_SIZE; omega⟩
  · intro t ht
    rw [← ht]
    unfold throwSpecificRegError
    split_ifs
    · exact Or.inr (Or.inr rfl)
    · exact Or.inl ⟨_, rfl⟩
    · exact Or.inr (Or.inl ⟨_, rfl⟩)

/-- The texts for status -2147483648 with a label of 300 characters and for a
missing value whose name has 300 characters. -/
theorem message_buffers_fit_witness :
    (-2147483648 : Int) ≤ -2147483648 ∧ (-2147483648 : Int) ≤ 2147483647 ∧
    (fmtD (-2147483648)).length ≤ 11 ∧
    (strBufText (-2147483648) (List.replicate 300 'a')).length + 1 ≤ MSG_BUF_SIZE ∧
    strBufText 2 "RegOpenKeyEx()".toList
      = "Registry API Error 2, \x27not found\x27 - \x27RegOpenKeyEx()\x27".toList :=
  ⟨by decide, by decide,
   (message_buffers_fit (-2147483648) (List.replicate 300 'a') none none
      (by decide) (by decide)).2.1,
   (message_buffers_fit (-2147483648) (List.replicate 300 'a') none none
      (by decide) (by decide)).2.2.2.1,
   by decide⟩

end RegistryKey
